import Mathlib

/-!
Verification development for the reflect runtime type system and JSON codec
(reflect.c): a shallow embedding of the encoding-string parser, the process
wide type cache, the structural hash, value field access, and the type-driven
JSON encoder and decoder, together with theorems about the behaviour of those
functions.

Modelling conventions:
- C strings are List Char; reading the terminating NUL of a C string is
  modelled by peeking a virtual '\x00' at the end of the list.
- Machine integers are Nat / Int with explicit reduction modulo 2^64 where
  uint64_t arithmetic overflows; size_t casts reduce modulo 2^64.
- Allocation is modelled as never failing; the C return code used on
  allocation failure (1) is kept where the source returns it.
- Recursive C functions whose termination is not structural are given an
  explicit fuel parameter; fuel exhaustion is the sentinel error code 3,
  which the C code never returns (its codes are 0, 1 and 2).
-/

namespace Reflect

/-- Word size modulus for uint64_t arithmetic. -/
def M64 : Nat := 2 ^ 64

/-- Embedding of hash_data: hash = data[i] + (hash << 6) + (hash << 16) - hash,
over uint64_t, folded over the byte sequence. -/
def hash_data (bytes : List Nat) : Nat :=
  bytes.foldl (fun h b => (b % M64 + (h <<< 6) % M64 + (h <<< 16) % M64 + (M64 - h % M64)) % M64) 0

mutual
/-- Embedding of struct Type: the parsed type tree. The C struct stores a
kind tag, a modifiers bitmask, a lazily computed hash and a kind-specific
payload; the hash is recomputed from the structure (see hash_type), so it is
not stored in the tree. Names are byte strings (no interior NUL). -/
inductive Ty where
  | prim (mods : Nat) (code : Char)
  | ptr (mods : Nat) (pointee : Ty)
  | arr (mods : Nat) (length : Nat) (elem : Ty)
  | strct (mods : Nat) (name : List Char) (fields : List Field)
  | uni (mods : Nat) (name : List Char) (fields : List Field)
deriving Repr

/-- Embedding of struct Field: the field type, optional field name, the
optional sized_by companion name, the raw modifier strings, and the byte
offset computed by the parser. -/
inductive Field where
  | mk (type : Ty) (name : Option (List Char)) (length_field_name : Option (List Char))
       (modifiers : List (List Char)) (offset : Nat)
deriving Repr
end

def Field.type : Field → Ty
  | .mk t _ _ _ _ => t

def Field.name : Field → Option (List Char)
  | .mk _ n _ _ _ => n

def Field.length_field_name : Field → Option (List Char)
  | .mk _ _ l _ _ => l

def Field.modifiers : Field → List (List Char)
  | .mk _ _ _ m _ => m

def Field.offset : Field → Nat
  | .mk _ _ _ _ o => o

/-- Numeric tag of the enum TypeType constructor (PRIMITIVE, STRUCT, ARRAY,
POINTER in declaration order, with UNION appended). -/
def tyTag : Ty → Nat
  | .prim _ _ => 0
  | .strct _ _ _ => 1
  | .arr _ _ _ => 2
  | .ptr _ _ => 3
  | .uni _ _ _ => 4

/-- Modifier bitmask of the root node (the C modifiers field). -/
def Ty.mods : Ty → Nat
  | .prim m _ => m
  | .ptr m _ => m
  | .arr m _ _ => m
  | .strct m _ _ => m
  | .uni m _ _ => m

/-- Replace the modifier bitmask of the root node. -/
def Ty.withMods : Ty → Nat → Ty
  | .prim _ c, m => .prim m c
  | .ptr _ p, m => .ptr m p
  | .arr _ l e, m => .arr m l e
  | .strct _ n f, m => .strct m n f
  | .uni _ n f, m => .uni m n f

/-- ASCII codes of the primitive one-character type encodings (enum
TypeEncoding): c C s S i I l L q Q f d D * ^ B v, plus the aggregate
open markers handled by dedicated switch cases. -/
def TypeEncoding_UNION : Nat := 40       -- '('
def TypeEncoding_POINTER : Nat := 94     -- '^'

mutual
/-- Embedding of hash_type: primitive hashes to its code; a record/union to a
byte-hash of its name plus the sum of field hashes (union adds the union open
marker); an array to length times element hash; a pointer to 31 times pointee
hash plus the pointer marker; the modifier bits are added last. All uint64. -/
def hash_type : Ty → Nat
  | .prim m c => (c.toNat + m) % M64
  | .strct m n fs => (hash_data (n.map Char.toNat) + hash_fields fs + m) % M64
  | .uni m n fs => (hash_data (n.map Char.toNat) + hash_fields fs + TypeEncoding_UNION + m) % M64
  | .arr m l e => ((l % M64) * hash_type e + m) % M64
  | .ptr m p => (hash_type p * 31 + TypeEncoding_POINTER + m) % M64

/-- Sum of the recursive hashes of a field list, as accumulated by the loops
inside hash_type. -/
def hash_fields : List Field → Nat
  | [] => 0
  | .mk t _ _ _ _ :: fs => (hash_type t + hash_fields fs) % M64
end

/-- Modelled from the spec: primitive_type_size (the copy in the reflect
header), giving host sizes for each primitive encoding; the default case of
the C function returns (size_t)-1. -/
def primitive_type_size (c : Char) : Nat :=
  if c = 'c' ∨ c = 'C' ∨ c = 'B' then 1
  else if c = 's' ∨ c = 'S' then 2
  else if c = 'i' ∨ c = 'I' ∨ c = 'f' then 4
  else if c = 'l' ∨ c = 'L' ∨ c = 'q' ∨ c = 'Q' ∨ c = 'd' ∨ c = '*' ∨ c = '^' then 8
  else if c = 'D' then 16
  else if c = 'v' then 0
  else M64 - 1

mutual
/-- Embedding of type_size from the reflect header: primitives by host size,
arrays multiply, pointers are one word, records sum their field sizes.
Modelled from the spec for the union case missing from the header in the
snapshot: a union is as large as its largest member. -/
def type_size : Ty → Nat
  | .prim _ c => primitive_type_size c
  | .arr _ l e => l * type_size e
  | .ptr _ _ => 8
  | .strct _ _ fs => fields_size fs
  | .uni _ _ fs => fields_size_max fs

def fields_size : List Field → Nat
  | [] => 0
  | .mk t _ _ _ _ :: fs => type_size t + fields_size fs

def fields_size_max : List Field → Nat
  | [] => 0
  | .mk t _ _ _ _ :: fs => max (type_size t) (fields_size_max fs)
end

mutual
/-- Modelled from the spec: type_alignment, declared in the missing revision
of the reflect header. The spec states each field offset is aligned to the
field's natural alignment: scalar types align to their own size, aggregates
to the maximum alignment of their members. -/
def type_alignment : Ty → Nat
  | .prim _ c => if c = 'v' then 1 else min (primitive_type_size c) 16
  | .arr _ _ e => type_alignment e
  | .ptr _ _ => 8
  | .strct _ _ fs => fields_align fs
  | .uni _ _ fs => fields_align fs

def fields_align : List Field → Nat
  | [] => 1
  | .mk t _ _ _ _ :: fs => max (type_alignment t) (fields_align fs)
end

/-- Modelled from the spec: align_up_size, declared in the missing revision of
the reflect header; rounds a running offset up to a multiple of the
alignment. -/
def align_up_size (off align : Nat) : Nat :=
  if align = 0 then off else ((off + align - 1) / align) * align

/-- The process-wide type cache: name-keyed entries in insertion order. -/
abbrev Cache := List (List Char × Ty)

/-- Embedding of lookup_cached_type: scan for the first entry whose name
matches; on a kind mismatch at that entry, report a miss immediately;
otherwise clone it (cloning is the identity on pure trees) and fold the
modifier bits accumulated on the referencing occurrence into the clone. -/
def lookup_cached_type (cache : Cache) (kind : Nat) (name : List Char) (mods : Nat) : Option Ty :=
  match cache with
  | [] => none
  | (n, t) :: rest =>
    if n = name then
      if tyTag t = kind then some (t.withMods (t.mods ||| mods)) else none
    else lookup_cached_type rest kind name mods

/-- Embedding of cache_type_definition: only fully-defined records/unions are
cached; an entry with the same name and the same kind suppresses insertion,
an entry with the same name but a different kind does not. -/
def cache_type_definition (t : Ty) (cache : Cache) : Cache :=
  match t with
  | .strct _ name fields =>
    if fields.isEmpty then cache
    else if cache.any (fun e => e.1 = name ∧ tyTag e.2 = 1) then cache
    else cache ++ [(name, t)]
  | .uni _ name fields =>
    if fields.isEmpty then cache
    else if cache.any (fun e => e.1 = name ∧ tyTag e.2 = 4) then cache
    else cache ++ [(name, t)]
  | _ => cache

/-- Reading the current character of the cursor; at the end of the C string
the terminating NUL is read. -/
def peek : List Char → Char
  | [] => Char.ofNat 0
  | c :: _ => c

/-- True for characters of the C isspace class, as skipped by strtol. -/
def isSpaceC (c : Char) : Bool :=
  c = ' ' ∨ c = '\t' ∨ c = '\n' ∨ c = '\x0b' ∨ c = '\x0c' ∨ c = '\r'

/-- Embedding of the strtol base-10 scan used by the parser: skip whitespace
and an optional sign, then consume digits; if no digit follows, the cursor is
left where it started (endptr == str). Returns the signed value and rest. -/
def strtolParse (s : List Char) : Option (Int × List Char) :=
  let t := s.dropWhile isSpaceC
  let (neg, t2) : Bool × List Char := match t with
    | [] => (false, [])
    | c :: r => if c = '-' then (true, r) else if c = '+' then (false, r) else (false, c :: r)
  let digits := t2.takeWhile Char.isDigit
  if digits.isEmpty then none
  else
    let n : Nat := digits.foldl (fun a c => a * 10 + (c.toNat - 48)) 0
    some (if neg then -(n : Int) else (n : Int), t2.dropWhile Char.isDigit)

/-- Cursor after a strtol scan whose value is discarded (the field tag line
number); on a failed scan the cursor does not move. -/
def strtolSkip (s : List Char) : List Char :=
  match strtolParse s with
  | some (_, rest) => rest
  | none => s

/-- Cast of a C long to size_t. -/
def castSizeT (v : Int) : Nat :=
  (v % (2 ^ 64 : Int)).toNat

/-- Split a list at the first character satisfying p: returns the prefix and
the suffix beginning with the found character, or none (strpbrk / strchr
returning NULL). -/
def splitAtFirst (p : Char → Bool) : List Char → Option (List Char × List Char)
  | [] => none
  | c :: rest =>
    if p c then some ([], c :: rest)
    else (splitAtFirst p rest).map (fun q => (c :: q.1, q.2))

/-- Embedding of the modifier scan loop of parse_field_tag: while the cursor
is at a dollar sign, take the text up to the next dollar, close brace or
equals sign (stopping the loop when none exists), record a sized_by payload,
and append the modifier text. Fuel bounds the iteration count. -/
def parse_mods (fuel : Nat) (s : List Char) (mods : List (List Char))
    (lfn : Option (List Char)) : List (List Char) × Option (List Char) × List Char :=
  match fuel with
  | 0 => (mods, lfn, s)
  | fl + 1 =>
    match s with
    | '$' :: s1 =>
      match splitAtFirst (fun c => c = '$' ∨ c = '}' ∨ c = '=') s1 with
      | none => (mods, lfn, s1)
      | some (modText, rest) =>
        let lfn' := if modText.take 9 = "sized_by_".data then some (modText.drop 9) else lfn
        parse_mods fl rest (mods ++ [modText]) lfn'
    | _ => (mods, lfn, s)

/-- Embedding of parse_field_tag: consumes a field descriptor wrapper of the
shape open-brace dollar name dollar line-number modifiers equals close-brace,
returning the field name, the modifier strings, the sized_by companion name
and the rest of the input. Error codes as in the C function. -/
def parse_field_tag (s : List Char) : Except Nat (List Char × List (List Char) × Option (List Char) × List Char) :=
  match s with
  | '{' :: s0 =>
    match s0 with
    | '$' :: s1 =>
      match splitAtFirst (fun c => c = '$') s1 with
      | none => .error 1
      | some (fname, _ :: s2) =>
        let s3 := strtolSkip s2
        let (mods, lfn, s4) := parse_mods (s3.length + 1) s3 [] none
        let s5 := match s4 with
          | '=' :: r => r
          | _ => s4
        let s6 := match s5 with
          | '}' :: r => r
          | _ => s5
        .ok (fname, mods, lfn, s6)
      | some (_, []) => .error 1
    | _ => .error 2
  | _ => .error 2

/-- True for the one-character primitive encodings handled by the primitive
switch cases of parse_type. -/
def isPrimCode (c : Char) : Bool :=
  c = 'c' ∨ c = 'C' ∨ c = 's' ∨ c = 'S' ∨ c = 'i' ∨ c = 'I' ∨ c = 'l' ∨ c = 'L' ∨
  c = 'q' ∨ c = 'Q' ∨ c = 'f' ∨ c = 'd' ∨ c = 'D' ∨ c = '*' ∨ c = 'v' ∨ c = 'B'

/-- Accumulate leading const markers into the modifier bitmask, as the while
loop at the top of parse_type does. -/
def consumeConst : Nat → List Char → Nat × List Char
  | m, [] => (m, [])
  | m, c :: rest => if c = 'r' then consumeConst (m ||| 1) rest else (m, c :: rest)

/-- Shape of the next-level type parser threaded through the helpers of
parse_type: modifier bitmask of the destination node, cursor, cache. -/
abbrev PT := Nat → List Char → Cache → Except Nat (Ty × List Char × Cache)

/-- Embedding of the field loop of the record case of parse_type: parse
fields until the record close marker, threading the running offset (each
field offset is the running offset aligned up to the field alignment) and
the cache. A nested parse failure is reported as 1 (the C loop collapses the
inner code), except that fuel exhaustion stays 3; a nested parse that
consumes nothing is reported as 2. The loop fuel bounds iterations; the
caller passes one more than the cursor length, which the progress check
makes sufficient. -/
def parse_struct_fields (rec : PT) : Nat → List Char → Cache → Nat → List Field →
    Except Nat (List Field × List Char × Cache)
  | 0, _, _, _, _ => .error 3
  | fl + 1, s, cache, offset, acc =>
    if s.take 1 = ['}'] then .ok (acc, s.drop 1, cache)
    else
      let wrapped : Bool := s.take 3 = ['(', '?', '=']
      let s1 := if wrapped then s.drop 3 else s
      match rec 0 s1 cache with
      | .error 3 => .error 3
      | .error _ => .error 1
      | .ok (fty, s2, c2) =>
        if s2 = s1 then .error 2
        else
          let hasTag : Bool := s2.take 2 = ['{', '$']
          match (if hasTag then
              (match parse_field_tag s2 with
               | .error _ => none
               | .ok r => some r)
            else some ([], [], none, s2)) with
          | none => .error 1
          | some (fname, fmods, lfn, s3) =>
            let name : Option (List Char) := if hasTag then some fname else none
            let off := align_up_size offset (type_alignment fty)
            let fld : Field := .mk fty name lfn fmods off
            let offset' := off + type_size fty
            match (if wrapped then
                     (if s3.take 1 = [')'] then some (s3.drop 1) else none)
                   else some s3) with
            | none => .error 2
            | some s4 => parse_struct_fields rec fl s4 c2 offset' (acc ++ [fld])

/-- Embedding of the member loop of the tagged-union case of parse_type:
identical to the record loop except that the close marker is the union close
marker and every member offset is left at zero. -/
def parse_union_fields (rec : PT) : Nat → List Char → Cache → List Field →
    Except Nat (List Field × List Char × Cache)
  | 0, _, _, _ => .error 3
  | fl + 1, s, cache, acc =>
    if s.take 1 = [')'] then .ok (acc, s.drop 1, cache)
    else
      let wrapped : Bool := s.take 3 = ['(', '?', '=']
      let s1 := if wrapped then s.drop 3 else s
      match rec 0 s1 cache with
      | .error 3 => .error 3
      | .error _ => .error 1
      | .ok (fty, s2, c2) =>
        if s2 = s1 then .error 2
        else
          let hasTag : Bool := s2.take 2 = ['{', '$']
          match (if hasTag then
              (match parse_field_tag s2 with
               | .error _ => none
               | .ok r => some r)
            else some ([], [], none, s2)) with
          | none => .error 1
          | some (fname, fmods, lfn, s3) =>
            let name : Option (List Char) := if hasTag then some fname else none
            let fld : Field := .mk fty name lfn fmods 0
            match (if wrapped then
                     (if s3.take 1 = [')'] then some (s3.drop 1) else none)
                   else some s3) with
            | none => .error 2
            | some s4 => parse_union_fields rec fl s4 c2 (acc ++ [fld])

/-- The dispatch of parse_type after the leading const markers have been
consumed into the modifier bitmask. An input starting with a character that
matches no switch case is accepted unchanged, producing a zero-initialised
primitive node, exactly as the C switch falls through. -/
def parse_type_go (rec : PT) (mods : Nat) (s : List Char) (cache : Cache) :
    Except Nat (Ty × List Char × Cache) :=
    match s with
    | [] => .ok (.prim mods (Char.ofNat 0), [], cache)
    | c0 :: rest =>
    if c0 = '^' then
      match rec 0 rest cache with
      | .error e => .error e
      | .ok (pt, s', c') => .ok (.ptr mods pt, s', c')
    else if c0 = '{' then
      (match splitAtFirst (fun c => c = '=' ∨ c = '}') rest with
      | none => .error 1
      | some (name, '}' :: after) =>
        (match lookup_cached_type cache 1 name mods with
        | some t => .ok (t, after, cache)
        | none => .ok (.strct mods name [], after, cache))
      | some (name, _ :: after) =>
        (match parse_struct_fields rec (after.length + 1) after cache 0 [] with
        | .error e => .error e
        | .ok (fields, s', c') =>
          let t : Ty := .strct mods name fields
          .ok (t, s', cache_type_definition t c'))
      | some (_, []) => .error 1)
    else if c0 = '(' then
      (match splitAtFirst (fun c => c = '=' ∨ c = ')') rest with
      | none => .error 1
      | some (name, ')' :: after) =>
        (match lookup_cached_type cache 4 name mods with
        | some t => .ok (t, after, cache)
        | none => .ok (.uni mods name [], after, cache))
      | some (name, _ :: after) =>
        (match parse_union_fields rec (after.length + 1) after cache [] with
        | .error e => .error e
        | .ok (fields, s', c') =>
          let t : Ty := .uni mods name fields
          .ok (t, s', cache_type_definition t c'))
      | some (_, []) => .error 1)
    else if c0 = '[' then
      (match strtolParse rest with
      | none => .error 1
      | some (v, s2) =>
        match rec 0 s2 cache with
        | .error e => .error e
        | .ok (et, s3, c3) =>
          match s3 with
          | ']' :: s4 => .ok (.arr mods (castSizeT v) et, s4, c3)
          | _ => .error 2)
    else if isPrimCode c0 then .ok (.prim mods c0, rest, cache)
    else .ok (.prim mods (Char.ofNat 0), c0 :: rest, cache)

/-- Embedding of parse_type. The mods0 argument is the modifier bitmask
already present on the destination node (zero for all zero-initialised
callers). Returns the parsed type, the advanced cursor and the updated type
cache; error 1 and error 2 as in the C source, error 3 for fuel exhaustion
(unreachable in the C code). Fuel counts the nesting depth of the type being
parsed; every nested parse of one level runs with one unit less. -/
def parse_type : Nat → Nat → List Char → Cache → Except Nat (Ty × List Char × Cache)
  | 0, _, _, _ => .error 3
  | fl + 1, mods0, s, cache =>
    parse_type_go (parse_type fl) (consumeConst mods0 s).1 (consumeConst mods0 s).2 cache


/-- Embedding of struct Value: a type tree paired with a raw data address.
Addresses are byte numbers; the null pointer is address 0. -/
structure Value where
  type : Ty
  data : Nat

/-- Embedding of the field scan loop of get_value: unnamed fields are
skipped, the first field whose name compares equal to the requested name
yields a child value at the parent address plus the field offset, and a
miss yields the zero-initialised absent value. -/
def get_value_scan (base : Nat) (key : List Char) : List Field → Value
  | [] => ⟨.prim 0 (Char.ofNat 0), 0⟩
  | f :: rest =>
    match f.name with
    | none => get_value_scan base key rest
    | some n => if n = key then ⟨f.type, base + f.offset⟩ else get_value_scan base key rest

/-- Embedding of get_value. The C function asserts that the owning value is
a record or union; the model returns the absent value on other types. It
computes an address and narrows the type; it never touches memory. -/
def get_value (v : Value) (field : List Char) : Value :=
  match v.type with
  | .strct _ _ fs => get_value_scan v.data field fs
  | .uni _ _ fs => get_value_scan v.data field fs
  | _ => ⟨.prim 0 (Char.ofNat 0), 0⟩

/-! ## JSON codec layer

The codec operates on a typed store: caller memory is modelled as a value
tree mirroring the destination type rather than a flat byte array (fields
are addressed by index instead of by byte offset; the parser guarantees
distinct offsets for distinct record fields, and union members all live at
offset zero, which the single active-member slot models). Heap blocks
produced by decoding (strings, sized arrays, pointees) are stored inline.
JSON texts are byte strings represented as List Char with each character
holding one byte value. -/

/-- Byte strings of the JSON surface. -/
abbrev Bytes := List Char

/-- Embedding of the jsmn token array, in tree form: the flat jsmn array
with child counts is the preorder flattening of this tree, and the
json_skip_token walk recovers exactly the subtree boundaries. Object keys
are kept as raw token text (the C code compares keys without decoding
escapes). -/
inductive JTok where
  | prim (text : Bytes)
  | str (text : Bytes)
  | arrT (elems : List JTok)
  | objT (pairs : List (Bytes × JTok))
deriving Repr

/-- A memory cell or block of the typed store: scalar cells hold the value
last stored at the declared type, a char pointer cell holds null or the
pointed-at byte string, an ordinary or sized pointer cell holds null or its
allocated block of element cells, a union region holds the index and cell of
the member last written. undef models bytes never written at this type. -/
inductive SVal where
  | undef
  | int (v : Int)
  | bool (b : Bool)
  | flt (q : Rat)
  | str (p : Option Bytes)
  | ptr (p : Option (List SVal))
  | arr (elems : List SVal)
  | strct (fields : List SVal)
  | uni (active : Option (Nat × SVal))
deriving Repr

mutual
/-- Zero-filled storage of a given type, as produced by calloc. -/
def mkZero : Ty → SVal
  | .prim _ c =>
    if c = '*' then .str none
    else if c = 'B' then .bool false
    else if c = 'f' ∨ c = 'd' ∨ c = 'D' then .flt 0
    else if c = '^' then .ptr none
    else if c = 'v' then .undef
    else .int 0
  | .ptr _ _ => .ptr none
  | .arr _ l e => .arr (List.replicate l (mkZero e))
  | .strct _ _ fs => .strct (mkZero_fields fs)
  | .uni _ _ _ => .uni none

def mkZero_fields : List Field → List SVal
  | [] => []
  | .mk t _ _ _ _ :: fs => mkZero t :: mkZero_fields fs
end

/-- True for the characters of the C isspace class over token bytes. -/
def isSpaceB (c : Char) : Bool :=
  c = ' ' ∨ c = '\t' ∨ c = '\n' ∨ c = '\x0b' ∨ c = '\x0c' ∨ c = '\r'

/-- Embedding of the strtoll base-10 scan over a token text: skip
whitespace and an optional sign, then consume decimal digits; fails when no
digit follows. Returns the exact value and the unconsumed rest. -/
def strtollBytes (t : Bytes) : Option (Int × Bytes) :=
  let t1 := t.dropWhile isSpaceB
  let (neg, t2) : Bool × List Char := match t1 with
    | [] => (false, [])
    | c :: r => if c = '-' then (true, r) else if c = '+' then (false, r) else (false, c :: r)
  let digits := t2.takeWhile Char.isDigit
  if digits.isEmpty then none
  else
    let n : Nat := digits.foldl (fun a c => a * 10 + (c.toNat - 48)) 0
    some (if neg then -(n : Int) else (n : Int), t2.dropWhile Char.isDigit)

/-- Embedding of json_parse_signed_token: a primitive token that is not a
boolean or null literal, parsed by strtoll with full consumption and the
long long range check (out of range fails, as the ERANGE test does). -/
def json_parse_signed_token : JTok → Option Int
  | .prim t =>
    if t = "true".data ∨ t = "false".data ∨ t = "null".data then none
    else
      match strtollBytes t with
      | none => none
      | some (v, rest) =>
        if rest = [] ∧ -(2 ^ 63 : Int) ≤ v ∧ v ≤ 2 ^ 63 - 1 then some v else none
  | _ => none

/-- Embedding of the strtoull base-10 scan: like strtoll but an explicit
minus sign wraps the value modulo 2^64; the range check rejects digit
sequences exceeding the unsigned long long range. -/
def strtoullBytes (t : Bytes) : Option (Nat × Bytes) :=
  let t1 := t.dropWhile isSpaceB
  let (neg, t2) : Bool × List Char := match t1 with
    | [] => (false, [])
    | c :: r => if c = '-' then (true, r) else if c = '+' then (false, r) else (false, c :: r)
  let digits := t2.takeWhile Char.isDigit
  if digits.isEmpty then none
  else
    let n : Nat := digits.foldl (fun a c => a * 10 + (c.toNat - 48)) 0
    if n ≥ 2 ^ 64 then none
    else some (if neg then (2 ^ 64 - n) % 2 ^ 64 else n, t2.dropWhile Char.isDigit)

/-- Embedding of json_parse_unsigned_token: additionally rejects a token
whose first byte is a minus sign before invoking the strtoull scan. -/
def json_parse_unsigned_token : JTok → Option Nat
  | .prim t =>
    if t = "true".data ∨ t = "false".data ∨ t = "null".data then none
    else if t.head? = some '-' then none
    else
      match strtoullBytes t with
      | none => none
      | some (v, rest) => if rest = [] then some v else none
  | _ => none

/-- Decimal digit scan producing the exact rational of an integer-dot-
fraction-exponent literal, the fragment of strtold the JSON surface uses.
Whitespace and sign are handled as strtold does; hexadecimal, infinity and
nan spellings of strtold are not modelled, and the binary rounding of the
result to a hardware format is not modelled (values stay exact rationals). -/
def strtoldBytes (t : Bytes) : Option (Rat × Bytes) :=
  let t1 := t.dropWhile isSpaceB
  let (neg, t2) : Bool × List Char := match t1 with
    | [] => (false, [])
    | c :: r => if c = '-' then (true, r) else if c = '+' then (false, r) else (false, c :: r)
  let ipart := t2.takeWhile Char.isDigit
  let t3 := t2.dropWhile Char.isDigit
  let (fpart, t4) := match t3 with
    | '.' :: r => (r.takeWhile Char.isDigit, r.dropWhile Char.isDigit)
    | _ => ([], t3)
  let hasDot : Bool := match t3 with
    | '.' :: _ => true
    | _ => false
  if ipart.isEmpty ∧ (¬ hasDot ∨ fpart.isEmpty) then none
  else
    let iv : Nat := ipart.foldl (fun a c => a * 10 + (c.toNat - 48)) 0
    let fv : Nat := fpart.foldl (fun a c => a * 10 + (c.toNat - 48)) 0
    let mant : Rat := (iv : Rat) + (fv : Rat) / ((10 : Rat) ^ fpart.length)
    let t5 := match t3 with
      | '.' :: _ => t4
      | _ => t3
    let expParse : Option (Int × Bytes) := match t5 with
      | 'e' :: r | 'E' :: r =>
        (match r with
         | '-' :: r2 =>
           let ds := r2.takeWhile Char.isDigit
           if ds.isEmpty then none
           else some (-(ds.foldl (fun a c => a * 10 + (c.toNat - 48)) 0 : Int), r2.dropWhile Char.isDigit)
         | '+' :: r2 =>
           let ds := r2.takeWhile Char.isDigit
           if ds.isEmpty then none
           else some ((ds.foldl (fun a c => a * 10 + (c.toNat - 48)) 0 : Int), r2.dropWhile Char.isDigit)
         | _ =>
           let ds := r.takeWhile Char.isDigit
           if ds.isEmpty then none
           else some ((ds.foldl (fun a c => a * 10 + (c.toNat - 48)) 0 : Int), r.dropWhile Char.isDigit))
      | _ => none
    let (ex, t6) := match expParse with
      | some (e, r) => (e, r)
      | none => (0, t5)
    let v := mant * (10 : Rat) ^ (ex : Int)
    some (if neg then -v else v, t6)

/-- Embedding of json_parse_float_token: a primitive token that is not a
boolean or null literal, parsed by strtold with full consumption. -/
def json_parse_float_token : JTok → Option Rat
  | .prim t =>
    if t = "true".data ∨ t = "false".data ∨ t = "null".data then none
    else
      match strtoldBytes t with
      | none => none
      | some (v, rest) => if rest = [] then some v else none
  | _ => none

/-- Embedding of json_parse_bool_token: the literals true and false plus
the bare numerals 1 and 0. -/
def json_parse_bool_token : JTok → Option Bool
  | .prim t =>
    if t = "true".data then some true
    else if t = "false".data then some false
    else if t = "0".data then some false
    else if t = "1".data then some true
    else none
  | _ => none

/-- Embedding of json_hex_value. -/
def json_hex_value (c : Char) : Option Nat :=
  if '0' ≤ c ∧ c ≤ '9' then some (c.toNat - 48)
  else if 'a' ≤ c ∧ c ≤ 'f' then some (10 + c.toNat - 97)
  else if 'A' ≤ c ∧ c ≤ 'F' then some (10 + c.toNat - 65)
  else none

/-- Embedding of json_utf8_encode: UTF-8 bytes of a code point, rejecting
every surrogate and anything above the Unicode range. -/
def json_utf8_encode (cp : Nat) : Option Bytes :=
  if cp ≤ 0x7F then some [Char.ofNat cp]
  else if cp ≤ 0x7FF then
    some [Char.ofNat (0xC0 ||| (cp >>> 6)), Char.ofNat (0x80 ||| (cp &&& 0x3F))]
  else if cp ≤ 0xFFFF then
    if 0xD800 ≤ cp ∧ cp ≤ 0xDFFF then none
    else some [Char.ofNat (0xE0 ||| (cp >>> 12)), Char.ofNat (0x80 ||| ((cp >>> 6) &&& 0x3F)),
               Char.ofNat (0x80 ||| (cp &&& 0x3F))]
  else if cp ≤ 0x10FFFF then
    some [Char.ofNat (0xF0 ||| (cp >>> 18)), Char.ofNat (0x80 ||| ((cp >>> 12) &&& 0x3F)),
          Char.ofNat (0x80 ||| ((cp >>> 6) &&& 0x3F)), Char.ofNat (0x80 ||| (cp &&& 0x3F))]
  else none

/-- Embedding of the unescape loop of json_decode_string over the raw token
text: standard escapes, u-escapes to UTF-8, unknown escapes and truncated
escapes fail, everything else passes through. -/
def jstr_unescape : Bytes → Option Bytes
  | [] => some []
  | c :: rest =>
    if c = '\\' then
      match rest with
      | [] => none
      | e :: rest2 =>
      if e = '"' ∨ e = '\\' ∨ e = '/' then (jstr_unescape rest2).map (e :: ·)
      else if e = 'b' then (jstr_unescape rest2).map ('\x08' :: ·)
      else if e = 'f' then (jstr_unescape rest2).map ('\x0c' :: ·)
      else if e = 'n' then (jstr_unescape rest2).map ('\n' :: ·)
      else if e = 'r' then (jstr_unescape rest2).map ('\r' :: ·)
      else if e = 't' then (jstr_unescape rest2).map ('\t' :: ·)
      else if e = 'u' then
        match rest2 with
        | c1 :: c2 :: c3 :: c4 :: rest3 =>
          (match json_hex_value c1, json_hex_value c2, json_hex_value c3, json_hex_value c4 with
           | some h1, some h2, some h3, some h4 =>
             match json_utf8_encode ((h1 <<< 12) ||| (h2 <<< 8) ||| (h3 <<< 4) ||| h4) with
             | some bs => (jstr_unescape rest3).map (bs ++ ·)
             | none => none
           | _, _, _, _ => none)
        | _ => none
      else none
    else (jstr_unescape rest).map (c :: ·)

/-- Embedding of json_decode_string: only a string token decodes; the
decoded byte string is returned (its length is the decoded length the sized
field logic compares against). -/
def json_decode_string : JTok → Option Bytes
  | .str t => jstr_unescape t
  | _ => none

/-- Embedding of field_has_modifier: exact string comparison against each
stored modifier. -/
def field_has_modifier (f : Field) (m : String) : Bool :=
  f.modifiers.any (fun x => x = m.data)

/-- Embedding of json_field_json_key: an unnamed field has no key; the
first serialise_as_ modifier overrides the field name. -/
def json_field_json_key (f : Field) : Option (List Char) :=
  match f.name with
  | none => none
  | some n =>
    match f.modifiers.find? (fun m => m.take 13 = "serialise_as_".data) with
    | some m => some (m.drop 13)
    | none => some n

/-- Modifier scan of json_field_length_name: the first sized_by_ prefix
yields its suffix; a bare sizedby modifier yields the following modifier
when one exists and otherwise the scan continues. -/
def json_field_length_name_scan : List (List Char) → Option (List Char)
  | [] => none
  | m :: rest =>
    if m.take 9 = "sized_by_".data then some (m.drop 9)
    else if m = "sizedby".data then
      match rest with
      | r :: _ => some r
      | [] => json_field_length_name_scan rest
    else json_field_length_name_scan rest

/-- Embedding of json_field_length_name: the structural length_field_name
takes precedence, then the modifier scan. -/
def json_field_length_name (f : Field) : Option (List Char) :=
  match f.length_field_name with
  | some l => some l
  | none => json_field_length_name_scan f.modifiers

/-- Modifier scan of the encoder's inline companion lookup, which differs
from json_field_length_name in one corner: a bare sizedby modifier stops
the scan even when no modifier follows it. -/
def enc_length_field_scan : List (List Char) → Option (List Char)
  | [] => none
  | m :: rest =>
    if m.take 9 = "sized_by_".data then some (m.drop 9)
    else if m = "sizedby".data then rest.head?
    else enc_length_field_scan rest

/-- The encoder's target length field: the structural length_field_name,
then its own modifier scan. -/
def enc_target_length_field (f : Field) : Option (List Char) :=
  match f.length_field_name with
  | some l => some l
  | none => enc_length_field_scan f.modifiers

/-- Embedding of json_field_tagged_by_name: the first tagged_by_ prefix. -/
def json_field_tagged_by_name (f : Field) : Option (List Char) :=
  match f.modifiers.find? (fun m => m.take 10 = "tagged_by_".data) with
  | some m => some (m.drop 10)
  | none => none

/-- Embedding of json_union_field_tag_value: the first tag_value_ prefix. -/
def json_union_field_tag_value (f : Field) : Option (List Char) :=
  match f.modifiers.find? (fun m => m.take 10 = "tag_value_".data) with
  | some m => some (m.drop 10)
  | none => none

/-- Embedding of json_primitive_is_unsigned. -/
def json_primitive_is_unsigned (c : Char) : Bool :=
  c = 'C' ∨ c = 'S' ∨ c = 'I' ∨ c = 'L' ∨ c = 'Q'

/-- Embedding of json_read_signed_value: reads a signed integral or boolean
cell at its declared type. A cell that was never written at that type reads
as failure in the model (the C code would read indeterminate bytes). -/
def json_read_signed_value (ty : Ty) (sv : SVal) : Option Int :=
  match ty with
  | .prim _ c =>
    if c = 'c' ∨ c = 's' ∨ c = 'i' ∨ c = 'l' ∨ c = 'q' then
      match sv with
      | .int v => some v
      | _ => none
    else if c = 'B' then
      match sv with
      | .bool b => some (if b then 1 else 0)
      | _ => none
    else none
  | _ => none

/-- Embedding of json_read_unsigned_value. -/
def json_read_unsigned_value (ty : Ty) (sv : SVal) : Option Nat :=
  match ty with
  | .prim _ c =>
    if json_primitive_is_unsigned c then
      match sv with
      | .int v => if 0 ≤ v then some v.toNat else none
      | _ => none
    else none
  | _ => none

/-- Embedding of json_read_size_value: reads a numeric cell as a size,
rejecting negative signed values. -/
def json_read_size_value (ty : Ty) (sv : SVal) : Option Nat :=
  match ty with
  | .prim _ c =>
    if c = 'c' ∨ c = 's' ∨ c = 'i' ∨ c = 'l' ∨ c = 'q' then
      match sv with
      | .int v => if v < 0 then none else some v.toNat
      | _ => none
    else if json_primitive_is_unsigned c then
      match sv with
      | .int v => if 0 ≤ v then some v.toNat else none
      | _ => none
    else none
  | _ => none

/-- Embedding of json_write_size_value: stores a size into a numeric cell,
rejecting sizes exceeding the destination width (the unsigned long long
case cannot overflow). -/
def json_write_size_value (ty : Ty) (size : Nat) : Option SVal :=
  match ty with
  | .prim _ c =>
    if c = 'c' then if size ≤ 127 then some (.int size) else none
    else if c = 'C' then if size ≤ 255 then some (.int size) else none
    else if c = 's' then if size ≤ 32767 then some (.int size) else none
    else if c = 'S' then if size ≤ 65535 then some (.int size) else none
    else if c = 'i' then if size ≤ 2 ^ 31 - 1 then some (.int size) else none
    else if c = 'I' then if size ≤ 2 ^ 32 - 1 then some (.int size) else none
    else if c = 'l' then if size ≤ 2 ^ 63 - 1 then some (.int size) else none
    else if c = 'L' then if size ≤ 2 ^ 64 - 1 then some (.int size) else none
    else if c = 'q' then if size ≤ 2 ^ 63 - 1 then some (.int size) else none
    else if c = 'Q' then some (.int size)
    else none
  | _ => none

/-- Embedding of json_parse_size_token: parses a numeric token as a size at
the declared width, rejecting negatives and overflow exactly as the per-kind
switch does. -/
def json_parse_size_token (tok : JTok) (ty : Ty) : Option Nat :=
  match ty with
  | .prim _ c =>
    if c = 'c' ∨ c = 's' ∨ c = 'i' ∨ c = 'l' ∨ c = 'q' then
      match json_parse_signed_token tok with
      | none => none
      | some v =>
        let bound : Int := if c = 'c' then 127 else if c = 's' then 32767
          else if c = 'i' then 2 ^ 31 - 1 else 2 ^ 63 - 1
        if 0 ≤ v ∧ v ≤ bound then some v.toNat else none
    else if json_primitive_is_unsigned c then
      match json_parse_unsigned_token tok with
      | none => none
      | some v =>
        let bound : Nat := if c = 'C' then 255 else if c = 'S' then 65535
          else if c = 'I' then 2 ^ 32 - 1 else 2 ^ 64 - 1
        if v ≤ bound then some v else none
    else none
  | _ => none

/-- Embedding of the strtoull base-0 scan used on tag_value literals:
leading 0x selects hexadecimal, a leading 0 selects octal, otherwise
decimal; a sign wraps modulo 2^64. -/
def strtoull_base0 (t : List Char) : Option (Nat × List Char) :=
  let t1 := t.dropWhile isSpaceB
  let (neg, t2) : Bool × List Char := match t1 with
    | [] => (false, [])
    | c :: r => if c = '-' then (true, r) else if c = '+' then (false, r) else (false, c :: r)
  let hexVal : Char → Option Nat := json_hex_value
  match t2 with
  | '0' :: 'x' :: r | '0' :: 'X' :: r =>
    let ds := r.takeWhile (fun c => (hexVal c).isSome)
    if ds.isEmpty then some (0, 'x' :: r ++ [])
    else
      let n := ds.foldl (fun a c => a * 16 + ((hexVal c).getD 0)) 0
      if n ≥ 2 ^ 64 then none
      else some (if neg then (2 ^ 64 - n) % 2 ^ 64 else n, r.dropWhile (fun c => (hexVal c).isSome))
  | '0' :: r =>
    let ds := r.takeWhile (fun c => '0' ≤ c ∧ c ≤ '7')
    let n := ds.foldl (fun a c => a * 8 + (c.toNat - 48)) 0
    if n ≥ 2 ^ 64 then none
    else some (if neg then (2 ^ 64 - n) % 2 ^ 64 else n, r.dropWhile (fun c => '0' ≤ c ∧ c ≤ '7'))
  | _ =>
    let ds := t2.takeWhile Char.isDigit
    if ds.isEmpty then none
    else
      let n := ds.foldl (fun a c => a * 10 + (c.toNat - 48)) 0
      if n ≥ 2 ^ 64 then none
      else some (if neg then (2 ^ 64 - n) % 2 ^ 64 else n, t2.dropWhile Char.isDigit)

/-- The strtoll base-0 scan on tag_value literals, with the long long
range check. -/
def strtoll_base0 (t : List Char) : Option (Int × List Char) :=
  let t1 := t.dropWhile isSpaceB
  let (neg, t2) : Bool × List Char := match t1 with
    | [] => (false, [])
    | c :: r => if c = '-' then (true, r) else if c = '+' then (false, r) else (false, c :: r)
  let hexVal : Char → Option Nat := json_hex_value
  let build : Nat → Bytes → Option (Int × List Char) := fun n rest =>
    let v : Int := if neg then -(n : Int) else (n : Int)
    if -(2 ^ 63 : Int) ≤ v ∧ v ≤ 2 ^ 63 - 1 then some (v, rest) else none
  match t2 with
  | '0' :: 'x' :: r | '0' :: 'X' :: r =>
    let ds := r.takeWhile (fun c => (hexVal c).isSome)
    if ds.isEmpty then some (0, 'x' :: r ++ [])
    else build (ds.foldl (fun a c => a * 16 + ((hexVal c).getD 0)) 0) (r.dropWhile (fun c => (hexVal c).isSome))
  | '0' :: r =>
    let ds := r.takeWhile (fun c => '0' ≤ c ∧ c ≤ '7')
    build (ds.foldl (fun a c => a * 8 + (c.toNat - 48)) 0) (r.dropWhile (fun c => '0' ≤ c ∧ c ≤ '7'))
  | _ =>
    let ds := t2.takeWhile Char.isDigit
    if ds.isEmpty then none
    else build (ds.foldl (fun a c => a * 10 + (c.toNat - 48)) 0) (t2.dropWhile Char.isDigit)

/-- Scan of the text-discriminator arm of json_select_union_field: the
member's tag_value literal, or its json key when absent, compared to the
discriminator string; first match wins. Returns the member index and
member. -/
def json_select_union_text (tag : Bytes) : Nat → List Field → Option (Nat × Field)
  | _, [] => none
  | i, f :: rest =>
    let m := match json_union_field_tag_value f with
      | some v => some v
      | none => json_field_json_key f
    match m with
    | some v => if v = tag then some (i, f) else json_select_union_text tag (i + 1) rest
    | none => json_select_union_text tag (i + 1) rest

/-- Scan of the unsigned-discriminator arm of json_select_union_field: each
member's tag_value literal parsed by strtoull base 0 with full consumption;
unparsable literals are skipped. -/
def json_select_union_unsigned (tag : Nat) : Nat → List Field → Option (Nat × Field)
  | _, [] => none
  | i, f :: rest =>
    match json_union_field_tag_value f with
    | none => json_select_union_unsigned tag (i + 1) rest
    | some ts =>
      match strtoull_base0 ts with
      | some (v, []) => if v = tag then some (i, f) else json_select_union_unsigned tag (i + 1) rest
      | _ => json_select_union_unsigned tag (i + 1) rest

/-- Scan of the signed-discriminator arm of json_select_union_field. -/
def json_select_union_signed (tag : Int) : Nat → List Field → Option (Nat × Field)
  | _, [] => none
  | i, f :: rest =>
    match json_union_field_tag_value f with
    | none => json_select_union_signed tag (i + 1) rest
    | some ts =>
      match strtoll_base0 ts with
      | some (v, []) => if v = tag then some (i, f) else json_select_union_signed tag (i + 1) rest
      | _ => json_select_union_signed tag (i + 1) rest

/-- Embedding of json_select_union_field: dispatch on the discriminator's
own primitive kind (text, unsigned, signed-or-boolean), then first-match
scan over the member list. Returns the member index and member. -/
def json_select_union_field (members : List Field) (tagTy : Ty) (tagSv : SVal) :
    Option (Nat × Field) :=
  match tagTy with
  | .prim _ c =>
    if c = '*' then
      match tagSv with
      | .str (some tag) => json_select_union_text tag 0 members
      | _ => none
    else if json_primitive_is_unsigned c then
      match json_read_unsigned_value tagTy tagSv with
      | none => none
      | some tag => json_select_union_unsigned tag 0 members
    else
      match json_read_signed_value tagTy tagSv with
      | none => none
      | some tag => json_select_union_signed tag 0 members
  | _ => none

/-- Embedding of json_find_field_index: the first field whose name equals
the given name. -/
def json_find_field_index (fields : List Field) (name : List Char) : Option Nat :=
  (fields.findIdx? (fun f => f.name = some name))

/-- Embedding of json_find_field_by_key: the first field whose json key
equals the raw key token text. -/
def json_find_field_by_key (fields : List Field) (key : Bytes) : Option Nat :=
  (fields.findIdx? (fun f => json_field_json_key f = some key))

/-- Signed reinterpretation of a stored integer at a given bit width: the
encoder prints every integral field through a signed load of that width
(for example the unsigned char case prints (int)*(char *)p). -/
def wrapSigned (w : Nat) (v : Int) : Int :=
  (v + 2 ^ (w - 1)) % (2 ^ w : Nat) - 2 ^ (w - 1)

/-- Decimal digits of a natural number, most significant first. -/
def natDec (n : Nat) : Bytes :=
  if h : n < 10 then [Char.ofNat (48 + n)]
  else natDec (n / 10) ++ [Char.ofNat (48 + n % 10)]
decreasing_by exact Nat.div_lt_self (by omega) (by omega)

/-- Decimal text of an integer, as printf %d / %ld / %lld produce. -/
def intDec (v : Int) : Bytes :=
  if v < 0 then '-' :: natDec (-v).toNat else natDec v.toNat

/-- Zero-padded six-digit decimal. -/
def pad6 (n : Nat) : Bytes :=
  let d := natDec n
  List.replicate (6 - d.length) '0' ++ d

/-- Modelled from the spec: the fixed six-fraction-digit decimal notation
printf %f produces for a floating value held exactly as a rational; rounding
of ties follows round-half-up here (a tie requires a denominator the stored
dyadic rationals of the C program cannot produce, so the choice is never
observable on representable inputs). -/
def fmtFixed6 (q : Rat) : Bytes :=
  let neg := q < 0
  let n : Nat := (round (|q| * 1000000) : Int).toNat
  (if neg then ['-'] else []) ++ natDec (n / 1000000) ++ '.' :: pad6 (n % 1000000)

/-- One escaped byte of the sized-text encoder loop: quote and backslash get
a backslash, newline, carriage return and tab get their short escapes, any
byte outside printable ASCII becomes a four-hex-digit u-escape, anything
else passes through. -/
def esc_byte (c : Char) : Bytes :=
  if c = '"' ∨ c = '\\' then ['\\', c]
  else if c = '\n' then '\\' :: ['n']
  else if c = '\r' then '\\' :: ['r']
  else if c = '\t' then '\\' :: ['t']
  else if c.toNat < 32 ∨ c.toNat > 126 then
    let hexDigit : Nat → Char := fun d => if d < 10 then Char.ofNat (48 + d) else Char.ofNat (87 + d)
    '\\' :: 'u' :: [hexDigit ((c.toNat / 4096) % 16), hexDigit ((c.toNat / 256) % 16),
                    hexDigit ((c.toNat / 16) % 16), hexDigit (c.toNat % 16)]
  else [c]

/-- Escaped form of a byte string, as the sized-text encoder emits. -/
def esc_string (s : Bytes) : Bytes :=
  s.foldr (fun c acc => esc_byte c ++ acc) []

/-- The length a sibling companion holds at encode time, as the encoder's
per-kind switch reads it: signed kinds are loaded and cast to size_t (a
negative value wraps), unsigned kinds are loaded directly; any other kind
makes the companion unusable and the field falls back to plain encoding. -/
def enc_read_len (ty : Ty) (sv : SVal) : Option Nat :=
  match ty with
  | .prim _ c =>
    if c = 'c' ∨ c = 's' ∨ c = 'i' ∨ c = 'l' ∨ c = 'q' then
      match sv with
      | .int v => some (if v < 0 then (2 ^ 64 + v).toNat else v.toNat)
      | _ => none
    else if json_primitive_is_unsigned c then
      match sv with
      | .int v => if 0 ≤ v then some v.toNat else none
      | _ => none
    else none
  | _ => none

/-- Interleave the separator the encoder prints between elements. -/
def joinSep (sep : Bytes) : List Bytes → Bytes
  | [] => []
  | [x] => x
  | x :: xs => x ++ sep ++ joinSep sep xs

/-- Shape of the next-level encoder threaded through the helpers of
value_to_json. -/
abbrev Enc := Ty → SVal → Option Bytes

/-- Encode each element of a block, as the fixed-length array case and the
sized pointer case of value_to_json iterate. -/
def value_to_json_list (enc : Enc) (et : Ty) : List SVal → Option (List Bytes)
  | [] => some []
  | x :: xs =>
    match enc et x with
    | none => none
    | some b =>
      match value_to_json_list enc et xs with
      | none => none
      | some bs => some (b :: bs)

/-- The body emitted for one named record field of value_to_json: the sized
companion path (when the companion resolves to a numeric sibling), then the
tagged-union dispatch path, then plain recursive encoding. -/
def value_to_json_one (enc : Enc) (allFields : List Field) (allSvs : List SVal)
    (f : Field) (sv : SVal) : Option Bytes :=
  let sized : Option (Option Bytes) :=
    match enc_target_length_field f with
    | none => none
    | some lname =>
      match json_find_field_index allFields lname with
      | none => none
      | some k =>
        match allFields.get? k with
        | none => none
        | some lf =>
          match enc_read_len lf.type (allSvs.getD k .undef) with
          | none => none
          | some len =>
            match f.type with
            | .prim _ c =>
              if c = '*' then
                match sv with
                | .str none => some (some "null".data)
                | .str (some bytes) =>
                  if len ≤ bytes.length then
                    some (some ('"' :: esc_string (bytes.take len) ++ ['"']))
                  else some none
                | _ => some none
              else none
            | .ptr _ pt =>
              match sv with
              | .ptr none => some (some "null".data)
              | .ptr (some lst) =>
                if len ≤ lst.length then
                  match value_to_json_list enc pt (lst.take len) with
                  | none => some none
                  | some parts => some (some ('[' :: joinSep ", ".data parts ++ [']']))
                else some none
              | _ => some none
            | _ => none
  match sized with
  | some out => out
  | none =>
    match f.type with
    | .uni _ _ members =>
      (match json_field_tagged_by_name f with
      | some tname =>
        (match json_find_field_index allFields tname with
        | none => none
        | some k =>
          match allFields.get? k with
          | none => none
          | some tagField =>
            match json_select_union_field members tagField.type (allSvs.getD k .undef) with
            | none => none
            | some (j, mf) =>
              match sv with
              | .uni (some (j', msv)) =>
                if j' = j then enc mf.type msv else none
              | _ => none)
      | none => enc f.type sv)
    | _ => enc f.type sv

/-- The record-field loop of value_to_json: allFields and allSvs stay fixed
for sibling companion and discriminator lookups while the walk follows
declaration order. Skips unnamed and no_serialise fields, emits the comma
separator between emitted fields, the (possibly serialise_as renamed) key,
and the sized, tagged-union or plain body. -/
def value_to_json_fields (enc : Enc) (allFields : List Field) (allSvs : List SVal) :
    List Field → List SVal → Bool → Option Bytes
  | [], _, _ => some []
  | _ :: _, [], _ => none
  | f :: fs, sv :: svs, first =>
    if field_has_modifier f "no_serialise" then
      value_to_json_fields enc allFields allSvs fs svs first
    else
      match f.name with
      | none => value_to_json_fields enc allFields allSvs fs svs first
      | some _ =>
        match json_field_json_key f with
        | none => none
        | some key =>
          match value_to_json_one enc allFields allSvs f sv with
          | none => none
          | some body =>
            match value_to_json_fields enc allFields allSvs fs svs false with
            | none => none
            | some rest =>
              some ((if first then [] else ", ".data) ++
                    '"' :: key ++ '"' :: ':' :: ' ' :: body ++ rest)

/-- Embedding of value_to_json, producing the emitted text on success. The C
function streams output and leaves partial text behind on failure; the model
returns none on failure and the full text on success. Fuel counts nesting
depth. Primitive integers print through the signed load of their width; a
bare char pointer prints its bytes raw between quotes with no escaping
(printf %s); a null char pointer or a bare non-text pointer-kind primitive
has no JSON-valid output in C (%s on null / %p on an address) and fails in
the model; a void primitive matches no case and prints nothing; tagged
unions reached outside a record dispatch fail. -/
def value_to_json : Nat → Ty → SVal → Option Bytes
  | 0, _, _ => none
  | fl + 1, ty, sv =>
    match ty with
    | .prim _ c =>
      if c = 'c' ∨ c = 'C' then
        match sv with
        | .int v => some (intDec (wrapSigned 8 v))
        | _ => none
      else if c = 's' ∨ c = 'S' then
        match sv with
        | .int v => some (intDec (wrapSigned 16 v))
        | _ => none
      else if c = 'i' ∨ c = 'I' then
        match sv with
        | .int v => some (intDec (wrapSigned 32 v))
        | _ => none
      else if c = 'l' ∨ c = 'L' ∨ c = 'q' ∨ c = 'Q' then
        match sv with
        | .int v => some (intDec (wrapSigned 64 v))
        | _ => none
      else if c = 'f' ∨ c = 'd' ∨ c = 'D' then
        match sv with
        | .flt q => some (fmtFixed6 q)
        | _ => none
      else if c = '*' then
        match sv with
        | .str (some bytes) => some ('"' :: bytes ++ ['"'])
        | _ => none
      else if c = 'B' then
        match sv with
        | .bool b => some (if b then "true".data else "false".data)
        | _ => none
      else if c = 'v' then some []
      else none
    | .strct _ _ fields =>
      (match sv with
      | .strct svs =>
        (match value_to_json_fields (value_to_json fl) fields svs fields svs true with
        | none => none
        | some body => some ('{' :: body ++ ['}']))
      | _ => none)
    | .arr _ len et =>
      (match sv with
      | .arr es =>
        if len ≤ es.length then
          match value_to_json_list (value_to_json fl) et (es.take len) with
          | none => none
          | some parts => some ('[' :: joinSep ", ".data parts ++ [']'])
        else none
      | _ => none)
    | .ptr _ pt =>
      (match sv with
      | .ptr none => some "null".data
      | .ptr (some (x :: _)) => value_to_json fl pt x
      | _ => none)
    | .uni _ _ _ => none

/-- Embedding of json_parse_primitive: per-kind numeric parsing with the
declared range checks, boolean literals, string or null for a char pointer;
void and the bare pointer kind always fail. -/
def json_parse_primitive (ty : Ty) (tok : JTok) : Option SVal :=
  match ty with
  | .prim _ c =>
    if c = 'c' then (json_parse_signed_token tok).bind fun v =>
      if -128 ≤ v ∧ v ≤ 127 then some (.int v) else none
    else if c = 'C' then (json_parse_unsigned_token tok).bind fun v =>
      if v ≤ 255 then some (.int v) else none
    else if c = 's' then (json_parse_signed_token tok).bind fun v =>
      if -32768 ≤ v ∧ v ≤ 32767 then some (.int v) else none
    else if c = 'S' then (json_parse_unsigned_token tok).bind fun v =>
      if v ≤ 65535 then some (.int v) else none
    else if c = 'i' then (json_parse_signed_token tok).bind fun v =>
      if -(2 ^ 31 : Int) ≤ v ∧ v ≤ 2 ^ 31 - 1 then some (.int v) else none
    else if c = 'I' then (json_parse_unsigned_token tok).bind fun v =>
      if v ≤ 2 ^ 32 - 1 then some (.int v) else none
    else if c = 'l' ∨ c = 'q' then (json_parse_signed_token tok).bind fun v =>
      some (.int v)
    else if c = 'L' ∨ c = 'Q' then (json_parse_unsigned_token tok).bind fun v =>
      some (.int v)
    else if c = 'f' ∨ c = 'd' ∨ c = 'D' then (json_parse_float_token tok).bind fun q =>
      some (.flt q)
    else if c = 'B' then (json_parse_bool_token tok).bind fun b =>
      some (.bool b)
    else if c = '*' then
      match tok with
      | .prim t => if t = "null".data then some (.str none) else none
      | _ => (json_decode_string tok).map (fun bs => .str (some bs))
    else none
  | _ => none

/-- The current element cells of a storage region, for decoding in place. -/
def curElems : SVal → List SVal
  | .arr es => es
  | _ => []

/-- The current field cells of a record region. -/
def curFields : SVal → List SVal
  | .strct es => es
  | _ => []

/-- Shape of the next-level decoder threaded through the per-level helpers
of json_parse_value: destination type, token, current cell, new cell. -/
abbrev Dec := Ty → JTok → SVal → Option SVal

/-- Decode a token list positionally into element cells (missing cells of an
ill-shaped region read as undef), as the element loop of json_parse_array. -/
def json_parse_elems (rec : Dec) (et : Ty) : List JTok → List SVal → Option (List SVal)
  | [], _ => some []
  | tk :: tks, cs =>
    match rec et tk (cs.headD .undef) with
    | none => none
    | some v =>
      match json_parse_elems rec et tks cs.tail with
      | none => none
      | some vs => some (v :: vs)

/-- Embedding of json_parse_array: the token must be an array of exactly the
declared length; elements decode positionally into the existing cells. -/
def json_parse_array (rec : Dec) (len : Nat) (et : Ty) (tok : JTok) (cur : SVal) : Option SVal :=
  match tok with
  | .arrT elems =>
    if elems.length = len then
      match json_parse_elems rec et elems (curElems cur) with
      | none => none
      | some es => some (.arr es)
    else none
  | _ => none

/-- Embedding of json_parse_pointer: null stores a null pointer; otherwise
one zeroed element is allocated (failing on a zero-sized pointee) and
decoded from the same token. -/
def json_parse_pointer (rec : Dec) (pt : Ty) (tok : JTok) : Option SVal :=
  match tok with
  | .prim t =>
    if t = "null".data then some (.ptr none)
    else
      if type_size pt = 0 then none
      else
        match rec pt tok (mkZero pt) with
        | none => none
        | some v => some (.ptr (some [v]))
  | _ =>
    if type_size pt = 0 then none
    else
      match rec pt tok (mkZero pt) with
      | none => none
      | some v => some (.ptr (some [v]))

/-- Decode the element tokens of a sized block into fresh zeroed cells, as
the calloc-then-loop of json_parse_sized_field does. -/
def json_parse_sized_elems (rec : Dec) (pt : Ty) : List JTok → Option (List SVal)
  | [] => some []
  | tk :: tks =>
    match rec pt tk (mkZero pt) with
    | none => none
    | some v =>
      match json_parse_sized_elems rec pt tks with
      | none => none
      | some vs => some (v :: vs)

/-- Embedding of json_parse_sized_field: resolve the companion by name, read
any already-established length, then decode null, a token array into a fresh
element block, or a string into fresh bytes, checking or deriving the
companion length exactly as the three-way branches of the C function do.
Returns the updated field cells and the seen and length-derived flags. -/
def json_parse_sized_field (rec : Dec) (fields : List Field) (vtok : JTok) (i : Nat)
    (f : Field) (svs : List SVal) (seen lfa : List Bool) :
    Option (List SVal × List Bool × List Bool) :=
  match json_field_length_name f with
  | none => none
  | some len_name =>
    match json_find_field_index fields len_name with
    | none => none
    | some len_idx =>
      match fields.get? len_idx with
      | none => none
      | some len_field =>
        match len_field.type with
        | .prim _ _ =>
          let write_length := ¬ field_has_modifier len_field "no_deserialise"
          let have_length := seen.getD len_idx false
          let existing? : Option Nat :=
            if have_length then json_read_size_value len_field.type (svs.getD len_idx .undef)
            else some 0
          match existing? with
          | none => none
          | some existing =>
            let finishLen : Nat → Option (List SVal × List Bool × List Bool) := fun jlen =>
              if have_length then
                if existing = jlen then some (svs, seen, lfa) else none
              else if write_length then
                match json_write_size_value len_field.type jlen with
                | none => none
                | some w =>
                  some (svs.set len_idx w, seen.set len_idx true, lfa.set len_idx true)
              else
                match json_read_size_value len_field.type (svs.getD len_idx .undef) with
                | none => none
                | some current =>
                  if current = jlen then some (svs, seen.set len_idx true, lfa)
                  else none
            match vtok with
            | .prim t =>
              if t = "null".data then
                let nullCell : SVal := match f.type with
                  | .ptr _ _ => .ptr none
                  | _ => .str none
                match finishLen 0 with
                | none => none
                | some (svs', seen', lfa') => some (svs'.set i nullCell, seen', lfa')
              else none
            | .arrT elems =>
              (match f.type with
              | .ptr _ pt =>
                let jlen := elems.length
                (match finishLen jlen with
                | none => none
                | some (svs', seen', lfa') =>
                  if jlen = 0 then some (svs'.set i (.ptr none), seen', lfa')
                  else if type_size pt = 0 then none
                  else
                    match json_parse_sized_elems rec pt elems with
                    | none => none
                    | some block => some (svs'.set i (.ptr (some block)), seen', lfa'))
              | _ => none)
            | .str raw =>
              (match f.type with
              | .prim _ c =>
                if c = '*' then
                  match jstr_unescape raw with
                  | none => none
                  | some decoded =>
                    (match finishLen decoded.length with
                    | none => none
                    | some (svs', seen', lfa') =>
                      some (svs'.set i (.str (some decoded)), seen', lfa'))
                else none
              | _ => none)
            | _ => none
        | _ => none

/-- Embedding of json_parse_tagged_union_field: select the active member
from the current discriminator cell and decode the payload token into the
union region at the member type. -/
def json_parse_tagged_union_field (rec : Dec) (fields : List Field) (vtok : JTok)
    (i : Nat) (f : Field) (tag_idx : Nat) (svs : List SVal) : Option (List SVal) :=
  match f.type with
  | .uni _ _ members =>
    (match fields.get? tag_idx with
    | none => none
    | some tagField =>
      match json_select_union_field members tagField.type (svs.getD tag_idx .undef) with
      | none => none
      | some (j, mf) =>
        let memberCur : SVal :=
          match svs.getD i .undef with
          | .uni (some (j', msv)) => if j' = j then msv else mkZero mf.type
          | _ => mkZero mf.type
        match rec mf.type vtok memberCur with
        | none => none
        | some msv => some (svs.set i (.uni (some (j, msv)))))
  | _ => none

/-- The key walk of json_parse_struct: process the object pairs in order,
tracking per-field seen state, the length-derived flags and the deferred
tagged-union payload tokens. -/
def json_parse_struct_loop (rec : Dec) (fields : List Field) :
    List (Bytes × JTok) → List SVal → List Bool → List Bool → List (Option JTok) →
    Option (List SVal × List Bool × List Bool × List (Option JTok))
  | [], svs, seen, lfa, pend => some (svs, seen, lfa, pend)
  | (key, vtok) :: rest, svs, seen, lfa, pend =>
    match json_find_field_by_key fields key with
    | none => json_parse_struct_loop rec fields rest svs seen lfa pend
    | some i =>
      match fields.get? i with
      | none => none
      | some f =>
        if field_has_modifier f "no_deserialise" then
          json_parse_struct_loop rec fields rest svs (seen.set i true) lfa pend
        else if seen.getD i false then
          if lfa.getD i false then
            match json_parse_size_token vtok f.type,
                  json_read_size_value f.type (svs.getD i .undef) with
            | some parsed, some existing =>
              if parsed = existing then
                json_parse_struct_loop rec fields rest svs seen lfa pend
              else none
            | _, _ => none
          else json_parse_struct_loop rec fields rest svs seen lfa pend
        else
          let isSizedShape : Bool := match f.type with
            | .ptr _ _ => true
            | .prim _ c => c = '*'
            | _ => false
          if (json_field_length_name f).isSome ∧ isSizedShape then
            match json_parse_sized_field rec fields vtok i f svs seen lfa with
            | none => none
            | some (svs', seen', lfa') =>
              json_parse_struct_loop rec fields rest svs' (seen'.set i true) lfa' pend
          else
            match f.type with
            | .uni _ _ _ =>
              (match json_field_tagged_by_name f with
              | none => none
              | some tag_name =>
                match json_find_field_index fields tag_name with
                | none => none
                | some tag_idx =>
                  match fields.get? tag_idx with
                  | none => none
                  | some tagField =>
                    if seen.getD tag_idx false ∨ field_has_modifier tagField "no_deserialise" then
                      match json_parse_tagged_union_field rec fields vtok i f tag_idx svs with
                      | none => none
                      | some svs' =>
                        json_parse_struct_loop rec fields rest svs' (seen.set i true) lfa pend
                    else
                      json_parse_struct_loop rec fields rest svs (seen.set i true) lfa
                        (pend.set i (some vtok)))
            | _ =>
              match rec f.type vtok (svs.getD i .undef) with
              | none => none
              | some sv' =>
                json_parse_struct_loop rec fields rest (svs.set i sv') (seen.set i true) lfa pend

/-- The second pass of json_parse_struct: resolve each deferred tagged-union
payload in field order, requiring its discriminator to have been seen or to
be excluded from decoding. -/
def json_parse_struct_resolve (rec : Dec) (fields : List Field) (i : Nat) :
    List (Option JTok) → List SVal → List Bool → Option (List SVal × List Bool)
  | [], svs, seen => some (svs, seen)
  | none :: prest, svs, seen => json_parse_struct_resolve rec fields (i + 1) prest svs seen
  | some ptok :: prest, svs, seen =>
    match fields.get? i with
    | none => none
    | some f =>
      match json_field_tagged_by_name f with
      | none => none
      | some tag_name =>
        match json_find_field_index fields tag_name with
        | none => none
        | some tag_idx =>
          match fields.get? tag_idx with
          | none => none
          | some tagField =>
            if seen.getD tag_idx false ∨ field_has_modifier tagField "no_deserialise" then
              match json_parse_tagged_union_field rec fields ptok i f tag_idx svs with
              | none => none
              | some svs' =>
                json_parse_struct_resolve rec fields (i + 1) prest svs' (seen.set i true)
            else none

/-- The final required-field check of json_parse_struct. -/
def json_required_ok (fields : List Field) (seen : List Bool) : Bool :=
  List.all (List.range fields.length) fun i =>
    match fields.get? i with
    | none => true
    | some f =>
      f.name = none ∨ seen.getD i false ∨ field_has_modifier f "no_deserialise" ∨
        field_has_modifier f "optional"

/-- Embedding of json_parse_struct: a single walk over the object pairs,
then resolution of deferred tagged-union payloads, then the required-field
check. -/
def json_parse_struct (rec : Dec) (fields : List Field) (pairs : List (Bytes × JTok))
    (svs0 : List SVal) : Option (List SVal) :=
  match json_parse_struct_loop rec fields pairs svs0
      (List.replicate fields.length false) (List.replicate fields.length false)
      (List.replicate fields.length none) with
  | none => none
  | some (svs1, seen1, _, pend1) =>
    match json_parse_struct_resolve rec fields 0 pend1 svs1 seen1 with
    | none => none
    | some (svs2, seen2) =>
      if json_required_ok fields seen2 then some svs2 else none

/-- Embedding of json_parse_value: fuel counts nesting depth; every helper
of one level calls back into the next level with one unit less, so the
decode of a subterm is independent of the path that reaches it. Dispatch
over the destination type; a tagged union as a direct target fails. -/
def json_parse_value : Nat → Ty → JTok → SVal → Option SVal
  | 0, _, _, _ => none
  | fl + 1, ty, tok, cur =>
    match ty with
    | .prim _ _ => json_parse_primitive ty tok
    | .strct _ _ fields =>
      (match tok with
      | .objT pairs =>
        (match json_parse_struct (json_parse_value fl) fields pairs (curFields cur) with
        | none => none
        | some svs => some (.strct svs))
      | _ => none)
    | .arr _ len et => json_parse_array (json_parse_value fl) len et tok cur
    | .ptr _ pt => json_parse_pointer (json_parse_value fl) pt tok
    | .uni _ _ _ => none

/-- Whitespace skipped between JSON tokens. -/
def skipWsTok (s : Bytes) : Bytes :=
  s.dropWhile (fun c => c = ' ' ∨ c = '\t' ∨ c = '\n' ∨ c = '\r')

/-- Raw scan of a JSON string token: bytes up to the closing quote, with a
backslash always carrying the following byte (escapes stay undecoded, as
jsmn leaves them). -/
def scanJString : Bytes → Option (Bytes × Bytes)
  | [] => none
  | c :: r =>
    if c = '"' then some ([], r)
    else if c = '\\' then
      match r with
      | [] => none
      | d :: r2 => (scanJString r2).map (fun q => (c :: d :: q.1, q.2))
    else (scanJString r).map (fun q => (c :: q.1, q.2))

/-- Bytes ending a primitive token. -/
def isTokDelim (c : Char) : Bool :=
  c = ' ' ∨ c = '\t' ∨ c = '\n' ∨ c = '\r' ∨ c = ',' ∨ c = ']' ∨ c = '}' ∨ c = ':'

mutual
/-- Modelled from the spec: the external jsmn tokenizer collaborator (not
part of this repository), which turns JSON text into the typed token tree
the decoder walks: objects of key-value pairs, arrays, raw string tokens and
primitive tokens running to the next delimiter. -/
def jsmn_value (fuel : Nat) (s : Bytes) : Option (JTok × Bytes) :=
  match fuel with
  | 0 => none
  | fl + 1 =>
    match skipWsTok s with
    | [] => none
    | c :: r =>
      if c = '{' then jsmn_members fl (skipWsTok r) []
      else if c = '[' then jsmn_elems fl (skipWsTok r) []
      else if c = '"' then
        match scanJString r with
        | none => none
        | some (txt, rest) => some (.str txt, rest)
      else if isTokDelim c then none
      else some (.prim ((c :: r).takeWhile (fun x => ¬ isTokDelim x)),
                 (c :: r).dropWhile (fun x => ¬ isTokDelim x))

/-- Member loop of the modelled tokenizer. -/
def jsmn_members (fuel : Nat) (s : Bytes) (acc : List (Bytes × JTok)) : Option (JTok × Bytes) :=
  match fuel with
  | 0 => none
  | fl + 1 =>
    match s with
    | [] => none
    | c :: r =>
      if c = '}' then some (.objT acc, r)
      else if c = '"' then
        match scanJString r with
        | none => none
        | some (key, s2) =>
          match skipWsTok s2 with
          | [] => none
          | d :: s4 =>
            if d = ':' then
              match jsmn_value fl s4 with
              | none => none
              | some (v, s5) =>
                match skipWsTok s5 with
                | [] => none
                | e :: s7 =>
                  if e = ',' then jsmn_members fl (skipWsTok s7) (acc ++ [(key, v)])
                  else if e = '}' then some (.objT (acc ++ [(key, v)]), s7)
                  else none
            else none
      else none

/-- Element loop of the modelled tokenizer. -/
def jsmn_elems (fuel : Nat) (s : Bytes) (acc : List JTok) : Option (JTok × Bytes) :=
  match fuel with
  | 0 => none
  | fl + 1 =>
    if s.take 1 = [']'] then some (.arrT acc, s.drop 1)
    else
      match jsmn_value fl s with
      | none => none
      | some (v, s2) =>
        match skipWsTok s2 with
        | [] => none
        | e :: s3 =>
          if e = ',' then jsmn_elems fl (skipWsTok s3) (acc ++ [v])
          else if e = ']' then some (.arrT (acc ++ [v]), s3)
          else none
end

/-- Modelled from the spec: tokenization of a whole document; the decoder
starts at the first token and ignores anything after it, as json_to_value
does with the jsmn token array. -/
def jsmn_tokenize (fuel : Nat) (s : Bytes) : Option JTok :=
  (jsmn_value fuel s).map (fun r => r.1)

/-- Embedding of json_to_value composed with the spec-modelled tokenizer:
tokenize the text (a tokenizer failure is a failure) and decode the first
token into the caller storage. -/
def json_to_value (fuel : Nat) (json : Bytes) (ty : Ty) (cur : SVal) : Option SVal :=
  match jsmn_tokenize fuel json with
  | none => none
  | some tok => json_parse_value fuel ty tok cur

/-- The ten integral primitive codes accepted by the numeric size switches
(signed and unsigned char, short, int, long, long long). -/
def isNumericCode (c : Char) : Bool :=
  c = 'c' ∨ c = 'C' ∨ c = 's' ∨ c = 'S' ∨ c = 'i' ∨ c = 'I' ∨ c = 'l' ∨ c = 'L' ∨
  c = 'q' ∨ c = 'Q'

/-- The encoding string of the claim C4 counterexample: a record B whose
first field is a bare reference to A and whose second field fully defines A.
On a first parse from an empty cache the bare reference misses and stays an
opaque placeholder; that parse caches A, so a second parse of the very same
string resolves the bare reference to the full definition, changing the
hash of B. -/
def c4str : List Char := "{B=(?={A})(?={A=(?=i{$x$1=})})}".data

/-- Two consecutive parses of c4str starting from the empty cache, returning
the root hash of each parse. -/
def c4run : Option (Nat × Nat) :=
  (parse_type 9 0 c4str []).toOption.bind fun r1 =>
    (parse_type 9 0 c4str r1.2.2).toOption.bind fun r2 =>
      some (hash_type r1.1, hash_type r2.1)

/-- Nonempty instances for the embedded datatypes, keeping instance search
on product types immediate. -/
instance : Nonempty Ty := ⟨.prim 0 'v'⟩

instance : Nonempty Field := ⟨.mk (.prim 0 'v') none none [] 0⟩

instance : Nonempty SVal := ⟨.undef⟩

instance : Nonempty JTok := ⟨.prim []⟩

/-- The name-kind key set of a cache: what lookup hits and insertion
suppression are decided by. -/
def keysOf (c : Cache) : List (List Char × Nat) :=
  c.map (fun e => (e.1, tyTag e.2))

/-! ### Scaffolding for the C1 round-trip analysis: the character class of
numeric and literal JSON primitive texts, the exact byte layout of the
encoder's object output, and the per-field entry lists the round-trip
theorem quantifies over. -/

def chPlain (ch : Char) : Bool :=
  (45 ≤ ch.toNat ∧ ch.toNat ≤ 57 ∧ ch.toNat ≠ 46 ∧ ch.toNat ≠ 47) ∨
  (97 ≤ ch.toNat ∧ ch.toNat ≤ 122)

def jseg (k v : Bytes) : Bytes := '"' :: k ++ '"' :: ':' :: ' ' :: v

def jsegsRest : List (Bytes × Bytes) → Bytes
  | [] => []
  | x :: xs => ',' :: ' ' :: (jseg x.1 x.2 ++ jsegsRest xs)

def jsegs : List (Bytes × Bytes) → Bytes
  | [] => []
  | x :: xs => jseg x.1 x.2 ++ jsegsRest xs

def goodPair (p : Bytes × Bytes) : Prop :=
  (∀ c ∈ p.1, c ≠ '"' ∧ c ≠ '\\') ∧ p.2 ≠ [] ∧ ∀ c ∈ p.2, chPlain c = true

def primRound (c : Char) (sv : SVal) : Prop :=
  (∃ v : Int, sv = .int v ∧
    ((c = 'c' ∧ -(2 ^ 7 : Int) ≤ v ∧ v < 2 ^ 7) ∨
     (c = 's' ∧ -(2 ^ 15 : Int) ≤ v ∧ v < 2 ^ 15) ∨
     (c = 'i' ∧ -(2 ^ 31 : Int) ≤ v ∧ v < 2 ^ 31) ∨
     ((c = 'l' ∨ c = 'q') ∧ -(2 ^ 63 : Int) ≤ v ∧ v < 2 ^ 63))) ∨
  (∃ b : Bool, sv = .bool b ∧ c = 'B')

abbrev PEntry := Bytes × Nat × Char × Nat × SVal

def fieldOf (x : PEntry) : Field :=
  .mk (.prim x.2.1 x.2.2.1) (some x.1) none [] x.2.2.2.1

def svOf (x : PEntry) : SVal := x.2.2.2.2

def fieldTxt (m : Nat) (c : Char) (sv : SVal) : Bytes :=
  (value_to_json 1 (.prim m c) sv).getD []

def pairOf (x : PEntry) : Bytes × Bytes := (x.1, fieldTxt x.2.1 x.2.2.1 (svOf x))

def wlist (k : Nat) : List PEntry → List (Nat × Bytes × JTok × SVal)
  | [] => []
  | x :: xs => (k, x.1, JTok.prim (fieldTxt x.2.1 x.2.2.1 (svOf x)), svOf x) :: wlist (k + 1) xs

def c1L : List PEntry := [(['a'], 0, 'i', 0, .int 5), (['b'], 0, 'B', 4, .bool true)]

/-! ## Helper lemmas -/

theorem splitAtFirst_none (p : Char → Bool) : ∀ (s : List Char), (∀ c ∈ s, p c = false) →
    splitAtFirst p s = none
  | [], _ => rfl
  | c :: rest, h => by
    have hc := h c (List.mem_cons_self c rest)
    simp only [splitAtFirst, hc, Bool.false_eq_true, if_false]
    rw [splitAtFirst_none p rest (fun x hx => h x (List.mem_cons_of_mem c hx))]
    rfl

theorem splitAtFirst_append (p : Char → Bool) (x : Char) (hx : p x = true) :
    ∀ (pre suf : List Char), (∀ c ∈ pre, p c = false) →
    splitAtFirst p (pre ++ x :: suf) = some (pre, x :: suf)
  | [], suf, _ => by simp [splitAtFirst, hx]
  | c :: rest, suf, h => by
    have hc := h c (List.mem_cons_self c rest)
    simp only [List.cons_append, splitAtFirst, hc, Bool.false_eq_true, if_false]
    rw [List.append_eq,
      splitAtFirst_append p x hx rest suf (fun y hy => h y (List.mem_cons_of_mem c hy))]
    rfl

theorem lookup_cached_type_eq (kind : Nat) (name : List Char) (mods : Nat) :
    ∀ cache : Cache, lookup_cached_type cache kind name mods =
      match cache.find? (fun e => decide (e.1 = name)) with
      | some e => if tyTag e.2 = kind then some (e.2.withMods (e.2.mods ||| mods)) else none
      | none => none
  | [] => rfl
  | (n, t) :: rest => by
    by_cases h : n = name
    · subst h
      simp [lookup_cached_type, List.find?]
    · simp [lookup_cached_type, List.find?, h, lookup_cached_type_eq kind name mods rest]

theorem get_value_scan_eq (base : Nat) (key : List Char) :
    ∀ fs : List Field, get_value_scan base key fs =
      match fs.find? (fun f => decide (f.name = some key)) with
      | some f => ⟨f.type, base + f.offset⟩
      | none => ⟨.prim 0 (Char.ofNat 0), 0⟩
  | [] => rfl
  | f :: rest => by
    cases f with
    | mk t n l m o =>
      cases n with
      | none =>
        simp [get_value_scan, List.find?, Field.name, get_value_scan_eq base key rest]
      | some nm =>
        by_cases h : nm = key
        · subst h
          simp [get_value_scan, List.find?, Field.name]
        · have : (some nm = some key) = False := by simp [h]
          simp [get_value_scan, List.find?, Field.name, h, this,
                get_value_scan_eq base key rest]

theorem strtolParse_nonNum (c : Char) (rest : List Char) (hsp : isSpaceC c = false)
    (hm : c ≠ '-') (hp : c ≠ '+') (hd : c.isDigit = false) :
    strtolParse (c :: rest) = none := by
  unfold strtolParse
  simp [List.dropWhile_cons, hsp, hm, hp, List.takeWhile_cons, hd]

theorem consumeConst_not_r (c : Char) (h : c ≠ 'r') (m : Nat) (rest : List Char) :
    consumeConst m (c :: rest) = (m, c :: rest) := by
  unfold consumeConst
  simp [h]

theorem parse_type_succ (fl mods0 : Nat) (s : List Char) (cache : Cache) :
    parse_type (fl + 1) mods0 s cache =
      parse_type_go (parse_type fl) (consumeConst mods0 s).1 (consumeConst mods0 s).2 cache := rfl

theorem parse_type_stray (fuel mods0 : Nat) (c : Char) (rest : List Char) (cache : Cache)
    (h0 : isPrimCode c = false) (h1 : c ≠ 'r') (h2 : c ≠ '^') (h3 : c ≠ '{')
    (h4 : c ≠ '(') (h5 : c ≠ '[') :
    parse_type (fuel + 1) mods0 (c :: rest) cache =
      .ok (.prim mods0 (Char.ofNat 0), c :: rest, cache) := by
  rw [parse_type_succ, consumeConst_not_r c h1]
  simp [parse_type_go, h0, h2, h3, h4, h5]

theorem parse_type_badlen (fuel mods0 : Nat) (c : Char) (rest : List Char) (cache : Cache)
    (hsp : isSpaceC c = false) (hm : c ≠ '-') (hp : c ≠ '+') (hd : c.isDigit = false) :
    parse_type (fuel + 1) mods0 ('[' :: c :: rest) cache = .error 1 := by
  rw [parse_type_succ, consumeConst_not_r '[' (by decide)]
  simp [parse_type_go, strtolParse_nonNum c rest hsp hm hp hd]

theorem parse_type_noclose (fuel mods0 : Nat) (name : List Char) (cache : Cache)
    (h : ∀ ch ∈ name, ch ≠ '=' ∧ ch ≠ '}') :
    parse_type (fuel + 1) mods0 ('{' :: name) cache = .error 1 := by
  rw [parse_type_succ, consumeConst_not_r '{' (by decide)]
  dsimp only
  rw [parse_type_go]
  rw [splitAtFirst_none (fun ch => decide (ch = '=' ∨ ch = '}')) name
    (fun ch hch => by simp [(h ch hch).1, (h ch hch).2])]
  simp

theorem parse_type_badfield (fuel mods0 : Nat) (name : List Char) (c : Char)
    (rest : List Char) (cache : Cache)
    (h : ∀ ch ∈ name, ch ≠ '=' ∧ ch ≠ '}')
    (h0 : isPrimCode c = false) (h1 : c ≠ 'r') (h2 : c ≠ '^') (h3 : c ≠ '{')
    (h4 : c ≠ '(') (h5 : c ≠ '[') (h6 : c ≠ '}') :
    parse_type (fuel + 2) mods0 ('{' :: name ++ '=' :: c :: rest) cache = .error 2 := by
  have hloop : ∀ lf, parse_struct_fields (parse_type (fuel + 1)) (lf + 1) (c :: rest) cache 0 []
      = .error 2 := by
    intro lf
    unfold parse_struct_fields
    have htake1 : ((c :: rest).take 1 = ['}']) = False := by simp [h6]
    have htake3 : ((c :: rest).take 3 = ['(', '?', '=']) = False := by
      simp [List.take_succ_cons, h4]
    simp [htake1, htake3, h4, h6, parse_type_stray fuel 0 c rest cache h0 h1 h2 h3 h4 h5]
  show parse_type ((fuel + 1) + 1) mods0 ('{' :: name ++ '=' :: c :: rest) cache = .error 2
  rw [List.cons_append, parse_type_succ, consumeConst_not_r '{' (by decide)]
  dsimp only
  rw [parse_type_go]
  rw [splitAtFirst_append (fun ch => decide (ch = '=' ∨ ch = '}')) '=' (by decide) name
    (c :: rest) (fun ch hch => by simp [(h ch hch).1, (h ch hch).2])]
  simp [hloop]

theorem parse_type_bareref_struct (fuel mods0 : Nat) (name after : List Char) (cache : Cache)
    (h : ∀ ch ∈ name, ch ≠ '=' ∧ ch ≠ '}') :
    parse_type (fuel + 1) mods0 ('{' :: name ++ '}' :: after) cache =
      match lookup_cached_type cache 1 name mods0 with
      | some t => .ok (t, after, cache)
      | none => .ok (.strct mods0 name [], after, cache) := by
  rw [List.cons_append, parse_type_succ, consumeConst_not_r '{' (by decide)]
  dsimp only
  rw [parse_type_go]
  rw [splitAtFirst_append (fun ch => decide (ch = '=' ∨ ch = '}')) '}' (by decide) name after
    (fun ch hch => by simp [(h ch hch).1, (h ch hch).2])]
  rfl

theorem parse_type_bareref_union (fuel mods0 : Nat) (name after : List Char) (cache : Cache)
    (h : ∀ ch ∈ name, ch ≠ '=' ∧ ch ≠ ')') :
    parse_type (fuel + 1) mods0 ('(' :: name ++ ')' :: after) cache =
      match lookup_cached_type cache 4 name mods0 with
      | some t => .ok (t, after, cache)
      | none => .ok (.uni mods0 name [], after, cache) := by
  rw [List.cons_append, parse_type_succ, consumeConst_not_r '(' (by decide)]
  dsimp only
  rw [parse_type_go]
  rw [splitAtFirst_append (fun ch => decide (ch = '=' ∨ ch = ')')) ')' (by decide) name after
    (fun ch hch => by simp [(h ch hch).1, (h ch hch).2])]
  rfl

theorem parse_type_simple_def (fuel mods0 : Nat) (name after : List Char) (cache : Cache)
    (h : ∀ ch ∈ name, ch ≠ '=' ∧ ch ≠ '}') :
    parse_type (fuel + 2) mods0 ('{' :: name ++ '=' :: 'i' :: '}' :: after) cache =
      .ok (.strct mods0 name [.mk (.prim 0 'i') none none [] 0], after,
        cache_type_definition (.strct mods0 name [.mk (.prim 0 'i') none none [] 0]) cache) := by
  have hloop : parse_struct_fields (parse_type (fuel + 1)) (after.length + 1 + 1 + 1)
      ('i' :: '}' :: after) cache 0 []
      = .ok ([Field.mk (.prim 0 'i') none none [] 0], after, cache) := by
    have hlen : after.length + 1 + 1 + 1 = (after.length + 1) + 2 := by omega
    rw [hlen]
    simp [parse_struct_fields, parse_type, consumeConst, parse_type_go, isPrimCode,
      align_up_size, type_alignment, primitive_type_size]
  show parse_type ((fuel + 1) + 1) mods0 ('{' :: name ++ '=' :: 'i' :: '}' :: after) cache = _
  rw [List.cons_append, parse_type_succ, consumeConst_not_r '{' (by decide)]
  dsimp only
  rw [parse_type_go, splitAtFirst_append (fun ch => decide (ch = '=' ∨ ch = '}')) '=' (by decide)
    name ('i' :: '}' :: after) (fun ch hch => by simp [(h ch hch).1, (h ch hch).2])]
  simp [hloop]

theorem cache_type_definition_strct_present (mods : Nat) (name : List Char)
    (fields : List Field) (cache : Cache) (hpres : ∃ e ∈ cache, e.1 = name ∧ tyTag e.2 = 1) :
    cache_type_definition (.strct mods name fields) cache = cache := by
  unfold cache_type_definition
  have hany : cache.any (fun e => decide (e.1 = name) && decide (tyTag e.2 = 1)) = true := by
    obtain ⟨e, he, h1, h2⟩ := hpres
    exact List.any_eq_true.mpr ⟨e, he, by simp [h1, h2]⟩
  by_cases hf : fields.isEmpty <;> simp [hf, hany]

theorem cache_type_definition_strct_absent (mods : Nat) (name : List Char)
    (fields : List Field) (cache : Cache) (hne : fields ≠ [])
    (habs : ∀ e ∈ cache, ¬(e.1 = name ∧ tyTag e.2 = 1)) :
    cache_type_definition (.strct mods name fields) cache =
      cache ++ [(name, .strct mods name fields)] := by
  unfold cache_type_definition
  have hany : cache.any (fun e => decide (e.1 = name) && decide (tyTag e.2 = 1)) = false := by
    rw [Bool.eq_false_iff]
    intro hc
    obtain ⟨e, he, hpe⟩ := List.any_eq_true.mp hc
    exact habs e he (by constructor <;> [exact of_decide_eq_true (Bool.and_elim_left hpe);
      exact of_decide_eq_true (Bool.and_elim_right hpe)])
  have hfe : fields.isEmpty = false := by
    cases fields with
    | nil => exact absurd rfl hne
    | cons a l => rfl
  simp [hfe, hany]

theorem json_write_size_value_zero (m : Nat) (c : Char) (h : isNumericCode c = true) :
    json_write_size_value (.prim m c) 0 = some (.int 0) := by
  simp only [isNumericCode, decide_eq_true_eq] at h
  rcases h with h | h | h | h | h | h | h | h | h | h <;> subst h <;> rfl

theorem toNat_ofNat_valid (n : Nat) (h : n.isValidChar) : (Char.ofNat n).toNat = n := by
  simp [Char.ofNat, Char.ofNatAux, h, Char.toNat, UInt32.toNat, BitVec.toNat_ofNatLt]

theorem toNat_digitChar (m : Nat) (h : m < 10) : (Char.ofNat (48 + m)).toNat = 48 + m :=
  toNat_ofNat_valid (48 + m) (Or.inl (by omega))

theorem isDigit_digitChar (m : Nat) (h : m < 10) : (Char.ofNat (48 + m)).isDigit = true := by
  interval_cases m <;> decide

theorem natDec_all_digit (n : Nat) : ∀ c ∈ natDec n, c.isDigit = true := by
  induction n using Nat.strong_induction_on with
  | _ n ih =>
    rw [natDec]
    split
    · intro c hc
      simp only [List.mem_singleton] at hc
      subst hc
      exact isDigit_digitChar n (by omega)
    · intro c hc
      rw [List.mem_append] at hc
      rcases hc with hc | hc
      · exact ih (n / 10) (Nat.div_lt_self (by omega) (by omega)) c hc
      · simp only [List.mem_singleton] at hc
        subst hc
        exact isDigit_digitChar (n % 10) (Nat.mod_lt _ (by omega))

theorem natDec_ne_nil (n : Nat) : natDec n ≠ [] := by
  rw [natDec]
  split
  · simp
  · simp

theorem natDec_foldl (n : Nat) : ∀ a : Nat,
    (natDec n).foldl (fun a c => a * 10 + (c.toNat - 48)) a = a * 10 ^ (natDec n).length + n := by
  induction n using Nat.strong_induction_on with
  | _ n ih =>
    intro a
    rw [natDec]
    split
    · rw [List.foldl_cons, List.foldl_nil, toNat_digitChar n (by omega), List.length_singleton,
        pow_one]
      omega
    · rw [List.foldl_append, ih (n / 10) (Nat.div_lt_self (by omega) (by omega)) a,
        List.foldl_cons, List.foldl_nil, toNat_digitChar (n % 10) (Nat.mod_lt _ (by omega)),
        List.length_append, List.length_singleton, pow_succ, ← Nat.mul_assoc, Nat.add_mul,
        Nat.add_assoc]
      exact Nat.add_left_cancel_iff.mpr (by omega)

theorem digit_toNat (c : Char) (h : c.isDigit = true) : 48 ≤ c.toNat ∧ c.toNat ≤ 57 := by
  simp [Char.isDigit, Char.le_def, UInt32.le_def, BitVec.le_def, Char.toNat, UInt32.toNat] at h ⊢
  omega

theorem digit_not_space (c : Char) (h : c.isDigit = true) : isSpaceB c = false := by
  have hb := digit_toNat c h
  simp only [isSpaceB, decide_eq_false_iff_not]
  rintro (rfl | rfl | rfl | rfl | rfl | rfl) <;> simp [Char.toNat, UInt32.size] at hb

theorem digit_ne_dash (c : Char) (h : c.isDigit = true) : c ≠ '-' := by
  have hb := digit_toNat c h
  rintro rfl; simp [Char.toNat, UInt32.size] at hb

theorem digit_ne_plus (c : Char) (h : c.isDigit = true) : c ≠ '+' := by
  have hb := digit_toNat c h
  rintro rfl; simp [Char.toNat, UInt32.size] at hb

theorem dropWhile_space_digits (l : Bytes) (h : ∀ c ∈ l, c.isDigit = true) :
    l.dropWhile isSpaceB = l := by
  cases l with
  | nil => rfl
  | cons c r =>
    rw [List.dropWhile_cons, if_neg]
    simp [digit_not_space c (h c (by simp))]

theorem takeWhile_digits (l : Bytes) (h : ∀ c ∈ l, c.isDigit = true) :
    l.takeWhile Char.isDigit = l := by
  induction l with
  | nil => rfl
  | cons c r ih =>
    rw [List.takeWhile_cons, if_pos (h c (by simp))]
    rw [ih (fun x hx => h x (by simp [hx]))]

theorem dropWhile_digits (l : Bytes) (h : ∀ c ∈ l, c.isDigit = true) :
    l.dropWhile Char.isDigit = [] := by
  induction l with
  | nil => rfl
  | cons c r ih =>
    rw [List.dropWhile_cons, if_pos (h c (by simp))]
    exact ih (fun x hx => h x (by simp [hx]))

theorem natDec_isEmpty (n : Nat) : (natDec n).isEmpty = false := by
  cases hl : natDec n with
  | nil => exact absurd hl (natDec_ne_nil n)
  | cons c r => rfl

theorem strtoullBytes_natDec (n : Nat) (h : n < 2 ^ 64) : strtoullBytes (natDec n) = some (n, []) := by
  have hd := natDec_all_digit n
  have hne := natDec_ne_nil n
  have hf := natDec_foldl n 0
  simp only [Nat.zero_mul, Nat.zero_add] at hf
  cases hl : natDec n with
  | nil => exact absurd hl hne
  | cons c r =>
    rw [hl] at hf
    have hall : ∀ x ∈ c :: r, x.isDigit = true := by rw [← hl]; exact hd
    have hcd : c.isDigit = true := hall c (by simp)
    simp only [strtoullBytes, dropWhile_space_digits _ hall,
      if_neg (digit_ne_dash c hcd), if_neg (digit_ne_plus c hcd),
      takeWhile_digits _ hall, dropWhile_digits _ hall, List.isEmpty_cons,
      Bool.false_eq_true, if_false, hf, ge_iff_le, if_neg (by omega : ¬ 2 ^ 64 ≤ n)]

theorem strtollBytes_intDec (v : Int) : strtollBytes (intDec v) = some (v, []) := by
  unfold intDec
  by_cases hv : v < 0
  · rw [if_pos hv]
    have hd := natDec_all_digit (-v).toNat
    have hf := natDec_foldl (-v).toNat 0
    simp only [Nat.zero_mul, Nat.zero_add] at hf
    have hnn : ((((-v).toNat : Nat) : Int)) = -v := Int.toNat_of_nonneg (by omega)
    simp only [strtollBytes, List.dropWhile_cons, show isSpaceB '-' = false from rfl,
      Bool.false_eq_true, if_false, ite_true, ite_false, takeWhile_digits _ hd,
      dropWhile_digits _ hd, natDec_isEmpty, hf, hnn, neg_neg]
  · rw [if_neg hv]
    have hd := natDec_all_digit v.toNat
    have hne := natDec_ne_nil v.toNat
    have hf := natDec_foldl v.toNat 0
    simp only [Nat.zero_mul, Nat.zero_add] at hf
    have hnn : (((v.toNat : Nat) : Int)) = v := Int.toNat_of_nonneg (by omega)
    cases hl : natDec v.toNat with
    | nil => exact absurd hl hne
    | cons c r =>
      rw [hl] at hf
      have hall : ∀ x ∈ c :: r, x.isDigit = true := by rw [← hl]; exact hd
      have hcd : c.isDigit = true := hall c (by simp)
      simp only [strtollBytes, dropWhile_space_digits _ hall,
        if_neg (digit_ne_dash c hcd), if_neg (digit_ne_plus c hcd),
        takeWhile_digits _ hall, dropWhile_digits _ hall, List.isEmpty_cons,
        Bool.false_eq_true, if_false, hf, hnn]

theorem natDec_head (n : Nat) : ∃ c r, natDec n = c :: r ∧ c.isDigit = true := by
  cases hl : natDec n with
  | nil => exact absurd hl (natDec_ne_nil n)
  | cons c r => exact ⟨c, r, rfl, natDec_all_digit n c (by rw [hl]; simp)⟩

theorem intDec_head (v : Int) : ∃ c r, intDec v = c :: r ∧ (c.isDigit = true ∨ c = '-') := by
  unfold intDec
  by_cases hv : v < 0
  · rw [if_pos hv]; exact ⟨'-', _, rfl, Or.inr rfl⟩
  · rw [if_neg hv]
    obtain ⟨c, r, hl, hc⟩ := natDec_head v.toNat
    exact ⟨c, r, hl, Or.inl hc⟩

theorem intDec_not_lit (v : Int) :
    ¬(intDec v = "true".data ∨ intDec v = "false".data ∨ intDec v = "null".data) := by
  obtain ⟨c, r, hl, hc⟩ := intDec_head v
  have hcn : c.toNat = 45 ∨ (48 ≤ c.toNat ∧ c.toNat ≤ 57) := by
    rcases hc with hd | rfl
    · exact Or.inr (digit_toNat c hd)
    · exact Or.inl rfl
  rw [hl]
  rintro (he | he | he) <;>
    (injection he with he1 he2; subst he1; simp [Char.toNat, UInt32.size] at hcn)

theorem natDec_not_lit (n : Nat) :
    ¬(natDec n = "true".data ∨ natDec n = "false".data ∨ natDec n = "null".data) := by
  obtain ⟨c, r, hl, hc⟩ := natDec_head n
  have hcn := digit_toNat c hc
  rw [hl]
  rintro (he | he | he) <;>
    (injection he with he1 he2; subst he1; simp [Char.toNat, UInt32.size] at hcn)

theorem json_parse_signed_intDec (v : Int) (h1 : -(2 ^ 63 : Int) ≤ v) (h2 : v ≤ 2 ^ 63 - 1) :
    json_parse_signed_token (.prim (intDec v)) = some v := by
  simp only [json_parse_signed_token]
  rw [if_neg (intDec_not_lit v), strtollBytes_intDec v]
  simp only []
  rw [if_pos (by exact ⟨trivial, by omega⟩)]

theorem json_parse_unsigned_natDec (n : Nat) (h : n < 2 ^ 64) :
    json_parse_unsigned_token (.prim (natDec n)) = some n := by
  obtain ⟨c, r, hl, hc⟩ := natDec_head n
  simp only [json_parse_unsigned_token]
  rw [if_neg (natDec_not_lit n), if_neg (by
    rw [hl]
    simp only [List.head?_cons, Option.some_inj]
    exact fun he => digit_ne_dash c hc he), strtoullBytes_natDec n h]
  simp


theorem hexDigit_val (d : Nat) (h : d < 16) :
    json_hex_value (if d < 10 then Char.ofNat (48 + d) else Char.ofNat (87 + d)) = some d := by
  interval_cases d <;> decide

theorem or16 (a b : Nat) (ha : a < 8) (hb : b < 16) : (a <<< 4) ||| b = 16 * a + b := by
  interval_cases a <;> interval_cases b <;> rfl

theorem jstr_unescape_pass (c : Char) (rest : Bytes) (hb : c ≠ '\\') :
    jstr_unescape (c :: rest) = (jstr_unescape rest).map (c :: ·) := by
  rw [jstr_unescape.eq_def]
  simp [hb]

theorem jstr_unescape_self (e : Char) (rest : Bytes) (h : e = '"' ∨ e = '\\' ∨ e = '/') :
    jstr_unescape ('\\' :: e :: rest) = (jstr_unescape rest).map (e :: ·) := by
  rcases h with rfl | rfl | rfl <;>
    exact match rest with
    | [] => rfl
    | [_] => rfl
    | [_, _] => rfl
    | [_, _, _] => rfl
    | _ :: _ :: _ :: _ :: _ => rfl

theorem jstr_unescape_bsn (rest : Bytes) :
    jstr_unescape ('\\' :: 'n' :: rest) = (jstr_unescape rest).map ('\n' :: ·) :=
  match rest with
  | [] => rfl
  | [_] => rfl
  | [_, _] => rfl
  | [_, _, _] => rfl
  | _ :: _ :: _ :: _ :: _ => rfl

theorem jstr_unescape_bsr (rest : Bytes) :
    jstr_unescape ('\\' :: 'r' :: rest) = (jstr_unescape rest).map ('\r' :: ·) :=
  match rest with
  | [] => rfl
  | [_] => rfl
  | [_, _] => rfl
  | [_, _, _] => rfl
  | _ :: _ :: _ :: _ :: _ => rfl

theorem jstr_unescape_bst (rest : Bytes) :
    jstr_unescape ('\\' :: 't' :: rest) = (jstr_unescape rest).map ('\t' :: ·) :=
  match rest with
  | [] => rfl
  | [_] => rfl
  | [_, _] => rfl
  | [_, _, _] => rfl
  | _ :: _ :: _ :: _ :: _ => rfl

theorem jstr_unescape_bsu (h1 h2 h3 h4 : Char) (rest : Bytes) :
    jstr_unescape ('\\' :: 'u' :: h1 :: h2 :: h3 :: h4 :: rest) =
      match json_hex_value h1, json_hex_value h2, json_hex_value h3, json_hex_value h4 with
      | some v1, some v2, some v3, some v4 =>
        (match json_utf8_encode ((v1 <<< 12) ||| (v2 <<< 8) ||| (v3 <<< 4) ||| v4) with
        | some bs => (jstr_unescape rest).map (bs ++ ·)
        | none => none)
      | _, _, _, _ => none := rfl

theorem esc_byte_unescape (c : Char) (rest : Bytes) (h : c.toNat < 128) :
    jstr_unescape (esc_byte c ++ rest) = (jstr_unescape rest).map (c :: ·) := by
  by_cases hq : c = '"' ∨ c = '\\'
  · have he : esc_byte c = ['\\', c] := by rw [esc_byte, if_pos hq]
    rw [he, List.cons_append, List.cons_append, List.nil_append,
      jstr_unescape_self c rest (by tauto)]
  · by_cases hn : c = '\n'
    · subst hn
      rw [show esc_byte '\n' ++ rest = '\\' :: 'n' :: rest from rfl, jstr_unescape_bsn]
    · by_cases hr : c = '\r'
      · subst hr
        rw [show esc_byte '\r' ++ rest = '\\' :: 'r' :: rest from rfl, jstr_unescape_bsr]
      · by_cases ht : c = '\t'
        · subst ht
          rw [show esc_byte '\t' ++ rest = '\\' :: 't' :: rest from rfl, jstr_unescape_bst]
        · by_cases hu : c.toNat < 32 ∨ c.toNat > 126
          · have he : esc_byte c ++ rest = '\\' :: 'u' ::
                (if (c.toNat / 4096) % 16 < 10 then Char.ofNat (48 + (c.toNat / 4096) % 16)
                 else Char.ofNat (87 + (c.toNat / 4096) % 16)) ::
                (if (c.toNat / 256) % 16 < 10 then Char.ofNat (48 + (c.toNat / 256) % 16)
                 else Char.ofNat (87 + (c.toNat / 256) % 16)) ::
                (if (c.toNat / 16) % 16 < 10 then Char.ofNat (48 + (c.toNat / 16) % 16)
                 else Char.ofNat (87 + (c.toNat / 16) % 16)) ::
                (if c.toNat % 16 < 10 then Char.ofNat (48 + c.toNat % 16)
                 else Char.ofNat (87 + c.toNat % 16)) :: rest := by
              rw [esc_byte, if_neg hq, if_neg hn, if_neg hr, if_neg ht, if_pos hu]
              rfl
            rw [he, jstr_unescape_bsu, hexDigit_val _ (by omega), hexDigit_val _ (by omega),
              hexDigit_val _ (by omega), hexDigit_val _ (by omega)]
            dsimp only
            have hcp : ((c.toNat / 4096 % 16) <<< 12) ||| ((c.toNat / 256 % 16) <<< 8) |||
                ((c.toNat / 16 % 16) <<< 4) ||| (c.toNat % 16) = c.toNat := by
              have e1 : c.toNat / 4096 % 16 = 0 := by omega
              have e2 : c.toNat / 256 % 16 = 0 := by omega
              have e3 : c.toNat / 16 % 16 = c.toNat / 16 := by
                rw [Nat.mod_eq_of_lt]; omega
              rw [e1, e2, e3]
              simp only [Nat.zero_shiftLeft, Nat.zero_or]
              rw [or16 (c.toNat / 16) (c.toNat % 16) (by omega) (by omega)]
              omega
            rw [hcp]
            rw [show json_utf8_encode c.toNat = some [Char.ofNat c.toNat] by
              unfold json_utf8_encode; rw [if_pos (by omega)]]
            rw [Char.ofNat_toNat]
            rfl
          · have hbs : c ≠ '\\' := fun he => hq (Or.inr he)
            have he : esc_byte c = [c] := by
              rw [esc_byte, if_neg hq, if_neg hn, if_neg hr, if_neg ht, if_neg hu]
            rw [he, List.cons_append, List.nil_append, jstr_unescape_pass c rest hbs]

theorem esc_string_unescape (s : Bytes) (h : ∀ c ∈ s, c.toNat < 128) :
    jstr_unescape (esc_string s) = some s := by
  induction s with
  | nil => rfl
  | cons c rest ih =>
    have he : esc_string (c :: rest) = esc_byte c ++ esc_string rest := rfl
    rw [he, esc_byte_unescape c _ (h c (by simp)), ih (fun x hx => h x (by simp [hx]))]
    rfl

theorem fmtFixed6_nat (n : Nat) : fmtFixed6 (n : Rat) = natDec n ++ '.' :: "000000".data := by
  simp only [fmtFixed6]
  rw [if_neg (by exact not_lt.mpr (by positivity)), abs_of_nonneg (by positivity)]
  have h1 : ((n : ℚ) * 1000000) = ((n * 1000000 : ℕ) : ℚ) := by push_cast; ring
  rw [h1, round_natCast, Int.toNat_natCast]
  have e1 : n * 1000000 / 1000000 = n := by omega
  have e2 : n * 1000000 % 1000000 = 0 := by omega
  have hp : pad6 0 = "000000".data := by
    simp only [pad6]
    rw [natDec]
    decide
  rw [e1, e2, hp]
  simp

theorem wrapSigned32_eq (v : Int) (h1 : -(2 ^ 31 : Int) ≤ v) (h2 : v ≤ 2 ^ 31 - 1) :
    wrapSigned 32 v = v := by
  unfold wrapSigned
  omega

theorem size_read_of_parse (m : Nat) (c : Char) (t : Bytes) (L : Nat) (sv : SVal)
    (hs : json_parse_size_token (.prim t) (.prim m c) = some L)
    (hp : json_parse_primitive (.prim m c) (.prim t) = some sv) :
    json_read_size_value (.prim m c) sv = some L := by
  by_cases h1 : c = 'c'
  · subst h1
    cases hv : json_parse_signed_token (.prim t) with
    | none => simp [json_parse_size_token, hv] at hs
    | some v =>
      simp only [json_parse_size_token, hv] at hs
      simp only [json_parse_primitive, hv] at hp
      simp at hs hp
      obtain ⟨hb, hL⟩ := hs
      obtain ⟨hb2, rfl⟩ := hp
      simp [json_read_size_value, show ¬ v < 0 by omega, hL]
  by_cases h2 : c = 's'
  · subst h2
    cases hv : json_parse_signed_token (.prim t) with
    | none => simp [json_parse_size_token, hv] at hs
    | some v =>
      simp only [json_parse_size_token, hv] at hs
      simp only [json_parse_primitive, hv] at hp
      simp at hs hp
      obtain ⟨hb, hL⟩ := hs
      obtain ⟨hb2, rfl⟩ := hp
      simp [json_read_size_value, show ¬ v < 0 by omega, hL]
  by_cases h3 : c = 'i'
  · subst h3
    cases hv : json_parse_signed_token (.prim t) with
    | none => simp [json_parse_size_token, hv] at hs
    | some v =>
      simp only [json_parse_size_token, hv] at hs
      simp only [json_parse_primitive, hv] at hp
      simp at hs hp
      obtain ⟨hb, hL⟩ := hs
      obtain ⟨hb2, rfl⟩ := hp
      simp [json_read_size_value, show ¬ v < 0 by omega, hL]
  by_cases h4 : c = 'l'
  · subst h4
    cases hv : json_parse_signed_token (.prim t) with
    | none => simp [json_parse_size_token, hv] at hs
    | some v =>
      simp only [json_parse_size_token, hv] at hs
      simp only [json_parse_primitive, hv] at hp
      simp at hs hp
      obtain ⟨hb, hL⟩ := hs
      obtain rfl := hp
      simp [json_read_size_value, show ¬ v < 0 by omega, hL]
  by_cases h5 : c = 'q'
  · subst h5
    cases hv : json_parse_signed_token (.prim t) with
    | none => simp [json_parse_size_token, hv] at hs
    | some v =>
      simp only [json_parse_size_token, hv] at hs
      simp only [json_parse_primitive, hv] at hp
      simp at hs hp
      obtain ⟨hb, hL⟩ := hs
      obtain rfl := hp
      simp [json_read_size_value, show ¬ v < 0 by omega, hL]
  by_cases h6 : c = 'C'
  · subst h6
    cases hv : json_parse_unsigned_token (.prim t) with
    | none => simp [json_parse_size_token, hv] at hs
    | some v =>
      simp only [json_parse_size_token, json_primitive_is_unsigned, hv] at hs
      simp only [json_parse_primitive, hv] at hp
      simp at hs hp
      obtain ⟨hb, rfl⟩ := hs
      obtain ⟨hb2, rfl⟩ := hp
      simp [json_read_size_value, json_primitive_is_unsigned]
  by_cases h7 : c = 'S'
  · subst h7
    cases hv : json_parse_unsigned_token (.prim t) with
    | none => simp [json_parse_size_token, hv] at hs
    | some v =>
      simp only [json_parse_size_token, json_primitive_is_unsigned, hv] at hs
      simp only [json_parse_primitive, hv] at hp
      simp at hs hp
      obtain ⟨hb, rfl⟩ := hs
      obtain ⟨hb2, rfl⟩ := hp
      simp [json_read_size_value, json_primitive_is_unsigned]
  by_cases h8 : c = 'I'
  · subst h8
    cases hv : json_parse_unsigned_token (.prim t) with
    | none => simp [json_parse_size_token, hv] at hs
    | some v =>
      simp only [json_parse_size_token, json_primitive_is_unsigned, hv] at hs
      simp only [json_parse_primitive, hv] at hp
      simp at hs hp
      obtain ⟨hb, rfl⟩ := hs
      obtain ⟨hb2, rfl⟩ := hp
      simp [json_read_size_value, json_primitive_is_unsigned]
  by_cases h9 : c = 'L'
  · subst h9
    cases hv : json_parse_unsigned_token (.prim t) with
    | none => simp [json_parse_size_token, hv] at hs
    | some v =>
      simp only [json_parse_size_token, json_primitive_is_unsigned, hv] at hs
      simp only [json_parse_primitive, hv] at hp
      simp at hs hp
      obtain ⟨hb, rfl⟩ := hs
      obtain rfl := hp
      simp [json_read_size_value, json_primitive_is_unsigned]
  by_cases h10 : c = 'Q'
  · subst h10
    cases hv : json_parse_unsigned_token (.prim t) with
    | none => simp [json_parse_size_token, hv] at hs
    | some v =>
      simp only [json_parse_size_token, json_primitive_is_unsigned, hv] at hs
      simp only [json_parse_primitive, hv] at hp
      simp at hs hp
      obtain ⟨hb, rfl⟩ := hs
      obtain rfl := hp
      simp [json_read_size_value, json_primitive_is_unsigned]
  · simp [json_parse_size_token, json_primitive_is_unsigned,
      h1, h2, h3, h4, h5, h6, h7, h8, h9, h10] at hs

theorem read_of_write (m : Nat) (c : Char) (s : Nat) (w : SVal)
    (hw : json_write_size_value (.prim m c) s = some w) :
    json_read_size_value (.prim m c) w = some s := by
  by_cases h1 : c = 'c'
  · subst h1
    simp only [json_write_size_value] at hw
    simp at hw
    obtain ⟨hb, rfl⟩ := hw
    simp [json_read_size_value]
  by_cases h2 : c = 's'
  · subst h2
    simp only [json_write_size_value] at hw
    simp at hw
    obtain ⟨hb, rfl⟩ := hw
    simp [json_read_size_value]
  by_cases h3 : c = 'i'
  · subst h3
    simp only [json_write_size_value] at hw
    simp at hw
    obtain ⟨hb, rfl⟩ := hw
    simp [json_read_size_value]
  by_cases h4 : c = 'l'
  · subst h4
    simp only [json_write_size_value] at hw
    simp at hw
    obtain ⟨hb, rfl⟩ := hw
    simp [json_read_size_value]
  by_cases h5 : c = 'q'
  · subst h5
    simp only [json_write_size_value] at hw
    simp at hw
    obtain ⟨hb, rfl⟩ := hw
    simp [json_read_size_value]
  by_cases h6 : c = 'C'
  · subst h6
    simp only [json_write_size_value] at hw
    simp at hw
    obtain ⟨hb, rfl⟩ := hw
    simp [json_read_size_value, json_primitive_is_unsigned]
  by_cases h7 : c = 'S'
  · subst h7
    simp only [json_write_size_value] at hw
    simp at hw
    obtain ⟨hb, rfl⟩ := hw
    simp [json_read_size_value, json_primitive_is_unsigned]
  by_cases h8 : c = 'I'
  · subst h8
    simp only [json_write_size_value] at hw
    simp at hw
    obtain ⟨hb, rfl⟩ := hw
    simp [json_read_size_value, json_primitive_is_unsigned]
  by_cases h9 : c = 'L'
  · subst h9
    simp only [json_write_size_value] at hw
    simp at hw
    obtain ⟨hb, rfl⟩ := hw
    simp [json_read_size_value, json_primitive_is_unsigned]
  by_cases h10 : c = 'Q'
  · subst h10
    simp only [json_write_size_value] at hw
    simp at hw
    obtain rfl := hw
    simp [json_read_size_value, json_primitive_is_unsigned]
  · simp [json_write_size_value, h1, h2, h3, h4, h5, h6, h7, h8, h9, h10] at hw

set_option synthInstance.maxHeartbeats 1000000 in
theorem cache_type_definition_ext (t : Ty) (c : Cache) :
    ∃ e, cache_type_definition t c = c ++ e := by
  cases t with
  | prim m c0 => exact ⟨[], by simp [cache_type_definition]⟩
  | ptr m pt => exact ⟨[], by simp [cache_type_definition]⟩
  | arr m l et => exact ⟨[], by simp [cache_type_definition]⟩
  | strct m name fields =>
    by_cases he : fields.isEmpty = true
    · exact ⟨[], by simp only [cache_type_definition, he, if_true, List.append_nil]⟩
    · by_cases ha : c.any (fun e => e.1 = name ∧ tyTag e.2 = 1) = true
      · exact ⟨[], by
          simp only [cache_type_definition, he, Bool.false_eq_true, if_false, ha, if_true,
            List.append_nil]⟩
      · exact ⟨[(name, .strct m name fields)], by
          simp only [cache_type_definition, he, ha, Bool.false_eq_true, if_false]⟩
  | uni m name fields =>
    by_cases he : fields.isEmpty = true
    · exact ⟨[], by simp only [cache_type_definition, he, if_true, List.append_nil]⟩
    · by_cases ha : c.any (fun e => e.1 = name ∧ tyTag e.2 = 4) = true
      · exact ⟨[], by
          simp only [cache_type_definition, he, Bool.false_eq_true, if_false, ha, if_true,
            List.append_nil]⟩
      · exact ⟨[(name, .uni m name fields)], by
          simp only [cache_type_definition, he, ha, Bool.false_eq_true, if_false]⟩

theorem parse_struct_fields_ext (rec : PT)
    (hrec : ∀ mods s c t1 s1 c1, rec mods s c = .ok (t1, s1, c1) → ∃ e, c1 = c ++ e) :
    ∀ lf s c off acc flds s1 c1,
      parse_struct_fields rec lf s c off acc = .ok (flds, s1, c1) → ∃ e, c1 = c ++ e := by
  intro lf
  induction lf with
  | zero =>
    intro s c off acc flds s1 c1 h
    simp [parse_struct_fields] at h
  | succ fl ih =>
    intro s c off acc flds s1 c1 h
    rw [parse_struct_fields] at h
    dsimp only at h
    by_cases hcl : s.take 1 = ['}']
    · rw [if_pos hcl] at h
      refine ⟨[], ?_⟩
      injection h with h'
      injection h' with h1 h2
      injection h2 with h3 h4
      simp [h4]
    · rw [if_neg hcl] at h
      generalize hin : (if decide (List.take 3 s = ['(', '?', '=']) = true
        then List.drop 3 s else s) = sIn at h
      split at h
      · cases h
      · cases h
      · next fty s2 c2 heq =>
        by_cases hs2 : s2 = sIn
        · rw [if_pos hs2] at h; cases h
        · rw [if_neg hs2] at h
          split at h
          · cases h
          · next fname fmods lfn s3 heq2 =>
            split at h
            · cases h
            · next s4 heq3 =>
              obtain ⟨e1, rfl⟩ := hrec 0 _ c fty s2 c2 heq
              obtain ⟨e2, he2⟩ := ih _ _ _ _ _ _ _ h
              exact ⟨e1 ++ e2, by rw [he2, List.append_assoc]⟩

theorem parse_union_fields_ext (rec : PT)
    (hrec : ∀ mods s c t1 s1 c1, rec mods s c = .ok (t1, s1, c1) → ∃ e, c1 = c ++ e) :
    ∀ lf s c acc flds s1 c1,
      parse_union_fields rec lf s c acc = .ok (flds, s1, c1) → ∃ e, c1 = c ++ e := by
  intro lf
  induction lf with
  | zero =>
    intro s c acc flds s1 c1 h
    simp [parse_union_fields] at h
  | succ fl ih =>
    intro s c acc flds s1 c1 h
    rw [parse_union_fields] at h
    dsimp only at h
    by_cases hcl : s.take 1 = [')']
    · rw [if_pos hcl] at h
      refine ⟨[], ?_⟩
      injection h with h'
      injection h' with h1 h2
      injection h2 with h3 h4
      simp [h4]
    · rw [if_neg hcl] at h
      generalize hin : (if decide (List.take 3 s = ['(', '?', '=']) = true
        then List.drop 3 s else s) = sIn at h
      split at h
      · cases h
      · cases h
      · next fty s2 c2 heq =>
        by_cases hs2 : s2 = sIn
        · rw [if_pos hs2] at h; cases h
        · rw [if_neg hs2] at h
          split at h
          · cases h
          · next fname fmods lfn s3 heq2 =>
            split at h
            · cases h
            · next s4 heq3 =>
              obtain ⟨e1, rfl⟩ := hrec 0 _ c fty s2 c2 heq
              obtain ⟨e2, he2⟩ := ih _ _ _ _ _ _ h
              exact ⟨e1 ++ e2, by rw [he2, List.append_assoc]⟩

theorem parse_type_go_ext (rec : PT)
    (hrec : ∀ mods s c t1 s1 c1, rec mods s c = .ok (t1, s1, c1) → ∃ e, c1 = c ++ e) :
    ∀ mods s c t1 s1 c1,
      parse_type_go rec mods s c = .ok (t1, s1, c1) → ∃ e, c1 = c ++ e := by
  intro mods s c t1 s1 c1 h
  rw [parse_type_go.eq_def] at h
  cases s with
  | nil =>
    dsimp only at h
    simp only [Except.ok.injEq, Prod.mk.injEq] at h
    obtain ⟨-, -, h4⟩ := h
    exact ⟨[], by simp [h4]⟩
  | cons c0 rest =>
    dsimp only at h
    by_cases hp : c0 = '^'
    · rw [if_pos hp] at h
      cases heq : rec 0 rest c with
      | error e => rw [heq] at h; cases h
      | ok r =>
        obtain ⟨pt, s', c'⟩ := r
        rw [heq] at h
        simp only [Except.ok.injEq, Prod.mk.injEq] at h
        obtain ⟨-, -, h4⟩ := h
        subst h4
        exact hrec 0 rest c pt s' _ heq
    · rw [if_neg hp] at h
      by_cases hb : c0 = '{'
      · rw [if_pos hb] at h
        split at h
        · cases h
        · split at h <;>
            (simp only [Except.ok.injEq, Prod.mk.injEq] at h
             obtain ⟨-, -, h4⟩ := h
             exact ⟨[], by simp [h4]⟩)
        · split at h
          · cases h
          · next fields s' c' heq2 =>
            simp only [Except.ok.injEq, Prod.mk.injEq] at h
            obtain ⟨-, -, h4⟩ := h
            subst h4
            obtain ⟨e1, rfl⟩ := parse_struct_fields_ext rec hrec _ _ _ _ _ _ _ _ heq2
            obtain ⟨e2, he2⟩ := cache_type_definition_ext _ (c ++ e1)
            exact ⟨e1 ++ e2, by rw [he2, List.append_assoc]⟩
        · cases h
      · rw [if_neg hb] at h
        by_cases hu : c0 = '('
        · rw [if_pos hu] at h
          split at h
          · cases h
          · split at h <;>
              (simp only [Except.ok.injEq, Prod.mk.injEq] at h
               obtain ⟨-, -, h4⟩ := h
               exact ⟨[], by simp [h4]⟩)
          · split at h
            · cases h
            · next fields s' c' heq2 =>
              simp only [Except.ok.injEq, Prod.mk.injEq] at h
              obtain ⟨-, -, h4⟩ := h
              subst h4
              obtain ⟨e1, rfl⟩ := parse_union_fields_ext rec hrec _ _ _ _ _ _ _ heq2
              obtain ⟨e2, he2⟩ := cache_type_definition_ext _ (c ++ e1)
              exact ⟨e1 ++ e2, by rw [he2, List.append_assoc]⟩
          · cases h
        · rw [if_neg hu] at h
          by_cases har : c0 = '['
          · rw [if_pos har] at h
            split at h
            · cases h
            · next v s2 heq =>
              cases heq2 : rec 0 s2 c with
              | error e => rw [heq2] at h; cases h
              | ok r =>
                obtain ⟨et, s3, c3⟩ := r
                rw [heq2] at h
                dsimp only at h
                rcases s3 with _ | ⟨d, s4⟩
                · dsimp only at h
                  cases h
                · by_cases hd : d = ']'
                  · subst hd
                    simp only [Except.ok.injEq, Prod.mk.injEq] at h
                    obtain ⟨-, -, h4⟩ := h
                    subst h4
                    exact hrec 0 s2 c et _ _ heq2
                  · split at h
                    all_goals
                      first
                        | (rename_i heq3
                           injection heq3 with hd1
                           exact absurd hd1 hd)
                        | cases h
          · rw [if_neg har] at h
            by_cases hpr : isPrimCode c0 = true
            · rw [if_pos hpr] at h
              simp only [Except.ok.injEq, Prod.mk.injEq] at h
              obtain ⟨-, -, h4⟩ := h
              exact ⟨[], by simp [h4]⟩
            · rw [if_neg hpr] at h
              simp only [Except.ok.injEq, Prod.mk.injEq] at h
              obtain ⟨-, -, h4⟩ := h
              exact ⟨[], by simp [h4]⟩

theorem parse_type_ext : ∀ fl mods s c t1 s1 c1,
    parse_type fl mods s c = .ok (t1, s1, c1) → ∃ e, c1 = c ++ e := by
  intro fl
  induction fl with
  | zero => intro mods s c t1 s1 c1 h; cases h
  | succ fl ih =>
    intro mods s c t1 s1 c1 h
    rw [parse_type] at h
    exact parse_type_go_ext (parse_type fl) ih _ _ _ _ _ _ h

theorem keysOf_append (c e : Cache) : keysOf (c ++ e) = keysOf c ++ keysOf e := by
  simp [keysOf]

theorem keysOf_sub_of_ext (c c1 : Cache) (e : Cache) (h : c1 = c ++ e) :
    keysOf c ⊆ keysOf c1 := by
  subst h
  rw [keysOf_append]
  exact List.subset_append_left _ _

theorem any_iff_key_mem (c : Cache) (name : List Char) (k : Nat) :
    c.any (fun e => e.1 = name ∧ tyTag e.2 = k) = true ↔ (name, k) ∈ keysOf c := by
  simp [keysOf, List.any_eq_true, List.mem_map, Prod.ext_iff]

theorem key_mem_cache_strct (m : Nat) (name : List Char) (fields : List Field) (c : Cache)
    (h : fields.isEmpty = false) :
    (name, 1) ∈ keysOf (cache_type_definition (.strct m name fields) c) := by
  simp only [cache_type_definition, h, Bool.false_eq_true, if_false]
  by_cases ha : c.any (fun e => e.1 = name ∧ tyTag e.2 = 1) = true
  · rw [if_pos ha]
    exact (any_iff_key_mem c name 1).mp ha
  · rw [if_neg ha, keysOf_append]
    simp [keysOf, tyTag]

theorem key_mem_cache_uni (m : Nat) (name : List Char) (fields : List Field) (c : Cache)
    (h : fields.isEmpty = false) :
    (name, 4) ∈ keysOf (cache_type_definition (.uni m name fields) c) := by
  simp only [cache_type_definition, h, Bool.false_eq_true, if_false]
  by_cases ha : c.any (fun e => e.1 = name ∧ tyTag e.2 = 4) = true
  · rw [if_pos ha]
    exact (any_iff_key_mem c name 4).mp ha
  · rw [if_neg ha, keysOf_append]
    simp [keysOf, tyTag]

theorem cache_skip_strct (m : Nat) (name : List Char) (fields : List Field) (d : Cache)
    (h : (name, 1) ∈ keysOf d) :
    cache_type_definition (.strct m name fields) d = d := by
  simp only [cache_type_definition]
  by_cases he : fields.isEmpty = true
  · rw [if_pos he]
  · rw [if_neg he, if_pos ((any_iff_key_mem d name 1).mpr h)]

theorem cache_skip_uni (m : Nat) (name : List Char) (fields : List Field) (d : Cache)
    (h : (name, 4) ∈ keysOf d) :
    cache_type_definition (.uni m name fields) d = d := by
  simp only [cache_type_definition]
  by_cases he : fields.isEmpty = true
  · rw [if_pos he]
  · rw [if_neg he, if_pos ((any_iff_key_mem d name 4).mpr h)]

theorem cache_empty_strct (m : Nat) (name : List Char) (fields : List Field) (d : Cache)
    (h : fields.isEmpty = true) :
    cache_type_definition (.strct m name fields) d = d := by
  simp only [cache_type_definition, h, if_true]

theorem cache_empty_uni (m : Nat) (name : List Char) (fields : List Field) (d : Cache)
    (h : fields.isEmpty = true) :
    cache_type_definition (.uni m name fields) d = d := by
  simp only [cache_type_definition, h, if_true]

theorem parse_struct_fields_stab (rec : PT)
    (hrecext : ∀ mods s c t1 s1 c1, rec mods s c = .ok (t1, s1, c1) → ∃ e, c1 = c ++ e)
    (hrecstab : ∀ mods s c t1 s1 c1, rec mods s c = .ok (t1, s1, c1) →
      ∀ d, keysOf c1 ⊆ keysOf d → ∃ t2, rec mods s d = .ok (t2, s1, d)) :
    ∀ lf s c off acc flds s1 c1,
      parse_struct_fields rec lf s c off acc = .ok (flds, s1, c1) →
      ∀ d, keysOf c1 ⊆ keysOf d → ∀ off2 (acc2 : List Field), acc2.length = acc.length →
      ∃ flds2, parse_struct_fields rec lf s d off2 acc2 = .ok (flds2, s1, d) ∧
        flds2.length = flds.length := by
  intro lf
  induction lf with
  | zero =>
    intro s c off acc flds s1 c1 h
    simp [parse_struct_fields] at h
  | succ fl ih =>
    intro s c off acc flds s1 c1 h d hsub off2 acc2 hlen
    rw [parse_struct_fields] at h
    dsimp only at h
    rw [parse_struct_fields]
    dsimp only
    by_cases hcl : s.take 1 = ['}']
    · rw [if_pos hcl] at h ⊢
      simp only [Except.ok.injEq, Prod.mk.injEq] at h
      obtain ⟨h1, h3, h4⟩ := h
      exact ⟨acc2, by rw [h3], by rw [hlen, h1]⟩
    · rw [if_neg hcl] at h ⊢
      generalize hin : (if decide (List.take 3 s = ['(', '?', '=']) = true
        then List.drop 3 s else s) = sIn at h ⊢
      split at h
      · cases h
      · cases h
      · next fty s2 c2 heq =>
        by_cases hs2 : s2 = sIn
        · rw [if_pos hs2] at h; cases h
        · rw [if_neg hs2] at h
          split at h
          · cases h
          · next fname fmods lfn s3 heq2 =>
            split at h
            · cases h
            · next s4 heq3 =>
              obtain ⟨e2, hc1⟩ := parse_struct_fields_ext rec hrecext _ _ _ _ _ _ _ _ h
              have hc2sub : keysOf c2 ⊆ keysOf d :=
                fun k hk => hsub (keysOf_sub_of_ext c2 c1 e2 hc1 hk)
              obtain ⟨fty2, hrec2⟩ := hrecstab 0 sIn c fty s2 c2 heq d hc2sub
              rw [hrec2]
              dsimp only
              rw [if_neg hs2, heq2]
              dsimp only
              rw [heq3]
              dsimp only
              exact ih _ _ _ _ _ _ _ h d hsub _ _ (by simp [hlen])

theorem parse_union_fields_stab (rec : PT)
    (hrecext : ∀ mods s c t1 s1 c1, rec mods s c = .ok (t1, s1, c1) → ∃ e, c1 = c ++ e)
    (hrecstab : ∀ mods s c t1 s1 c1, rec mods s c = .ok (t1, s1, c1) →
      ∀ d, keysOf c1 ⊆ keysOf d → ∃ t2, rec mods s d = .ok (t2, s1, d)) :
    ∀ lf s c acc flds s1 c1,
      parse_union_fields rec lf s c acc = .ok (flds, s1, c1) →
      ∀ d, keysOf c1 ⊆ keysOf d → ∀ (acc2 : List Field), acc2.length = acc.length →
      ∃ flds2, parse_union_fields rec lf s d acc2 = .ok (flds2, s1, d) ∧
        flds2.length = flds.length := by
  intro lf
  induction lf with
  | zero =>
    intro s c acc flds s1 c1 h
    simp [parse_union_fields] at h
  | succ fl ih =>
    intro s c acc flds s1 c1 h d hsub acc2 hlen
    rw [parse_union_fields] at h
    dsimp only at h
    rw [parse_union_fields]
    dsimp only
    by_cases hcl : s.take 1 = [')']
    · rw [if_pos hcl] at h ⊢
      simp only [Except.ok.injEq, Prod.mk.injEq] at h
      obtain ⟨h1, h3, h4⟩ := h
      exact ⟨acc2, by rw [h3], by rw [hlen, h1]⟩
    · rw [if_neg hcl] at h ⊢
      generalize hin : (if decide (List.take 3 s = ['(', '?', '=']) = true
        then List.drop 3 s else s) = sIn at h ⊢
      split at h
      · cases h
      · cases h
      · next fty s2 c2 heq =>
        by_cases hs2 : s2 = sIn
        · rw [if_pos hs2] at h; cases h
        · rw [if_neg hs2] at h
          split at h
          · cases h
          · next fname fmods lfn s3 heq2 =>
            split at h
            · cases h
            · next s4 heq3 =>
              obtain ⟨e2, hc1⟩ := parse_union_fields_ext rec hrecext _ _ _ _ _ _ _ h
              have hc2sub : keysOf c2 ⊆ keysOf d :=
                fun k hk => hsub (keysOf_sub_of_ext c2 c1 e2 hc1 hk)
              obtain ⟨fty2, hrec2⟩ := hrecstab 0 sIn c fty s2 c2 heq d hc2sub
              rw [hrec2]
              dsimp only
              rw [if_neg hs2, heq2]
              dsimp only
              rw [heq3]
              dsimp only
              exact ih _ _ _ _ _ _ h d hsub _ (by simp [hlen])
theorem parse_type_go_brace_ref (rec : PT) (mods : Nat) (name after rest : List Char) (c : Cache)
    (hsp : splitAtFirst (fun c => c = '=' ∨ c = '}') rest = some (name, '}' :: after)) :
    parse_type_go rec mods ('{' :: rest) c =
      match lookup_cached_type c 1 name mods with
      | some t => .ok (t, after, c)
      | none => .ok (.strct mods name [], after, c) := by
  rw [parse_type_go.eq_def]
  dsimp only
  rw [if_neg (by decide : ¬('{' : Char) = '^'), if_pos (rfl : ('{' : Char) = '{'), hsp]
  rfl

theorem parse_type_go_brace_def (rec : PT) (mods : Nat) (name : List Char) (hc : Char)
    (after rest : List Char) (c : Cache)
    (hsp : splitAtFirst (fun c => c = '=' ∨ c = '}') rest = some (name, hc :: after))
    (hne : hc ≠ '}') :
    parse_type_go rec mods ('{' :: rest) c =
      match parse_struct_fields rec (after.length + 1) after c 0 [] with
      | .error e => .error e
      | .ok (fields, s', c') =>
        .ok (.strct mods name fields, s', cache_type_definition (.strct mods name fields) c') := by
  rw [parse_type_go.eq_def]
  dsimp only
  rw [if_neg (by decide : ¬('{' : Char) = '^'), if_pos (rfl : ('{' : Char) = '{'), hsp]
  split
  · next heq => cases heq
  · next heq =>
    injection heq with h1
    injection h1 with h2 h3
    injection h3 with h4 h5
    exact absurd h4 hne
  · next heq =>
    injection heq with h1
    injection h1 with h2 h3
    injection h3 with h4 h5
    subst h2
    subst h4
    subst h5
    rfl
  · next heq =>
    injection heq with h1
    injection h1 with h2 h3
    cases h3

theorem parse_type_go_paren_ref (rec : PT) (mods : Nat) (name after rest : List Char) (c : Cache)
    (hsp : splitAtFirst (fun c => c = '=' ∨ c = ')') rest = some (name, ')' :: after)) :
    parse_type_go rec mods ('(' :: rest) c =
      match lookup_cached_type c 4 name mods with
      | some t => .ok (t, after, c)
      | none => .ok (.uni mods name [], after, c) := by
  rw [parse_type_go.eq_def]
  dsimp only
  rw [if_neg (by decide : ¬('(' : Char) = '^'), if_neg (by decide : ¬('(' : Char) = '{'),
    if_pos (rfl : ('(' : Char) = '('), hsp]
  rfl

theorem parse_type_go_paren_def (rec : PT) (mods : Nat) (name : List Char) (hc : Char)
    (after rest : List Char) (c : Cache)
    (hsp : splitAtFirst (fun c => c = '=' ∨ c = ')') rest = some (name, hc :: after))
    (hne : hc ≠ ')') :
    parse_type_go rec mods ('(' :: rest) c =
      match parse_union_fields rec (after.length + 1) after c [] with
      | .error e => .error e
      | .ok (fields, s', c') =>
        .ok (.uni mods name fields, s', cache_type_definition (.uni mods name fields) c') := by
  rw [parse_type_go.eq_def]
  dsimp only
  rw [if_neg (by decide : ¬('(' : Char) = '^'), if_neg (by decide : ¬('(' : Char) = '{'),
    if_pos (rfl : ('(' : Char) = '('), hsp]
  split
  · next heq => cases heq
  · next heq =>
    injection heq with h1
    injection h1 with h2 h3
    injection h3 with h4 h5
    exact absurd h4 hne
  · next heq =>
    injection heq with h1
    injection h1 with h2 h3
    injection h3 with h4 h5
    subst h2
    subst h4
    subst h5
    rfl
  · next heq =>
    injection heq with h1
    injection h1 with h2 h3
    cases h3

theorem parse_type_go_brace_none (rec : PT) (mods : Nat) (rest : List Char) (c : Cache)
    (hsp : splitAtFirst (fun c => c = '=' ∨ c = '}') rest = none) :
    parse_type_go rec mods ('{' :: rest) c = .error 1 := by
  rw [parse_type_go.eq_def]
  dsimp only
  rw [if_neg (by decide : ¬('{' : Char) = '^'), if_pos (rfl : ('{' : Char) = '{'), hsp]

theorem parse_type_go_brace_empty (rec : PT) (mods : Nat) (name rest : List Char) (c : Cache)
    (hsp : splitAtFirst (fun c => c = '=' ∨ c = '}') rest = some (name, [])) :
    parse_type_go rec mods ('{' :: rest) c = .error 1 := by
  rw [parse_type_go.eq_def]
  dsimp only
  rw [if_neg (by decide : ¬('{' : Char) = '^'), if_pos (rfl : ('{' : Char) = '{'), hsp]
  try rfl

theorem parse_type_go_paren_none (rec : PT) (mods : Nat) (rest : List Char) (c : Cache)
    (hsp : splitAtFirst (fun c => c = '=' ∨ c = ')') rest = none) :
    parse_type_go rec mods ('(' :: rest) c = .error 1 := by
  rw [parse_type_go.eq_def]
  dsimp only
  rw [if_neg (by decide : ¬('(' : Char) = '^'), if_neg (by decide : ¬('(' : Char) = '{'),
    if_pos (rfl : ('(' : Char) = '('), hsp]

theorem parse_type_go_paren_empty (rec : PT) (mods : Nat) (name rest : List Char) (c : Cache)
    (hsp : splitAtFirst (fun c => c = '=' ∨ c = ')') rest = some (name, [])) :
    parse_type_go rec mods ('(' :: rest) c = .error 1 := by
  rw [parse_type_go.eq_def]
  dsimp only
  rw [if_neg (by decide : ¬('(' : Char) = '^'), if_neg (by decide : ¬('(' : Char) = '{'),
    if_pos (rfl : ('(' : Char) = '('), hsp]
  try rfl

theorem parse_type_go_stab (rec : PT)
    (hrecext : ∀ mods s c t1 s1 c1, rec mods s c = .ok (t1, s1, c1) → ∃ e, c1 = c ++ e)
    (hrecstab : ∀ mods s c t1 s1 c1, rec mods s c = .ok (t1, s1, c1) →
      ∀ d, keysOf c1 ⊆ keysOf d → ∃ t2, rec mods s d = .ok (t2, s1, d)) :
    ∀ mods s c t1 s1 c1, parse_type_go rec mods s c = .ok (t1, s1, c1) →
      ∀ d, keysOf c1 ⊆ keysOf d → ∃ t2, parse_type_go rec mods s d = .ok (t2, s1, d) := by
  intro mods s c t1 s1 c1 h d hsub
  cases s with
  | nil =>
    rw [parse_type_go.eq_def] at h
    dsimp only at h
    simp only [Except.ok.injEq, Prod.mk.injEq] at h
    obtain ⟨-, h3, -⟩ := h
    refine ⟨.prim mods (Char.ofNat 0), ?_⟩
    rw [← h3]
    try rfl
  | cons c0 rest =>
    by_cases hp : c0 = '^'
    · subst hp
      rw [parse_type_go.eq_def] at h
      dsimp only at h
      rw [if_pos rfl] at h
      rw [parse_type_go.eq_def]
      dsimp only
      rw [if_pos rfl]
      cases heq : rec 0 rest c with
      | error e =>
        try rw [heq] at h
        try dsimp only at h
        cases h
      | ok r =>
        obtain ⟨pt, s', c'⟩ := r
        try rw [heq] at h
        try dsimp only at h
        simp only [Except.ok.injEq, Prod.mk.injEq] at h
        obtain ⟨h1, h3, h4⟩ := h
        subst h4
        obtain ⟨pt2, hrec2⟩ := hrecstab 0 rest c pt s' _ heq d hsub
        rw [hrec2]
        dsimp only
        exact ⟨.ptr mods pt2, by rw [h3]⟩
    · by_cases hb : c0 = '{'
      · subst hb
        cases hsp : splitAtFirst (fun c => c = '=' ∨ c = '}') rest with
        | none =>
          rw [parse_type_go_brace_none rec mods rest c hsp] at h
          cases h
        | some pr =>
          obtain ⟨name, after0⟩ := pr
          rcases after0 with _ | ⟨hc, after⟩
          · rw [parse_type_go_brace_empty rec mods name rest c hsp] at h
            cases h
          · by_cases hhm : hc = '}'
            · subst hhm
              rw [parse_type_go_brace_ref rec mods name after rest c hsp] at h
              rw [parse_type_go_brace_ref rec mods name after rest d hsp]
              cases hlk : lookup_cached_type c 1 name mods with
              | some t0 =>
                try rw [hlk] at h
                try dsimp only at h
                simp only [Except.ok.injEq, Prod.mk.injEq] at h
                obtain ⟨-, h3, -⟩ := h
                cases hlk2 : lookup_cached_type d 1 name mods with
                | some t' =>
                  try rw [hlk2]
                  try dsimp only
                  exact ⟨t', by rw [← h3]⟩
                | none =>
                  try rw [hlk2]
                  try dsimp only
                  exact ⟨_, by rw [← h3]⟩
              | none =>
                try rw [hlk] at h
                try dsimp only at h
                simp only [Except.ok.injEq, Prod.mk.injEq] at h
                obtain ⟨-, h3, -⟩ := h
                cases hlk2 : lookup_cached_type d 1 name mods with
                | some t' =>
                  try rw [hlk2]
                  try dsimp only
                  exact ⟨t', by rw [← h3]⟩
                | none =>
                  try rw [hlk2]
                  try dsimp only
                  exact ⟨_, by rw [← h3]⟩
            · rw [parse_type_go_brace_def rec mods name hc after rest c hsp hhm] at h
              rw [parse_type_go_brace_def rec mods name hc after rest d hsp hhm]
              cases hloop : parse_struct_fields rec (after.length + 1) after c 0 [] with
              | error e =>
                try rw [hloop] at h
                try dsimp only at h
                cases h
              | ok r =>
                obtain ⟨fields, s', c'⟩ := r
                try rw [hloop] at h
                try dsimp only at h
                simp only [Except.ok.injEq, Prod.mk.injEq] at h
                obtain ⟨h1, h3, h4⟩ := h
                subst h4
                obtain ⟨e2, hc1⟩ := cache_type_definition_ext (.strct mods name fields) c'
                have hcsub : keysOf c' ⊆ keysOf d :=
                  fun k hk => hsub (keysOf_sub_of_ext c' _ e2 hc1 hk)
                obtain ⟨fields2, hloop2, hlen2⟩ :=
                  parse_struct_fields_stab rec hrecext hrecstab _ _ _ _ _ _ _ _ hloop
                    d hcsub 0 [] rfl
                rw [hloop2]
                dsimp only
                by_cases hfe : fields.isEmpty = true
                · have hfe2 : fields2.isEmpty = true := by
                    cases fields2 <;> cases fields <;> simp_all
                  rw [cache_empty_strct _ _ _ d hfe2]
                  exact ⟨_, by rw [h3]⟩
                · have hfe' : fields.isEmpty = false := by
                    cases hx : fields.isEmpty
                    · rfl
                    · exact absurd hx hfe
                  have hkey : (name, 1) ∈ keysOf d := by
                    apply hsub
                    exact key_mem_cache_strct mods name fields c' hfe'
                  rw [cache_skip_strct _ _ _ d hkey]
                  exact ⟨_, by rw [h3]⟩
      · by_cases hu : c0 = '('
        · subst hu
          cases hsp : splitAtFirst (fun c => c = '=' ∨ c = ')') rest with
          | none =>
            rw [parse_type_go_paren_none rec mods rest c hsp] at h
            cases h
          | some pr =>
            obtain ⟨name, after0⟩ := pr
            rcases after0 with _ | ⟨hc, after⟩
            · rw [parse_type_go_paren_empty rec mods name rest c hsp] at h
              cases h
            · by_cases hhm : hc = ')'
              · subst hhm
                rw [parse_type_go_paren_ref rec mods name after rest c hsp] at h
                rw [parse_type_go_paren_ref rec mods name after rest d hsp]
                cases hlk : lookup_cached_type c 4 name mods with
                | some t0 =>
                  try rw [hlk] at h
                  try dsimp only at h
                  simp only [Except.ok.injEq, Prod.mk.injEq] at h
                  obtain ⟨-, h3, -⟩ := h
                  cases hlk2 : lookup_cached_type d 4 name mods with
                  | some t' =>
                    try rw [hlk2]
                    try dsimp only
                    exact ⟨t', by rw [← h3]⟩
                  | none =>
                    try rw [hlk2]
                    try dsimp only
                    exact ⟨_, by rw [← h3]⟩
                | none =>
                  try rw [hlk] at h
                  try dsimp only at h
                  simp only [Except.ok.injEq, Prod.mk.injEq] at h
                  obtain ⟨-, h3, -⟩ := h
                  cases hlk2 : lookup_cached_type d 4 name mods with
                  | some t' =>
                    try rw [hlk2]
                    try dsimp only
                    exact ⟨t', by rw [← h3]⟩
                  | none =>
                    try rw [hlk2]
                    try dsimp only
                    exact ⟨_, by rw [← h3]⟩
              · rw [parse_type_go_paren_def rec mods name hc after rest c hsp hhm] at h
                rw [parse_type_go_paren_def rec mods name hc after rest d hsp hhm]
                cases hloop : parse_union_fields rec (after.length + 1) after c [] with
                | error e =>
                  try rw [hloop] at h
                  try dsimp only at h
                  cases h
                | ok r =>
                  obtain ⟨fields, s', c'⟩ := r
                  try rw [hloop] at h
                  try dsimp only at h
                  simp only [Except.ok.injEq, Prod.mk.injEq] at h
                  obtain ⟨h1, h3, h4⟩ := h
                  subst h4
                  obtain ⟨e2, hc1⟩ := cache_type_definition_ext (.uni mods name fields) c'
                  have hcsub : keysOf c' ⊆ keysOf d :=
                    fun k hk => hsub (keysOf_sub_of_ext c' _ e2 hc1 hk)
                  obtain ⟨fields2, hloop2, hlen2⟩ :=
                    parse_union_fields_stab rec hrecext hrecstab _ _ _ _ _ _ _ hloop
                      d hcsub [] rfl
                  rw [hloop2]
                  dsimp only
                  by_cases hfe : fields.isEmpty = true
                  · have hfe2 : fields2.isEmpty = true := by
                      cases fields2 <;> cases fields <;> simp_all
                    rw [cache_empty_uni _ _ _ d hfe2]
                    exact ⟨_, by rw [h3]⟩
                  · have hfe' : fields.isEmpty = false := by
                      cases hx : fields.isEmpty
                      · rfl
                      · exact absurd hx hfe
                    have hkey : (name, 4) ∈ keysOf d := by
                      apply hsub
                      exact key_mem_cache_uni mods name fields c' hfe'
                    rw [cache_skip_uni _ _ _ d hkey]
                    exact ⟨_, by rw [h3]⟩
        · by_cases har : c0 = '['
          · subst har
            rw [parse_type_go.eq_def] at h
            dsimp only at h
            rw [if_neg (by decide : ¬('[' : Char) = '^'),
              if_neg (by decide : ¬('[' : Char) = '{'),
              if_neg (by decide : ¬('[' : Char) = '(')] at h
            rw [if_pos rfl] at h
            rw [parse_type_go.eq_def]
            dsimp only
            rw [if_neg (by decide : ¬('[' : Char) = '^'),
              if_neg (by decide : ¬('[' : Char) = '{'),
              if_neg (by decide : ¬('[' : Char) = '(')]
            rw [if_pos rfl]
            cases hst : strtolParse rest with
            | none =>
              try rw [hst] at h
              try dsimp only at h
              cases h
            | some pr =>
              obtain ⟨v, s2⟩ := pr
              try rw [hst] at h
              try rw [hst]
              try dsimp only at h
              try dsimp only
              cases heq2 : rec 0 s2 c with
              | error e =>
                try rw [heq2] at h
                try dsimp only at h
                cases h
              | ok r =>
                obtain ⟨et, s3, c3⟩ := r
                try rw [heq2] at h
                try dsimp only at h
                rcases s3 with _ | ⟨dc, s4⟩
                · try dsimp only at h
                  cases h
                · by_cases hd : dc = ']'
                  · subst hd
                    simp only [Except.ok.injEq, Prod.mk.injEq] at h
                    obtain ⟨h1, h3, h4⟩ := h
                    subst h4
                    obtain ⟨et2, hrec2⟩ := hrecstab 0 s2 c et _ _ heq2 d hsub
                    rw [hrec2]
                    dsimp only
                    refine ⟨Ty.arr mods (castSizeT v) et2, ?_⟩
                    rw [← h3]
                    rfl
                  · split at h
                    all_goals
                      first
                        | (rename_i heq3
                           injection heq3 with hd1
                           exact absurd hd1 hd)
                        | cases h
          · rw [parse_type_go.eq_def] at h
            dsimp only at h
            rw [if_neg hp, if_neg hb, if_neg hu, if_neg har] at h
            rw [parse_type_go.eq_def]
            dsimp only
            rw [if_neg hp, if_neg hb, if_neg hu, if_neg har]
            by_cases hpr : isPrimCode c0 = true
            · rw [if_pos hpr] at h
              rw [if_pos hpr]
              simp only [Except.ok.injEq, Prod.mk.injEq] at h
              obtain ⟨-, h3, -⟩ := h
              exact ⟨_, by rw [h3]⟩
            · rw [if_neg hpr] at h
              rw [if_neg hpr]
              simp only [Except.ok.injEq, Prod.mk.injEq] at h
              obtain ⟨-, h3, -⟩ := h
              exact ⟨_, by rw [h3]⟩

theorem parse_type_stab : ∀ fl mods s c t1 s1 c1,
    parse_type fl mods s c = .ok (t1, s1, c1) →
    ∀ d, keysOf c1 ⊆ keysOf d → ∃ t2, parse_type fl mods s d = .ok (t2, s1, d) := by
  intro fl
  induction fl with
  | zero => intro mods s c t1 s1 c1 h; cases h
  | succ fl ih =>
    intro mods s c t1 s1 c1 h d hsub
    rw [parse_type] at h ⊢
    exact parse_type_go_stab (parse_type fl) (parse_type_ext fl) ih _ _ _ _ _ _ h d hsub

theorem chPlain_toNat (ch : Char) (h : chPlain ch = true) :
    (45 ≤ ch.toNat ∧ ch.toNat ≤ 57) ∨ (97 ≤ ch.toNat ∧ ch.toNat ≤ 122) := by
  simp [chPlain] at h
  rcases h with ⟨h1, h2, h3, h4⟩ | h
  · exact Or.inl ⟨h1, h2⟩
  · exact Or.inr h

theorem char_eq_iff_toNat (a b : Char) : a = b ↔ a.toNat = b.toNat := by
  rw [Char.ext_iff, UInt32.ext_iff]
  rfl

theorem chPlain_ne (ch b : Char) (h : chPlain ch = true)
    (hb : (45 ≤ b.toNat ∧ b.toNat ≤ 57) ∨ (97 ≤ b.toNat ∧ b.toNat ≤ 122) → False) :
    ch ≠ b := by
  intro he
  exact hb (he ▸ chPlain_toNat ch h)

theorem chPlain_not_delim (ch : Char) (h : chPlain ch = true) : isTokDelim ch = false := by
  have hb := chPlain_toNat ch h
  simp only [isTokDelim, decide_eq_false_iff_not]
  rintro (rfl | rfl | rfl | rfl | rfl | rfl | rfl | rfl) <;>
    simp [Char.toNat, UInt32.size] at hb

theorem chPlain_not_ws (ch : Char) (h : chPlain ch = true) :
    (ch = ' ' ∨ ch = '\t' ∨ ch = '\n' ∨ ch = '\r') = False := by
  have hb := chPlain_toNat ch h
  simp only [eq_iff_iff, iff_false]
  rintro (rfl | rfl | rfl | rfl) <;> simp [Char.toNat, UInt32.size] at hb

theorem skipWsTok_cons_plain (ch : Char) (r : Bytes) (h : chPlain ch = true) :
    skipWsTok (ch :: r) = ch :: r := by
  rw [skipWsTok, List.dropWhile_cons, if_neg]
  simp only [chPlain_not_ws ch h, decide_False, Bool.false_eq_true, not_false_eq_true]

theorem skipWsTok_quote (r : Bytes) : skipWsTok ('"' :: r) = '"' :: r := by
  rw [skipWsTok, List.dropWhile_cons, if_neg]
  decide

theorem skipWsTok_brace (r : Bytes) : skipWsTok ('{' :: r) = '{' :: r := by
  rw [skipWsTok, List.dropWhile_cons, if_neg]
  decide

theorem skipWsTok_rbrace (r : Bytes) : skipWsTok ('}' :: r) = '}' :: r := by
  rw [skipWsTok, List.dropWhile_cons, if_neg]
  decide

theorem skipWsTok_colon (r : Bytes) : skipWsTok (':' :: r) = ':' :: r := by
  rw [skipWsTok, List.dropWhile_cons, if_neg]
  decide

theorem skipWsTok_comma (r : Bytes) : skipWsTok (',' :: r) = ',' :: r := by
  rw [skipWsTok, List.dropWhile_cons, if_neg]
  decide

theorem skipWsTok_space (r : Bytes) : skipWsTok (' ' :: r) = skipWsTok r := by
  rw [skipWsTok, List.dropWhile_cons, if_pos (by decide)]
  rfl

theorem takeWhile_all_append (p : Char → Bool) (l r : Bytes) (h : ∀ c ∈ l, p c = true) :
    (l ++ r).takeWhile p = l ++ r.takeWhile p := by
  induction l with
  | nil => rfl
  | cons c t ih =>
    rw [List.cons_append, List.takeWhile_cons, if_pos (h c (by simp)),
      ih (fun x hx => h x (by simp [hx]))]
    rfl

theorem dropWhile_all_append (p : Char → Bool) (l r : Bytes) (h : ∀ c ∈ l, p c = true) :
    (l ++ r).dropWhile p = r.dropWhile p := by
  induction l with
  | nil => rfl
  | cons c t ih =>
    rw [List.cons_append, List.dropWhile_cons, if_pos (h c (by simp))]
    exact ih (fun x hx => h x (by simp [hx]))

theorem jsmn_value_plain (fl : Nat) (v : Bytes) (d : Char) (rest : Bytes)
    (hne : v ≠ [])
    (hplain : ∀ c ∈ v, chPlain c = true)
    (hd : isTokDelim d = true) :
    jsmn_value (fl + 1) (v ++ d :: rest) = some (.prim v, d :: rest) := by
  cases v with
  | nil => exact absurd rfl hne
  | cons c0 r =>
    have hc0 := hplain c0 (by simp)
    rw [jsmn_value]
    rw [List.cons_append, skipWsTok_cons_plain c0 _ hc0]
    dsimp only
    rw [if_neg (chPlain_ne c0 '{' hc0 (by intro hb; rcases hb with ⟨h1, h2⟩ | ⟨h1, h2⟩ <;>
      simp [Char.toNat, UInt32.size] at h1 h2 <;> omega)),
      if_neg (chPlain_ne c0 '[' hc0 (by intro hb; rcases hb with ⟨h1, h2⟩ | ⟨h1, h2⟩ <;>
      simp [Char.toNat, UInt32.size] at h1 h2 <;> omega)),
      if_neg (chPlain_ne c0 '"' hc0 (by intro hb; rcases hb with ⟨h1, h2⟩ | ⟨h1, h2⟩ <;>
      simp [Char.toNat, UInt32.size] at h1 h2 <;> omega)),
      if_neg (by rw [chPlain_not_delim c0 hc0]; exact fun hf => by cases hf)]
    have hall : ∀ c ∈ c0 :: r, (fun x => ¬ isTokDelim x = true : Char → Bool) c = true := by
      intro c hc
      simp [chPlain_not_delim c (hplain c hc)]
    rw [show c0 :: (r ++ d :: rest) = (c0 :: r) ++ (d :: rest) from rfl]
    rw [takeWhile_all_append _ _ _ hall, dropWhile_all_append _ _ _ hall]
    simp [List.takeWhile_cons, List.dropWhile_cons, hd]

theorem scanJString_cons_plain (c : Char) (t : Bytes)
    (h1 : (c = '"') = False) (h2 : (c = '\\') = False) :
    scanJString (c :: t) = (scanJString t).map (fun q => (c :: q.1, q.2)) := by
  cases t with
  | nil =>
    rw [scanJString.eq_def]
    dsimp only
    rw [if_neg (by simp [h1]), if_neg (by simp [h2])]
  | cons y ys =>
    rw [scanJString.eq_def]
    dsimp only
    rw [if_neg (by simp [h1]), if_neg (by simp [h2])]

theorem scanJString_append (k rest : Bytes)
    (h : ∀ c ∈ k, (c = '"') = False ∧ (c = '\\') = False) :
    scanJString (k ++ '"' :: rest) = some (k, rest) := by
  induction k with
  | nil =>
    rw [List.nil_append]
    exact match rest with
    | [] => rfl
    | x :: xs => rfl
  | cons c r ih =>
    rw [List.cons_append,
      scanJString_cons_plain c _ (h c (by simp)).1 (h c (by simp)).2,
      ih (fun x hx => h x (by simp [hx]))]
    rfl

theorem jsmn_value_space (fl : Nat) (t : Bytes) :
    jsmn_value (fl + 1) (' ' :: t) = jsmn_value (fl + 1) t := by
  rw [jsmn_value, jsmn_value, skipWsTok_space]

theorem skipWsTok_segs_cons (y : Bytes × Bytes) (ys : List (Bytes × Bytes)) (r : Bytes) :
    skipWsTok (jsegs (y :: ys) ++ r) = jsegs (y :: ys) ++ r :=
  skipWsTok_quote (((y.1 ++ '"' :: ':' :: ' ' :: y.2) ++ jsegsRest ys) ++ r)

theorem jsmn_members_segs (L : List (Bytes × Bytes)) : ∀ fl acc tail,
    L.length + 1 ≤ fl →
    (∀ p ∈ L, goodPair p) →
    jsmn_members fl (jsegs L ++ '}' :: tail) acc =
      some (.objT (acc ++ L.map (fun p => (p.1, JTok.prim p.2))), tail) := by
  induction L with
  | nil =>
    intro fl acc tail hfl _
    obtain ⟨fg, rfl⟩ : ∃ fg, fl = fg + 1 := ⟨fl - 1, by omega⟩
    rw [jsmn_members.eq_def]
    simp [jsegs]
  | cons x xs ih =>
    intro fl acc tail hfl hgood
    obtain ⟨hk, hvne, hvpl⟩ := hgood x (by simp)
    obtain ⟨fg, rfl⟩ : ∃ fg, fl = fg + 1 + 1 := ⟨fl - 2, by simp at hfl; omega⟩
    have hkq : ∀ c ∈ x.1, (c = '"') = False ∧ (c = '\\') = False := by
      intro c hc
      exact ⟨eq_false (hk c hc).1, eq_false (hk c hc).2⟩
    rw [show jsegs (x :: xs) ++ '}' :: tail =
        '"' :: (x.1 ++ '"' :: (':' :: (' ' :: (x.2 ++ (jsegsRest xs ++ '}' :: tail)))))
      by simp [jsegs, jseg]]
    rw [jsmn_members.eq_def]
    dsimp only
    rw [if_neg (by decide), if_pos rfl, scanJString_append x.1 _ hkq]
    dsimp only
    rw [skipWsTok_colon]
    dsimp only
    rw [if_pos rfl, jsmn_value_space]
    cases xs with
    | nil =>
      rw [show x.2 ++ (jsegsRest [] ++ '}' :: tail) = x.2 ++ '}' :: tail from rfl]
      rw [jsmn_value_plain fg x.2 '}' tail hvne hvpl (by decide)]
      dsimp only
      rw [skipWsTok_rbrace]
      dsimp only
      rw [if_neg (by decide), if_pos rfl]
      simp
    | cons y ys =>
      rw [show x.2 ++ (jsegsRest (y :: ys) ++ '}' :: tail) =
          x.2 ++ ',' :: (' ' :: ((jseg y.1 y.2 ++ jsegsRest ys) ++ '}' :: tail))
        by simp [jsegsRest]]
      rw [jsmn_value_plain fg x.2 ',' _ hvne hvpl (by decide)]
      dsimp only
      rw [skipWsTok_comma]
      dsimp only
      rw [if_pos rfl, skipWsTok_space,
        show (jseg y.1 y.2 ++ jsegsRest ys) ++ '}' :: tail =
          jsegs (y :: ys) ++ '}' :: tail from rfl,
        skipWsTok_segs_cons,
        ih (fg + 1) _ tail (by simp at hfl ⊢; omega)
          (fun p hp => hgood p (by simp [hp]))]
      simp

theorem jsmn_value_obj (fl : Nat) (L : List (Bytes × Bytes)) (tail : Bytes)
    (hfl : L.length + 1 ≤ fl) (hgood : ∀ p ∈ L, goodPair p) :
    jsmn_value (fl + 1) ('{' :: (jsegs L ++ '}' :: tail)) =
      some (.objT (L.map (fun p => (p.1, JTok.prim p.2))), tail) := by
  rw [jsmn_value, skipWsTok_brace]
  dsimp only
  rw [if_pos rfl]
  cases L with
  | nil =>
    rw [show jsegs ([] : List (Bytes × Bytes)) ++ '}' :: tail = '}' :: tail from rfl,
      skipWsTok_rbrace]
    have := jsmn_members_segs [] fl [] tail hfl hgood
    simpa [jsegs] using this
  | cons y ys =>
    rw [skipWsTok_segs_cons]
    have := jsmn_members_segs (y :: ys) fl [] tail hfl hgood
    simpa using this

theorem wrapSigned_id (w : Nat) (v : Int) (hw : w ≠ 0)
    (h1 : -(2 ^ (w - 1) : Int) ≤ v) (h2 : v < 2 ^ (w - 1)) :
    wrapSigned w v = v := by
  have hww : (2 : Int) ^ w = 2 ^ (w - 1) * 2 := by
    rw [← pow_succ]
    congr 1
    omega
  unfold wrapSigned
  have h2w : ((2 ^ w : Nat) : Int) = 2 ^ (w - 1) * 2 := by push_cast; rw [hww]
  rw [h2w, Int.emod_eq_of_lt (by omega) (by omega)]
  omega

theorem chPlain_of_digit (ch : Char) (h : ch.isDigit = true) : chPlain ch = true := by
  have hb := digit_toNat ch h
  simp [chPlain]
  omega

theorem intDec_all_chPlain (v : Int) : ∀ ch ∈ intDec v, chPlain ch = true := by
  intro ch hch
  unfold intDec at hch
  by_cases hv : v < 0
  · rw [if_pos hv] at hch
    rcases List.mem_cons.mp hch with rfl | hch
    · decide
    · exact chPlain_of_digit ch (natDec_all_digit _ ch hch)
  · rw [if_neg hv] at hch
    exact chPlain_of_digit ch (natDec_all_digit _ ch hch)

theorem c1_prim_enc_dec (m : Nat) (c : Char) (sv : SVal) (h : primRound c sv) :
    ∃ txt, value_to_json 1 (.prim m c) sv = some txt ∧ txt ≠ [] ∧
      (∀ ch ∈ txt, chPlain ch = true) ∧
      json_parse_primitive (.prim m c) (.prim txt) = some sv := by
  rcases h with ⟨v, rfl, hc⟩ | ⟨b, rfl, rfl⟩
  · have hne : intDec v ≠ [] := by
      obtain ⟨ch, r, hl, _⟩ := intDec_head v
      rw [hl]
      simp
    rcases hc with ⟨rfl, h1, h2⟩ | ⟨rfl, h1, h2⟩ | ⟨rfl, h1, h2⟩ | ⟨hlq, h1, h2⟩
    · refine ⟨intDec v, ?_, hne, intDec_all_chPlain v, ?_⟩
      · rw [show value_to_json 1 (.prim m 'c') (.int v) = some (intDec (wrapSigned 8 v)) from rfl,
          wrapSigned_id 8 v (by decide) (by omega) (by omega)]
      · rw [show json_parse_primitive (.prim m 'c') (.prim (intDec v)) =
            (json_parse_signed_token (.prim (intDec v))).bind
              (fun w => if -128 ≤ w ∧ w ≤ 127 then some (.int w) else none) from rfl,
          json_parse_signed_intDec v (by omega) (by omega)]
        show (if -128 ≤ v ∧ v ≤ 127 then some (SVal.int v) else none) = some (SVal.int v)
        rw [if_pos ⟨by omega, by omega⟩]
    · refine ⟨intDec v, ?_, hne, intDec_all_chPlain v, ?_⟩
      · rw [show value_to_json 1 (.prim m 's') (.int v) = some (intDec (wrapSigned 16 v)) from rfl,
          wrapSigned_id 16 v (by decide) (by omega) (by omega)]
      · rw [show json_parse_primitive (.prim m 's') (.prim (intDec v)) =
            (json_parse_signed_token (.prim (intDec v))).bind
              (fun w => if -32768 ≤ w ∧ w ≤ 32767 then some (.int w) else none) from rfl,
          json_parse_signed_intDec v (by omega) (by omega)]
        show (if -32768 ≤ v ∧ v ≤ 32767 then some (SVal.int v) else none) = some (SVal.int v)
        rw [if_pos ⟨by omega, by omega⟩]
    · refine ⟨intDec v, ?_, hne, intDec_all_chPlain v, ?_⟩
      · rw [show value_to_json 1 (.prim m 'i') (.int v) = some (intDec (wrapSigned 32 v)) from rfl,
          wrapSigned_id 32 v (by decide) (by omega) (by omega)]
      · rw [show json_parse_primitive (.prim m 'i') (.prim (intDec v)) =
            (json_parse_signed_token (.prim (intDec v))).bind
              (fun w => if -(2 ^ 31 : Int) ≤ w ∧ w ≤ 2 ^ 31 - 1 then some (.int w) else none)
            from rfl,
          json_parse_signed_intDec v (by omega) (by omega)]
        show (if -(2 ^ 31 : Int) ≤ v ∧ v ≤ 2 ^ 31 - 1 then some (SVal.int v) else none) =
          some (SVal.int v)
        rw [if_pos ⟨by omega, by omega⟩]
    · rcases hlq with rfl | rfl
      · refine ⟨intDec v, ?_, hne, intDec_all_chPlain v, ?_⟩
        · rw [show value_to_json 1 (.prim m 'l') (.int v) = some (intDec (wrapSigned 64 v))
              from rfl,
            wrapSigned_id 64 v (by decide) (by omega) (by omega)]
        · rw [show json_parse_primitive (.prim m 'l') (.prim (intDec v)) =
              (json_parse_signed_token (.prim (intDec v))).bind (fun w => some (.int w))
              from rfl,
            json_parse_signed_intDec v (by omega) (by omega)]
          rfl
      · refine ⟨intDec v, ?_, hne, intDec_all_chPlain v, ?_⟩
        · rw [show value_to_json 1 (.prim m 'q') (.int v) = some (intDec (wrapSigned 64 v))
              from rfl,
            wrapSigned_id 64 v (by decide) (by omega) (by omega)]
        · rw [show json_parse_primitive (.prim m 'q') (.prim (intDec v)) =
              (json_parse_signed_token (.prim (intDec v))).bind (fun w => some (.int w))
              from rfl,
            json_parse_signed_intDec v (by omega) (by omega)]
          rfl
  · cases b with
    | false =>
      exact ⟨"false".data, rfl, by decide, by decide, rfl⟩
    | true =>
      exact ⟨"true".data, rfl, by decide, by decide, rfl⟩

theorem fieldTxt_spec (m : Nat) (c : Char) (sv : SVal) (h : primRound c sv) :
    value_to_json 1 (.prim m c) sv = some (fieldTxt m c sv) ∧
    fieldTxt m c sv ≠ [] ∧ (∀ ch ∈ fieldTxt m c sv, chPlain ch = true) ∧
    json_parse_primitive (.prim m c) (.prim (fieldTxt m c sv)) = some sv := by
  obtain ⟨txt, he, h1, h2, h3⟩ := c1_prim_enc_dec m c sv h
  have ht : fieldTxt m c sv = txt := by rw [fieldTxt, he]; rfl
  rw [ht]
  exact ⟨he, h1, h2, h3⟩

theorem value_to_json_one_simple (enc : Enc) (allF : List Field) (allS : List SVal)
    (x : PEntry) (sv : SVal) :
    value_to_json_one enc allF allS (fieldOf x) sv = enc (.prim x.2.1 x.2.2.1) sv := rfl

theorem jsegsRest_eq (ps : List (Bytes × Bytes)) :
    jsegsRest ps = if ps = [] then [] else ", ".data ++ jsegs ps := by
  cases ps with
  | nil => rfl
  | cons p pr => simp [jsegsRest, jsegs]

theorem value_to_json_fields_simple (allF : List Field) (allS : List SVal) :
    ∀ (L : List PEntry) (first : Bool),
    (∀ x ∈ L, primRound x.2.2.1 (svOf x)) →
    value_to_json_fields (value_to_json 1) allF allS (L.map fieldOf) (L.map svOf) first =
      some (if first then jsegs (L.map pairOf) else jsegsRest (L.map pairOf)) := by
  intro L
  induction L with
  | nil =>
    intro first _
    cases first <;> simp [value_to_json_fields, jsegs, jsegsRest]
  | cons x xs ih =>
    intro first hval
    obtain ⟨henc, -, -, -⟩ :=
      fieldTxt_spec x.2.1 x.2.2.1 (svOf x) (hval x (by simp))
    rw [List.map_cons, List.map_cons, value_to_json_fields]
    rw [show field_has_modifier (fieldOf x) "no_serialise" = false from rfl]
    simp only [Bool.false_eq_true, if_false]
    rw [show (fieldOf x).name = some x.1 from rfl]
    dsimp only
    rw [show json_field_json_key (fieldOf x) = some x.1 from rfl]
    dsimp only
    rw [value_to_json_one_simple, henc]
    dsimp only
    rw [ih false (fun y hy => hval y (by simp [hy]))]
    dsimp only
    rw [jsegsRest_eq]
    cases first with
    | true =>
      cases xs with
      | nil => simp [jsegs, jseg, jsegsRest, pairOf, fieldTxt]
      | cons y ys => simp [jsegs, jseg, jsegsRest, pairOf, fieldTxt]
    | false =>
      cases xs with
      | nil => simp [jsegs, jseg, jsegsRest, pairOf, fieldTxt]
      | cons y ys => simp [jsegs, jseg, jsegsRest, pairOf, fieldTxt]

theorem wlist_length (L : List PEntry) : ∀ k, (wlist k L).length = L.length := by
  induction L with
  | nil => intro k; rfl
  | cons x xs ih => intro k; simp [wlist, ih (k + 1)]

theorem wlist_map_pair (L : List PEntry) : ∀ k,
    (wlist k L).map (fun w => (w.2.1, w.2.2.1)) =
      (L.map pairOf).map (fun p => (p.1, JTok.prim p.2)) := by
  induction L with
  | nil => intro k; rfl
  | cons x xs ih => intro k; simp [wlist, pairOf, ih (k + 1)]

theorem wlist_map_val (L : List PEntry) : ∀ k,
    (wlist k L).map (fun w => w.2.2.2) = L.map svOf := by
  induction L with
  | nil => intro k; rfl
  | cons x xs ih => intro k; simp [wlist, ih (k + 1)]

theorem wlist_mem (L : List PEntry) : ∀ k w, w ∈ wlist k L →
    ∃ j x, L.get? j = some x ∧
      w = (k + j, x.1, JTok.prim (fieldTxt x.2.1 x.2.2.1 (svOf x)), svOf x) := by
  induction L with
  | nil => intro k w h; simp [wlist] at h
  | cons x xs ih =>
    intro k w h
    rcases List.mem_cons.mp h with rfl | h
    · exact ⟨0, x, rfl, rfl⟩
    · obtain ⟨j, y, hg, hw⟩ := ih (k + 1) w h
      exact ⟨j + 1, y, hg, by rw [hw]; congr 1; omega⟩

theorem wlist_idx_ge (L : List PEntry) : ∀ k w, w ∈ wlist k L → k ≤ w.1 := by
  induction L with
  | nil => intro k w h; simp [wlist] at h
  | cons x xs ih =>
    intro k w h
    rcases List.mem_cons.mp h with rfl | h
    · exact Nat.le_refl k
    · exact Nat.le_trans (by omega) (ih (k + 1) w h)

theorem wlist_pairwise (L : List PEntry) : ∀ k,
    (wlist k L).Pairwise (fun a b => a.1 ≠ b.1) := by
  induction L with
  | nil => intro k; exact List.Pairwise.nil
  | cons x xs ih =>
    intro k
    refine List.pairwise_cons.mpr ⟨?_, ih (k + 1)⟩
    intro w hw
    have := wlist_idx_ge xs (k + 1) w hw
    omega

theorem getD_set_ne {α : Type} (l : List α) (i j : Nat) (a d : α) (h : i ≠ j) :
    (l.set i a).getD j d = l.getD j d := by
  simp [List.getD_eq_getElem?_getD, List.getElem?_set_ne h]

theorem getD_replicate_false (n i : Nat) :
    (List.replicate n false).getD i false = false := by
  simp [List.getD_eq_getElem?_getD, List.getElem?_replicate]
  split <;> rfl

theorem find_by_key_simple (L : List PEntry) (hd : L.Pairwise (fun a b => a.1 ≠ b.1)) :
    ∀ k x, L.get? k = some x →
      json_find_field_by_key (L.map fieldOf) x.1 = some k := by
  induction L with
  | nil => intro k x h; simp at h
  | cons y ys ih =>
    intro k x h
    cases k with
    | zero =>
      rw [List.get?_cons_zero, Option.some_inj] at h
      subst h
      simp [json_find_field_by_key, List.findIdx?_cons,
        show json_field_json_key (fieldOf y) = some y.1 from rfl]
    | succ k =>
      rw [List.get?_cons_succ] at h
      have hne : y.1 ≠ x.1 :=
        (List.pairwise_cons.mp hd).1 x (List.get?_mem h)
      have := ih (List.pairwise_cons.mp hd).2 k x h
      simp [json_find_field_by_key, List.findIdx?_cons,
        show json_field_json_key (fieldOf y) = some y.1 from rfl, hne] at this ⊢
      exact this

theorem json_parse_struct_loop_simple (rec : Dec) (fields : List Field) :
    ∀ (W : List (Nat × Bytes × JTok × SVal)) (svs : List SVal) (seen lfa : List Bool)
      (pend : List (Option JTok)),
    (∀ w ∈ W, json_find_field_by_key fields w.2.1 = some w.1 ∧
      ∃ f, fields.get? w.1 = some f ∧
        field_has_modifier f "no_deserialise" = false ∧
        json_field_length_name f = none ∧
        (∃ m c, f.type = .prim m c) ∧
        (∀ cur, rec f.type w.2.2.1 cur = some w.2.2.2)) →
    (∀ w ∈ W, seen.getD w.1 false = false) →
    W.Pairwise (fun a b => a.1 ≠ b.1) →
    json_parse_struct_loop rec fields (W.map (fun w => (w.2.1, w.2.2.1))) svs seen lfa pend =
      some (W.foldl (fun s w => s.set w.1 w.2.2.2) svs,
            W.foldl (fun s w => s.set w.1 true) seen, lfa, pend) := by
  intro W
  induction W with
  | nil =>
    intro svs seen lfa pend _ _ _
    rfl
  | cons w W ih =>
    intro svs seen lfa pend hW hseen hpw
    obtain ⟨hfind, f, hget, hnd, hlen, ⟨m, c, hty⟩, hrec⟩ := hW w (by simp)
    rw [List.map_cons, json_parse_struct_loop, hfind]
    dsimp only
    rw [hget]
    dsimp only
    rw [hnd]
    simp only [Bool.false_eq_true, if_false]
    rw [hseen w (by simp)]
    simp only [Bool.false_eq_true, if_false]
    rw [hlen]
    simp only [Option.isSome_none, Bool.false_eq_true, false_and, if_false]
    rw [hty]
    rw [hty] at hrec
    dsimp only
    rw [hrec (svs.getD w.1 .undef)]
    dsimp only
    rw [ih (svs.set w.1 w.2.2.2) (seen.set w.1 true) lfa pend
      (fun v hv => hW v (by simp [hv]))
      (fun v hv => by
        have hne : w.1 ≠ v.1 := (List.pairwise_cons.mp hpw).1 v hv
        rw [getD_set_ne seen w.1 v.1 true false hne]
        exact hseen v (by simp [hv]))
      (List.pairwise_cons.mp hpw).2]
    rfl

theorem json_parse_struct_resolve_nones (rec : Dec) (fields : List Field) :
    ∀ (n k : Nat) (svs : List SVal) (seen : List Bool),
    json_parse_struct_resolve rec fields k (List.replicate n none) svs seen =
      some (svs, seen) := by
  intro n
  induction n with
  | zero => intro k svs seen; rfl
  | succ n ih =>
    intro k svs seen
    rw [List.replicate_succ, json_parse_struct_resolve]
    exact ih (k + 1) svs seen

theorem json_required_ok_replicate (fields : List Field) :
    json_required_ok fields (List.replicate fields.length true) = true := by
  simp only [json_required_ok, List.all_eq_true, List.mem_range]
  intro i hi
  cases hf : fields.get? i with
  | none => rfl
  | some f =>
    dsimp only
    have hgd : (List.replicate fields.length true)[i]?.getD false = true := by
      simp [List.getElem?_replicate, hi]
    simp [hgd]

theorem take_succ_set {α : Type} (cur : List α) : ∀ (k : Nat) (v : α), k < cur.length →
    (cur.set k v).take (k + 1) = cur.take k ++ [v] := by
  induction cur with
  | nil => intro k v h; simp at h
  | cons a t ih =>
    intro k v h
    cases k with
    | zero => simp
    | succ k =>
      simp only [List.set_cons_succ, List.take_succ_cons, List.cons_append]
      rw [ih k v (by simpa using h)]

theorem foldl_set_wlist {α : Type} (g : Nat × Bytes × JTok × SVal → α) (L : List PEntry) :
    ∀ (k : Nat) (cur : List α), cur.length = k + L.length →
    (wlist k L).foldl (fun s w => s.set w.1 (g w)) cur =
      cur.take k ++ (wlist k L).map g := by
  induction L with
  | nil =>
    intro k cur hlen
    simp only [List.length_nil, Nat.add_zero] at hlen
    simp [wlist, List.take_of_length_le (le_of_eq hlen)]
  | cons x xs ih =>
    intro k cur hlen
    have hcl : cur.length = k + xs.length + 1 := by simpa using hlen
    rw [wlist]
    dsimp only [List.foldl_cons, List.map_cons]
    rw [ih (k + 1) (cur.set k (g (k, x.1, JTok.prim (fieldTxt x.2.1 x.2.2.1 (svOf x)), svOf x)))
      (by rw [List.length_set]; omega)]
    rw [take_succ_set cur k _ (by omega)]
    simp

theorem wlist_map_const_true (L : List PEntry) : ∀ k,
    (wlist k L).map (fun _ => (true : Bool)) = List.replicate L.length true := by
  induction L with
  | nil => intro k; rfl
  | cons x xs ih =>
    intro k
    simp only [wlist, List.map_cons, List.length_cons, List.replicate_succ, ih (k + 1)]

/-! ## Claims -/

/-- C8: for every Value whose type is a record or union and every field name,
get_value returns a child Value whose data address is the parent address plus
the first name-matching field's offset and whose type is that field's type;
when no named field matches (an unnamed field never matches, since the
matching predicate requires a present name equal to the key), it returns the
absent Value with null (zero) data. The model's get_value is a pure function
of the type tree and the address: it reads and writes no memory. -/
theorem claim8_theorem (v : Value) (key : List Char) (m : Nat) (nm : List Char)
    (fs : List Field) (h : v.type = .strct m nm fs ∨ v.type = .uni m nm fs) :
    get_value v key =
      match fs.find? (fun f => decide (f.name = some key)) with
      | some f => ⟨f.type, v.data + f.offset⟩
      | none => ⟨.prim 0 (Char.ofNat 0), 0⟩ := by
  obtain ⟨ty, d⟩ := v
  rcases h with h | h <;> simp only at h <;> subst h <;>
    simpa [get_value] using get_value_scan_eq d key fs

/-- C8 witness: a record with an unnamed leading field and a named field x at
offset 4, read at address 100. -/
theorem claim8_witness :
    get_value ⟨.strct 0 ['P'] [.mk (.prim 0 'f') none none [] 0,
      .mk (.prim 0 'i') (some ['x']) none [] 4], 100⟩ ['x'] = ⟨.prim 0 'i', 104⟩ := by
  rw [claim8_theorem _ ['x'] 0 ['P'] _ (Or.inl rfl)]
  rfl

/-- C7 counterexample: the claim demands a failure report on every malformed
input, distinct from the resource failure code. At the concrete input x the
parser hits no switch case, falls through, and reports success with the
cursor unmoved and a zero-initialised primitive node; and the malformed
inputs open-bracket x (non-numeric array length) and open-brace A (missing
closing marker) report code 1, the code the allocation failure paths use. -/
theorem claim7_counterexample :
    parse_type 9 0 ['x'] [] = .ok (.prim 0 (Char.ofNat 0), ['x'], []) ∧
    parse_type 9 0 ['[', 'x'] [] = .error 1 ∧
    parse_type 9 0 ['{', 'A'] [] = .error 1 :=
  ⟨rfl, rfl, rfl⟩

/-- C7 (amended): how parse_type really reports malformed input. An
unexpected character where a type encoding is expected is silently accepted
at the start of an encoding (result 0, cursor unmoved, zero-initialised
primitive node); a non-numeric array length and a missing record closing
marker report code 1, the same code the allocation-failure paths return, so
these syntax failures are not distinct from the resource failure; only an
unexpected character at a record field position reports the distinct code
2. -/
theorem claim7_theorem :
    (∀ (fuel mods0 : Nat) (c : Char) (rest : List Char) (cache : Cache),
      isPrimCode c = false → c ≠ 'r' → c ≠ '^' → c ≠ '{' → c ≠ '(' → c ≠ '[' →
      parse_type (fuel + 1) mods0 (c :: rest) cache =
        .ok (.prim mods0 (Char.ofNat 0), c :: rest, cache)) ∧
    (∀ (fuel mods0 : Nat) (c : Char) (rest : List Char) (cache : Cache),
      isSpaceC c = false → c ≠ '-' → c ≠ '+' → c.isDigit = false →
      parse_type (fuel + 1) mods0 ('[' :: c :: rest) cache = .error 1) ∧
    (∀ (fuel mods0 : Nat) (name : List Char) (cache : Cache),
      (∀ ch ∈ name, ch ≠ '=' ∧ ch ≠ '}') →
      parse_type (fuel + 1) mods0 ('{' :: name) cache = .error 1) ∧
    (∀ (fuel mods0 : Nat) (name : List Char) (c : Char) (rest : List Char) (cache : Cache),
      (∀ ch ∈ name, ch ≠ '=' ∧ ch ≠ '}') →
      isPrimCode c = false → c ≠ 'r' → c ≠ '^' → c ≠ '{' → c ≠ '(' → c ≠ '[' → c ≠ '}' →
      parse_type (fuel + 2) mods0 ('{' :: name ++ '=' :: c :: rest) cache = .error 2) :=
  ⟨parse_type_stray, parse_type_badlen, parse_type_noclose, parse_type_badfield⟩

/-- C7 witness: the four amended behaviours at concrete inputs. -/
theorem claim7_witness :
    parse_type 4 7 ['x'] [] = .ok (.prim 7 (Char.ofNat 0), ['x'], []) ∧
    parse_type 4 0 ['[', 'x'] [] = .error 1 ∧
    parse_type 4 0 ['{', 'A', 'B'] [] = .error 1 ∧
    parse_type 4 0 ('{' :: ['N'] ++ '=' :: 'x' :: []) [] = .error 2 :=
  ⟨claim7_theorem.1 3 7 'x' [] [] (by decide) (by decide) (by decide) (by decide) (by decide)
      (by decide),
   claim7_theorem.2.1 3 0 'x' [] [] (by decide) (by decide) (by decide) (by decide),
   claim7_theorem.2.2.1 3 0 ['A', 'B'] [] (by decide),
   claim7_theorem.2.2.2 2 0 ['N'] 'x' [] [] (by decide) (by decide) (by decide) (by decide)
      (by decide) (by decide) (by decide) (by decide)⟩

/-- C5: a bare field-less reference to a record or union name resolves from
the type cache: when the first cache entry under that name exists with the
matching kind (as it does after that name has been parsed with a complete
field list, which registers it), the parse succeeds and returns that entry
itself with only the root modifier bits folded in, so its field list is
structurally identical to the first full definition; when the name is not in
the cache at all, the parse still succeeds and leaves an empty-field
placeholder type. -/
theorem claim5_theorem (fuel mods0 : Nat) (name after : List Char) (cache : Cache) :
    ((∀ ch ∈ name, ch ≠ '=' ∧ ch ≠ '}') →
      (∀ p, cache.find? (fun e => decide (e.1 = name)) = some p → tyTag p.2 = 1 →
        parse_type (fuel + 1) mods0 ('{' :: name ++ '}' :: after) cache =
          .ok (p.2.withMods (p.2.mods ||| mods0), after, cache)) ∧
      (cache.find? (fun e => decide (e.1 = name)) = none →
        parse_type (fuel + 1) mods0 ('{' :: name ++ '}' :: after) cache =
          .ok (.strct mods0 name [], after, cache))) ∧
    ((∀ ch ∈ name, ch ≠ '=' ∧ ch ≠ ')') →
      (∀ p, cache.find? (fun e => decide (e.1 = name)) = some p → tyTag p.2 = 4 →
        parse_type (fuel + 1) mods0 ('(' :: name ++ ')' :: after) cache =
          .ok (p.2.withMods (p.2.mods ||| mods0), after, cache)) ∧
      (cache.find? (fun e => decide (e.1 = name)) = none →
        parse_type (fuel + 1) mods0 ('(' :: name ++ ')' :: after) cache =
          .ok (.uni mods0 name [], after, cache))) := by
  constructor
  · intro h
    constructor
    · intro p hfind hkind
      rw [parse_type_bareref_struct fuel mods0 name after cache h,
        lookup_cached_type_eq 1 name mods0 cache, hfind]
      simp [hkind]
    · intro hfind
      rw [parse_type_bareref_struct fuel mods0 name after cache h,
        lookup_cached_type_eq 1 name mods0 cache, hfind]
  · intro h
    constructor
    · intro p hfind hkind
      rw [parse_type_bareref_union fuel mods0 name after cache h,
        lookup_cached_type_eq 4 name mods0 cache, hfind]
      simp [hkind]
    · intro hfind
      rw [parse_type_bareref_union fuel mods0 name after cache h,
        lookup_cached_type_eq 4 name mods0 cache, hfind]

/-- C5 witness: a bare reference to A resolves to the cached full definition
of A (the field list is the cached one), and the same reference against the
empty cache leaves an empty-field placeholder. -/
theorem claim5_witness :
    parse_type 3 0 ('{' :: ['A'] ++ '}' :: [])
      [(['A'], .strct 0 ['A'] [.mk (.prim 0 'i') (some ['x']) none [] 0])] =
      .ok (.strct 0 ['A'] [.mk (.prim 0 'i') (some ['x']) none [] 0], [],
        [(['A'], .strct 0 ['A'] [.mk (.prim 0 'i') (some ['x']) none [] 0])]) ∧
    parse_type 3 0 ('{' :: ['A'] ++ '}' :: []) [] = .ok (.strct 0 ['A'] [], [], []) := by
  constructor
  · exact ((claim5_theorem 2 0 ['A'] []
      [(['A'], .strct 0 ['A'] [.mk (.prim 0 'i') (some ['x']) none [] 0])]).1
      (by decide)).1 _ rfl rfl
  · exact ((claim5_theorem 2 0 ['A'] [] []).1 (by decide)).2 rfl

/-- C10: cache lookup and insertion are kind-sensitive. A bare record
reference resolves only from a first name-matching entry of record kind: if
the first entry under the name has a different kind, the reference is
treated as a miss and stays an empty-field placeholder. Conversely a fully
defined record is inserted into the cache whenever no entry of the same
name and same kind exists (so an entry of the same name but different kind
does not block insertion), while a same-name same-kind re-definition leaves
the cache unchanged. -/
theorem claim10_theorem (fuel mods0 : Nat) (name after : List Char) (cache : Cache)
    (h : ∀ ch ∈ name, ch ≠ '=' ∧ ch ≠ '}') :
    (∀ p, cache.find? (fun e => decide (e.1 = name)) = some p → tyTag p.2 ≠ 1 →
      parse_type (fuel + 1) mods0 ('{' :: name ++ '}' :: after) cache =
        .ok (.strct mods0 name [], after, cache)) ∧
    ((∀ e ∈ cache, ¬(e.1 = name ∧ tyTag e.2 = 1)) →
      parse_type (fuel + 2) mods0 ('{' :: name ++ '=' :: 'i' :: '}' :: after) cache =
        .ok (.strct mods0 name [.mk (.prim 0 'i') none none [] 0], after,
          cache ++ [(name, .strct mods0 name [.mk (.prim 0 'i') none none [] 0])])) ∧
    ((∃ e ∈ cache, e.1 = name ∧ tyTag e.2 = 1) →
      parse_type (fuel + 2) mods0 ('{' :: name ++ '=' :: 'i' :: '}' :: after) cache =
        .ok (.strct mods0 name [.mk (.prim 0 'i') none none [] 0], after, cache)) := by
  refine ⟨?_, ?_, ?_⟩
  · intro p hfind hkind
    rw [parse_type_bareref_struct fuel mods0 name after cache h,
      lookup_cached_type_eq 1 name mods0 cache, hfind]
    simp [hkind]
  · intro habs
    rw [parse_type_simple_def fuel mods0 name after cache h,
      cache_type_definition_strct_absent mods0 name _ cache (by simp) habs]
  · intro hpres
    rw [parse_type_simple_def fuel mods0 name after cache h,
      cache_type_definition_strct_present mods0 name _ cache hpres]

/-- C10 witness: a bare record reference against a cache whose entry of that
name is a union stays a placeholder; a full record definition of the same
name is inserted next to the union entry; re-defining it again is then
ignored. -/
theorem claim10_witness :
    parse_type 3 0 ('{' :: ['N'] ++ '}' :: []) [(['N'], .uni 0 ['N'] [.mk (.prim 0 'i') none none [] 0])] =
      .ok (.strct 0 ['N'] [], [], [(['N'], .uni 0 ['N'] [.mk (.prim 0 'i') none none [] 0])]) ∧
    parse_type 3 0 ('{' :: ['N'] ++ '=' :: 'i' :: '}' :: [])
      [(['N'], .uni 0 ['N'] [.mk (.prim 0 'i') none none [] 0])] =
      .ok (.strct 0 ['N'] [.mk (.prim 0 'i') none none [] 0], [],
        [(['N'], .uni 0 ['N'] [.mk (.prim 0 'i') none none [] 0]),
         (['N'], .strct 0 ['N'] [.mk (.prim 0 'i') none none [] 0])]) ∧
    parse_type 3 0 ('{' :: ['N'] ++ '=' :: 'i' :: '}' :: [])
      [(['N'], .strct 0 ['N'] [.mk (.prim 0 'i') none none [] 0])] =
      .ok (.strct 0 ['N'] [.mk (.prim 0 'i') none none [] 0], [],
        [(['N'], .strct 0 ['N'] [.mk (.prim 0 'i') none none [] 0])]) := by
  refine ⟨?_, ?_, ?_⟩
  · exact (claim10_theorem 2 0 ['N'] [] _ (by decide)).1 _ rfl (by decide)
  · exact (claim10_theorem 1 0 ['N'] [] _ (by decide)).2.1 (by decide)
  · exact (claim10_theorem 1 0 ['N'] [] _ (by decide)).2.2
      ⟨(['N'], .strct 0 ['N'] [.mk (.prim 0 'i') none none [] 0]), by simp, rfl, rfl⟩

/-- C4 counterexample: two successive successful calls of parse_type on the
same encoding string c4str, starting from the empty cache, return types with
different hashes (301 and 406): the first parse leaves the bare reference to
A unresolved but caches the full definition of A, so the second parse
resolves the reference and hashes differently. This refutes the claim that
independently parsing the same encoding twice always yields equal hashes. -/
theorem claim4_counterexample : c4run = some (301, 406) ∧ (301 : Nat) ≠ 406 :=
  ⟨rfl, by decide⟩

/-- C9: decoding the empty JSON array for a sized_by pointer field whose
numeric companion is writable (not excluded by no_deserialise) and not yet
seen succeeds: the field cell receives a null pointer (the element-count
zero branch returns before any element storage is allocated), the companion
receives zero, and the companion is marked seen with its length flagged as
derived from the array. -/
theorem claim9_theorem (rec : Dec) (fields : List Field) (i : Nat) (f len_field : Field)
    (svs : List SVal) (seen lfa : List Bool) (len_name : List Char) (len_idx : Nat)
    (fm : Nat) (pt : Ty) (lm : Nat) (lc : Char)
    (hf : f.type = .ptr fm pt)
    (h1 : json_field_length_name f = some len_name)
    (h2 : json_find_field_index fields len_name = some len_idx)
    (h3 : fields.get? len_idx = some len_field)
    (h4 : len_field.type = .prim lm lc)
    (h5 : isNumericCode lc = true)
    (h6 : field_has_modifier len_field "no_deserialise" = false)
    (h7 : seen.getD len_idx false = false) :
    json_parse_sized_field rec fields (.arrT []) i f svs seen lfa =
      some ((svs.set len_idx (.int 0)).set i (.ptr none),
            seen.set len_idx true, lfa.set len_idx true) := by
  unfold json_parse_sized_field
  simp only [List.getD_eq_getElem?_getD, List.get?_eq_getElem?] at h3 h7
  simp [h1, h2, h3, h4, h6, h7, hf, json_write_size_value_zero lm lc h5]

/-- C9 witness: a record of an unsigned int companion named len and an int
pointer field sized by it, decoding the empty array into fresh storage. -/
theorem claim9_witness :
    json_parse_sized_field (json_parse_value 5)
      [.mk (.prim 0 'I') (some ['l', 'e', 'n']) none [] 0,
       .mk (.ptr 0 (.prim 0 'i')) (some ['n', 'u', 'm', 's']) (some ['l', 'e', 'n']) [] 8]
      (.arrT []) 1
      (.mk (.ptr 0 (.prim 0 'i')) (some ['n', 'u', 'm', 's']) (some ['l', 'e', 'n']) [] 8)
      [.undef, .undef] [false, false] [false, false] =
      some ([.int 0, .ptr none], [true, false], [true, false]) :=
  claim9_theorem (json_parse_value 5) _ 1 _ _ _ _ _ ['l', 'e', 'n'] 0 0 (.prim 0 'i') 0 'I'
    rfl rfl rfl rfl rfl (by decide) rfl rfl

/-- C6 counterexample: a bare narrow-text pointer encodes with no escaping
at all (a raw newline passes straight into the quoted output), and the
fixed six-digit float notation is not full precision (two different stored
values print identically). -/
theorem claim6_counterexample :
    value_to_json 1 (.prim 0 '*') (.str (some ['a', '\n', 'b'])) =
      some ['"', 'a', '\n', 'b', '"'] ∧
    '"' :: esc_string ['a', '\n', 'b'] ++ ['"'] ≠ ['"', 'a', '\n', 'b', '"'] ∧
    value_to_json 1 (.prim 0 'd') (.flt (1 / 2 ^ 21)) =
      value_to_json 1 (.prim 0 'd') (.flt 0) ∧
    (1 / 2 ^ 21 : Rat) ≠ 0 := by
  refine ⟨rfl, by decide, ?_, by norm_num⟩
  have h0 : fmtFixed6 (1 / 2 ^ 21 : Rat) = fmtFixed6 0 := by
    have hr : (round (|(1 / 2 ^ 21 : Rat)| * 1000000) : Int) = 0 := by
      rw [abs_of_nonneg (by norm_num : (0 : Rat) ≤ 1 / 2 ^ 21), round_eq, Int.floor_eq_iff]
      constructor <;> norm_num
    have hr0 : (round (|(0 : Rat)| * 1000000) : Int) = 0 := by
      rw [abs_of_nonneg (le_refl (0 : Rat)), round_eq, Int.floor_eq_iff]
      constructor <;> norm_num
    simp only [fmtFixed6, hr, hr0]
    norm_num
  show some (fmtFixed6 (1 / 2 ^ 21 : Rat)) = some (fmtFixed6 0)
  rw [h0]

/-- C6 (amended): integers print as decimal text the decoder reads back
exactly; booleans print as the true/false literals; a bare narrow-text
pointer prints as a quoted byte string with every byte passed through
unchanged (no escaping); the escaping the spec describes exists only on the
sized-text path, where it round-trips through the unescaper for seven-bit
bytes; floating-point prints in fixed six-fraction-digit notation, not full
precision. -/
theorem claim6_theorem :
    (∀ v : Int, -(2 ^ 31 : Int) ≤ v → v ≤ 2 ^ 31 - 1 →
      value_to_json 1 (.prim 0 'i') (.int v) = some (intDec v) ∧
      json_parse_primitive (.prim 0 'i') (.prim (intDec v)) = some (.int v)) ∧
    (∀ b : Bool, value_to_json 1 (.prim 0 'B') (.bool b) =
      some (if b then "true".data else "false".data)) ∧
    (∀ bytes : Bytes, value_to_json 1 (.prim 0 '*') (.str (some bytes)) =
      some ('"' :: bytes ++ ['"'])) ∧
    (∀ s : Bytes, (∀ c ∈ s, c.toNat < 128) → jstr_unescape (esc_string s) = some s) ∧
    (∀ n : Nat, value_to_json 1 (.prim 0 'd') (.flt (n : Rat)) =
      some (natDec n ++ '.' :: "000000".data)) := by
  refine ⟨fun v h1 h2 => ⟨?_, ?_⟩, fun b => rfl, fun bytes => rfl, esc_string_unescape,
    fun n => ?_⟩
  · rw [show value_to_json 1 (.prim 0 'i') (.int v) = some (intDec (wrapSigned 32 v)) from rfl,
      wrapSigned32_eq v h1 h2]
  · rw [show json_parse_primitive (.prim 0 'i') (.prim (intDec v)) =
      (json_parse_signed_token (.prim (intDec v))).bind
        (fun w => if -(2 ^ 31 : Int) ≤ w ∧ w ≤ 2 ^ 31 - 1 then some (.int w) else none)
      from rfl, json_parse_signed_intDec v (by omega) (by omega)]
    show (if -(2 ^ 31 : Int) ≤ v ∧ v ≤ 2 ^ 31 - 1 then some (SVal.int v) else none) =
      some (SVal.int v)
    rw [if_pos (And.intro h1 h2)]
  · rw [show value_to_json 1 (.prim 0 'd') (.flt (n : Rat)) = some (fmtFixed6 (n : Rat)) from rfl,
      fmtFixed6_nat]

/-- C6 witness: 42 encodes as the text 42 and parses back; the sized-path
escaper round-trips a byte string containing a newline; 3.0 prints with six
zero fraction digits. -/
theorem claim6_witness :
    value_to_json 1 (.prim 0 'i') (.int 42) = some ['4', '2'] ∧
    json_parse_primitive (.prim 0 'i') (.prim ['4', '2']) = some (.int 42) ∧
    jstr_unescape (esc_string ['a', '\n', 'b']) = some ['a', '\n', 'b'] ∧
    value_to_json 1 (.prim 0 'd') (.flt (3 : Rat)) =
      some ['3', '.', '0', '0', '0', '0', '0', '0'] := by
  obtain ⟨ha, hb, hc, hd, he⟩ := claim6_theorem
  obtain ⟨h1, h2⟩ := ha 42 (by norm_num) (by norm_num)
  have hi : intDec 42 = ['4', '2'] := by
    rw [intDec, if_neg (by norm_num), natDec, natDec]
    decide
  have h3 : natDec 3 = ['3'] := by
    rw [natDec]
    decide
  rw [hi] at h1 h2
  have he3 := he 3
  rw [h3, show ((3 : Nat) : Rat) = (3 : Rat) by norm_num] at he3
  exact ⟨h1, h2, hd ['a', '\n', 'b'] (by decide), by rw [he3]; rfl⟩

/-- C2 (amended): when the explicit numeric companion of a sized_by field is
itself writable (it does not carry no_deserialise), a JSON object whose
companion literal disagrees with the actual count of the sibling value --
the element count of a JSON array into a pointer field, or the decoded byte
count of a JSON string into a narrow-text field -- is rejected in both key
orders: literal first, the stored size is compared against the sibling's
count before any element storage is allocated; sibling first, the derived
length is compared against the literal through the length-derived flag. -/
theorem claim2_theorem (fuel : Nat) (lenf arrf : Field) (lname klen knums : List Char)
    (lm : Nat) (lc : Char) (ltok : Bytes) (stok : JTok)
    (L A : Nat) (sm : Nat) (sname : List Char) (s0 s1 : SVal)
    (hlt : lenf.type = .prim lm lc)
    (hknd : field_has_modifier lenf "no_deserialise" = false)
    (hlk : json_field_json_key lenf = some klen)
    (hln : lenf.name = some lname)
    (hshape : (∃ am pt elems, arrf.type = .ptr am pt ∧ stok = .arrT elems ∧ A = elems.length) ∨
      (∃ am raw dec, arrf.type = .prim am '*' ∧ stok = .str raw ∧
        jstr_unescape raw = some dec ∧ A = dec.length))
    (haln : json_field_length_name arrf = some lname)
    (hak : json_field_json_key arrf = some knums)
    (hand : field_has_modifier arrf "no_deserialise" = false)
    (hkne : klen ≠ knums)
    (hLp : json_parse_size_token (.prim ltok) (.prim lm lc) = some L)
    (hLne : L ≠ A) :
    json_parse_value (fuel + 1) (.strct sm sname [lenf, arrf])
      (.objT [(klen, .prim ltok), (knums, stok)]) (.strct [s0, s1]) = none ∧
    json_parse_value (fuel + 1) (.strct sm sname [lenf, arrf])
      (.objT [(knums, stok), (klen, .prim ltok)]) (.strct [s0, s1]) = none := by
  have hlcstar : ¬ lc = '*' := by
    rintro rfl
    simp [json_parse_size_token, json_primitive_is_unsigned] at hLp
  have hfk : json_find_field_by_key [lenf, arrf] klen = some 0 := by
    simp [json_find_field_by_key, List.findIdx?_cons, hlk]
  have hfn : json_find_field_by_key [lenf, arrf] knums = some 1 := by
    simp [json_find_field_by_key, List.findIdx?_cons, hlk, hak, hkne]
  have hfi : json_find_field_index [lenf, arrf] lname = some 0 := by
    simp [json_find_field_index, List.findIdx?_cons, hln]
  rcases hshape with ⟨am, pt, elems, hat, rfl, rfl⟩ | ⟨am, raw, dec, hat, rfl, hraw, rfl⟩
  · have hsz1 : ∀ (rec : Dec) (sv : SVal), json_read_size_value (.prim lm lc) sv = some L →
        json_parse_sized_field rec [lenf, arrf] (.arrT elems) 1 arrf
          [sv, s1] [true, false] [false, false] = none := by
      intro rec sv hread
      simp only [json_parse_sized_field, haln, hfi, List.get?_cons_zero]
      rw [hlt]
      simp [hread, hat, hLne]
    have hsz2 : ∀ (rec : Dec),
        json_parse_sized_field rec [lenf, arrf] (.arrT elems) 1 arrf [s0, s1]
          [false, false] [false, false] = none ∨
        ∃ w X, json_parse_sized_field rec [lenf, arrf] (.arrT elems) 1 arrf [s0, s1]
            [false, false] [false, false] = some ([w, X], [true, false], [true, false]) ∧
          json_read_size_value (.prim lm lc) w = some elems.length := by
      intro rec
      simp only [json_parse_sized_field, haln, hfi, List.get?_cons_zero]
      rw [hlt]
      cases hw : json_write_size_value (.prim lm lc) elems.length with
      | none => left; simp [hat, hknd, hw]
      | some w =>
        have hr := read_of_write lm lc elems.length w hw
        by_cases hz : elems.length = 0
        · right
          refine ⟨w, .ptr none, ?_, hr⟩
          simp [hat, hknd, hw, hz]
        · by_cases hts : type_size pt = 0
          · left
            simp [hat, hknd, hw, hz, hts]
          · cases hel : json_parse_sized_elems rec pt elems with
            | none => left; simp [hat, hknd, hw, hz, hts, hel]
            | some block =>
              right
              refine ⟨w, .ptr (some block), ?_, hr⟩
              simp [hat, hknd, hw, hz, hts, hel]
    have hloopA : json_parse_struct (json_parse_value fuel) [lenf, arrf]
        [(klen, .prim ltok), (knums, .arrT elems)] [s0, s1] = none := by
      cases fuel with
      | zero =>
        simp [json_parse_struct, List.replicate, json_parse_struct_loop, hfk, hknd, hlt, hlcstar,
          json_parse_value]
      | succ fl =>
        cases hpv : json_parse_primitive (.prim lm lc) (.prim ltok) with
        | none =>
          simp [json_parse_struct, List.replicate, json_parse_struct_loop, hfk, hknd, hlt, hlcstar,
            json_parse_value, hpv]
        | some sv =>
          have hone := hsz1 (json_parse_value (fl + 1)) sv (size_read_of_parse lm lc ltok L sv hLp hpv)
          have hrv : json_parse_value (fl + 1) (Ty.prim lm lc) (JTok.prim ltok) s0 = some sv := by
            simp only [json_parse_value]
            exact hpv
          simp [json_parse_struct, List.replicate, json_parse_struct_loop, hfk, hfn, hknd, hand,
            hlt, hat, haln, hlcstar, hrv, hone]
    have hloopB : json_parse_struct (json_parse_value fuel) [lenf, arrf]
        [(knums, .arrT elems), (klen, .prim ltok)] [s0, s1] = none := by
      rcases hsz2 (json_parse_value fuel) with hnone | ⟨w, X, hres, hr⟩
      · simp [json_parse_struct, List.replicate, json_parse_struct_loop, hfn, hand, hat, haln,
          hnone]
      · simp [json_parse_struct, List.replicate, json_parse_struct_loop, hfn, hfk, hand, hknd,
          hat, haln, hlt, hres, hr, hLp, hLne]
    refine ⟨?_, ?_⟩
    · simp only [json_parse_value, curFields, hloopA]
    · simp only [json_parse_value, curFields, hloopB]
  · have hsz1 : ∀ (rec : Dec) (sv : SVal), json_read_size_value (.prim lm lc) sv = some L →
        json_parse_sized_field rec [lenf, arrf] (.str raw) 1 arrf
          [sv, s1] [true, false] [false, false] = none := by
      intro rec sv hread
      simp only [json_parse_sized_field, haln, hfi, List.get?_cons_zero]
      rw [hlt]
      simp [hread, hat, hraw, hLne]
    have hsz2 : ∀ (rec : Dec),
        json_parse_sized_field rec [lenf, arrf] (.str raw) 1 arrf [s0, s1]
          [false, false] [false, false] = none ∨
        ∃ w X, json_parse_sized_field rec [lenf, arrf] (.str raw) 1 arrf [s0, s1]
            [false, false] [false, false] = some ([w, X], [true, false], [true, false]) ∧
          json_read_size_value (.prim lm lc) w = some dec.length := by
      intro rec
      simp only [json_parse_sized_field, haln, hfi, List.get?_cons_zero]
      rw [hlt]
      cases hw : json_write_size_value (.prim lm lc) dec.length with
      | none => left; simp [hat, hknd, hraw, hw]
      | some w =>
        right
        refine ⟨w, .str (some dec), ?_, read_of_write lm lc dec.length w hw⟩
        simp [hat, hknd, hraw, hw]
    have hloopA : json_parse_struct (json_parse_value fuel) [lenf, arrf]
        [(klen, .prim ltok), (knums, .str raw)] [s0, s1] = none := by
      cases fuel with
      | zero =>
        simp [json_parse_struct, List.replicate, json_parse_struct_loop, hfk, hknd, hlt, hlcstar,
          json_parse_value]
      | succ fl =>
        cases hpv : json_parse_primitive (.prim lm lc) (.prim ltok) with
        | none =>
          simp [json_parse_struct, List.replicate, json_parse_struct_loop, hfk, hknd, hlt, hlcstar,
            json_parse_value, hpv]
        | some sv =>
          have hone := hsz1 (json_parse_value (fl + 1)) sv (size_read_of_parse lm lc ltok L sv hLp hpv)
          have hrv : json_parse_value (fl + 1) (Ty.prim lm lc) (JTok.prim ltok) s0 = some sv := by
            simp only [json_parse_value]
            exact hpv
          simp [json_parse_struct, List.replicate, json_parse_struct_loop, hfk, hfn, hknd, hand,
            hlt, hat, haln, hlcstar, hrv, hone]
    have hloopB : json_parse_struct (json_parse_value fuel) [lenf, arrf]
        [(knums, .str raw), (klen, .prim ltok)] [s0, s1] = none := by
      rcases hsz2 (json_parse_value fuel) with hnone | ⟨w, X, hres, hr⟩
      · simp [json_parse_struct, List.replicate, json_parse_struct_loop, hfn, hand, hat, haln,
          hnone]
      · simp [json_parse_struct, List.replicate, json_parse_struct_loop, hfn, hfk, hand, hknd,
          hat, haln, hlt, hres, hr, hLp, hLne]
    refine ⟨?_, ?_⟩
    · simp only [json_parse_value, curFields, hloopA]
    · simp only [json_parse_value, curFields, hloopB]

/-- C2 counterexample: when the companion length field carries
no_deserialise, its literal is skipped entirely (only the seen flag is set),
so an object whose length literal 5 disagrees with the sibling array of two
elements still decodes successfully against pre-initialised storage holding
length 2. -/
theorem claim2_counterexample :
    json_parse_value 3 (.strct 0 ['T']
        [.mk (.prim 0 'I') (some "len".data) none ["no_deserialise".data] 0,
         .mk (.ptr 0 (.prim 0 'i')) (some "nums".data) (some "len".data) [] 8])
      (.objT [("len".data, .prim "5".data),
              ("nums".data, .arrT [.prim "10".data, .prim "20".data])])
      (.strct [.int 2, .undef]) =
      some (.strct [.int 2, .ptr (some [.int 10, .int 20])]) ∧
    json_parse_size_token (.prim "5".data) (.prim 0 'I') = some 5 ∧
    (5 : Nat) ≠ 2 ∧
    [JTok.prim "10".data, JTok.prim "20".data].length = 2 :=
  ⟨rfl, rfl, by decide, rfl⟩

/-- C2 witness: a writable int companion named len rejects the literal 5 in
both key orders against a two-element sibling array into an int pointer
field, and against a two-byte sibling string into a narrow-text field. -/
theorem claim2_witness :
    (json_parse_value 3 (.strct 0 ['T']
        [.mk (.prim 0 'I') (some "len".data) none [] 0,
         .mk (.ptr 0 (.prim 0 'i')) (some "nums".data) (some "len".data) [] 8])
      (.objT [("len".data, .prim "5".data),
              ("nums".data, .arrT [.prim "10".data, .prim "20".data])])
      (.strct [.undef, .undef]) = none ∧
    json_parse_value 3 (.strct 0 ['T']
        [.mk (.prim 0 'I') (some "len".data) none [] 0,
         .mk (.ptr 0 (.prim 0 'i')) (some "nums".data) (some "len".data) [] 8])
      (.objT [("nums".data, .arrT [.prim "10".data, .prim "20".data]),
              ("len".data, .prim "5".data)])
      (.strct [.undef, .undef]) = none) ∧
    json_parse_value 3 (.strct 0 ['T']
        [.mk (.prim 0 'I') (some "len".data) none [] 0,
         .mk (.prim 0 '*') (some "name".data) (some "len".data) [] 8])
      (.objT [("len".data, .prim "5".data), ("name".data, .str ['a', 'b'])])
      (.strct [.undef, .undef]) = none ∧
    json_parse_value 3 (.strct 0 ['T']
        [.mk (.prim 0 'I') (some "len".data) none [] 0,
         .mk (.prim 0 '*') (some "name".data) (some "len".data) [] 8])
      (.objT [("name".data, .str ['a', 'b']), ("len".data, .prim "5".data)])
      (.strct [.undef, .undef]) = none :=
  ⟨claim2_theorem 2
    (.mk (.prim 0 'I') (some "len".data) none [] 0)
    (.mk (.ptr 0 (.prim 0 'i')) (some "nums".data) (some "len".data) [] 8)
    "len".data "len".data "nums".data 0 'I' "5".data
    (.arrT [.prim "10".data, .prim "20".data]) 5 2 0 ['T'] .undef .undef
    rfl rfl rfl rfl
    (Or.inl ⟨0, .prim 0 'i', [.prim "10".data, .prim "20".data], rfl, rfl, rfl⟩)
    rfl rfl rfl (by decide) rfl (by decide),
   claim2_theorem 2
    (.mk (.prim 0 'I') (some "len".data) none [] 0)
    (.mk (.prim 0 '*') (some "name".data) (some "len".data) [] 8)
    "len".data "len".data "name".data 0 'I' "5".data
    (.str ['a', 'b']) 5 2 0 ['T'] .undef .undef
    rfl rfl rfl rfl
    (Or.inr ⟨0, ['a', 'b'], ['a', 'b'], rfl, rfl, rfl, rfl⟩)
    rfl rfl rfl (by decide) rfl (by decide)⟩

/-- C3 counterexample: when the discriminator key occurs twice, only the
first unseen occurrence is stored and later duplicates are silently skipped,
but a payload seen before any discriminator is deferred to a second pass
that runs after the whole walk; the two orders therefore resolve the union
against different discriminator values and produce different records. -/
theorem claim3_counterexample :
    json_parse_value 3 (.strct 0 "T".data
        [.mk (.prim 0 'i') (some "tag".data) none [] 0,
         .mk (.uni 0 "U".data
            [.mk (.prim 0 'i') (some "a".data) none ["tag_value_0".data] 0,
             .mk (.prim 0 'l') (some "b".data) none ["tag_value_1".data] 0])
          (some "value".data) none ["tagged_by_tag".data] 4])
      (.objT [("tag".data, .prim "0".data), ("tag".data, .prim "1".data),
              ("value".data, .prim "7".data)])
      (.strct [.undef, .undef]) =
      some (.strct [.int 0, .uni (some (0, .int 7))]) ∧
    json_parse_value 3 (.strct 0 "T".data
        [.mk (.prim 0 'i') (some "tag".data) none [] 0,
         .mk (.uni 0 "U".data
            [.mk (.prim 0 'i') (some "a".data) none ["tag_value_0".data] 0,
             .mk (.prim 0 'l') (some "b".data) none ["tag_value_1".data] 0])
          (some "value".data) none ["tagged_by_tag".data] 4])
      (.objT [("value".data, .prim "7".data), ("tag".data, .prim "1".data),
              ("tag".data, .prim "0".data)])
      (.strct [.undef, .undef]) =
      some (.strct [.int 1, .uni (some (1, .int 7))]) ∧
    (SVal.strct [.int 0, .uni (some (0, .int 7))]) ≠
      (SVal.strct [.int 1, .uni (some (1, .int 7))]) :=
  ⟨rfl, rfl, by simp⟩

set_option synthInstance.maxHeartbeats 1000000 in
/-- C3 (amended): for a record of a discriminator field and a tagged-union
field whose keys each occur exactly once, exchanging the discriminator and
payload positions yields identical decode results: the payload-first order
defers the payload and the second pass issues exactly the member selection
and member decode the discriminator-first order issues inline. -/
theorem claim3_theorem (fuel : Nat) (tf uf : Field) (tname ktag kval : List Char)
    (tm : Nat) (tc : Char) (um : Nat) (uname : List Char) (members : List Field)
    (ttok vtok : JTok) (sm : Nat) (sname : List Char) (s0 s1 : SVal)
    (htt : tf.type = .prim tm tc)
    (htstar : tc ≠ '*')
    (htnd : field_has_modifier tf "no_deserialise" = false)
    (htk : json_field_json_key tf = some ktag)
    (htn : tf.name = some tname)
    (hut : uf.type = .uni um uname members)
    (hutag : json_field_tagged_by_name uf = some tname)
    (hund : field_has_modifier uf "no_deserialise" = false)
    (huk : json_field_json_key uf = some kval)
    (hkne : ktag ≠ kval) :
    json_parse_value (fuel + 1) (.strct sm sname [tf, uf])
      (.objT [(ktag, ttok), (kval, vtok)]) (.strct [s0, s1]) =
    json_parse_value (fuel + 1) (.strct sm sname [tf, uf])
      (.objT [(kval, vtok), (ktag, ttok)]) (.strct [s0, s1]) := by
  have hfk : json_find_field_by_key [tf, uf] ktag = some 0 := by
    simp [json_find_field_by_key, List.findIdx?_cons, htk]
  have hfv : json_find_field_by_key [tf, uf] kval = some 1 := by
    simp [json_find_field_by_key, List.findIdx?_cons, htk, huk, hkne]
  have hfi : json_find_field_index [tf, uf] tname = some 0 := by
    simp [json_find_field_index, List.findIdx?_cons, htn]
  cases fuel with
  | zero =>
    have htop : ∀ pairs, json_parse_value 1 (.strct sm sname [tf, uf]) (.objT pairs)
        (.strct [s0, s1]) =
        match json_parse_struct (json_parse_value 0) [tf, uf] pairs [s0, s1] with
        | none => none
        | some svs => some (.strct svs) := fun _ => rfl
    rw [htop, htop]
    have h0 : ∀ (ty : Ty) (tok : JTok) (sv : SVal), json_parse_value 0 ty tok sv = none :=
      fun _ _ _ => rfl
    simp [json_parse_struct, List.replicate, json_parse_struct_loop, hfk, hfv, htnd, hund,
      htt, htstar, hut, hutag, hfi, h0, json_parse_struct_resolve]
  | succ fl =>
    have htop : ∀ pairs, json_parse_value (fl + 1 + 1) (.strct sm sname [tf, uf]) (.objT pairs)
        (.strct [s0, s1]) =
        match json_parse_struct (json_parse_value (fl + 1)) [tf, uf] pairs [s0, s1] with
        | none => none
        | some svs => some (.strct svs) := fun _ => rfl
    rw [htop, htop]
    cases htv : json_parse_value (fl + 1) (.prim tm tc) ttok s0 with
    | none =>
      simp [json_parse_struct, List.replicate, json_parse_struct_loop, hfk, hfv, htnd, hund,
        htt, htstar, hut, hutag, hfi, htv, json_parse_struct_resolve]
    | some tv =>
      cases htu : json_parse_tagged_union_field (json_parse_value (fl + 1)) [tf, uf] vtok 1 uf 0
          [tv, s1] with
      | none =>
        simp [json_parse_struct, List.replicate, json_parse_struct_loop, hfk, hfv, htnd, hund,
          htt, htstar, hut, hutag, hfi, htv, htu, json_parse_struct_resolve]
      | some svs2 =>
        simp [json_parse_struct, List.replicate, json_parse_struct_loop, hfk, hfv, htnd, hund,
          htt, htstar, hut, hutag, hfi, htv, htu, json_parse_struct_resolve, json_required_ok]

/-- C3 witness: tag before value and value before tag decode a two-member
tagged union to the same record. -/
theorem claim3_witness :
    json_parse_value 3 (.strct 0 "T".data
        [.mk (.prim 0 'i') (some "tag".data) none [] 0,
         .mk (.uni 0 "U".data
            [.mk (.prim 0 'i') (some "a".data) none ["tag_value_0".data] 0,
             .mk (.prim 0 'l') (some "b".data) none ["tag_value_1".data] 0])
          (some "value".data) none ["tagged_by_tag".data] 4])
      (.objT [("tag".data, .prim "1".data), ("value".data, .prim "7".data)])
      (.strct [.undef, .undef]) =
    json_parse_value 3 (.strct 0 "T".data
        [.mk (.prim 0 'i') (some "tag".data) none [] 0,
         .mk (.uni 0 "U".data
            [.mk (.prim 0 'i') (some "a".data) none ["tag_value_0".data] 0,
             .mk (.prim 0 'l') (some "b".data) none ["tag_value_1".data] 0])
          (some "value".data) none ["tagged_by_tag".data] 4])
      (.objT [("value".data, .prim "7".data), ("tag".data, .prim "1".data)])
      (.strct [.undef, .undef]) :=
  claim3_theorem 2
    (.mk (.prim 0 'i') (some "tag".data) none [] 0)
    (.mk (.uni 0 "U".data
        [.mk (.prim 0 'i') (some "a".data) none ["tag_value_0".data] 0,
         .mk (.prim 0 'l') (some "b".data) none ["tag_value_1".data] 0])
      (some "value".data) none ["tagged_by_tag".data] 4)
    "tag".data "tag".data "value".data 0 'i' 0 "U".data
    [.mk (.prim 0 'i') (some "a".data) none ["tag_value_0".data] 0,
     .mk (.prim 0 'l') (some "b".data) none ["tag_value_1".data] 0]
    (.prim "1".data) (.prim "7".data) 0 "T".data .undef .undef
    rfl (by decide) rfl rfl rfl rfl rfl rfl rfl (by decide)

/-- C4 (amended): after one successful parse of an encoding string, the
cache is saturated for that string: re-parsing from the first parse's final
cache succeeds with the same final cursor and leaves the cache exactly
unchanged, so the second and every later parse of the string return the
identical type tree and hence equal hashes. (The first and second parse may
still differ, as the counterexample shows, when the first parse itself
caches a definition that a bare reference earlier in the same string had
left unresolved.) -/
theorem claim4_theorem (fl mods : Nat) (s : List Char) (c : Cache) (t1 : Ty)
    (s1 : List Char) (c1 : Cache)
    (h1 : parse_type fl mods s c = .ok (t1, s1, c1)) :
    ∃ t2, parse_type fl mods s c1 = .ok (t2, s1, c1) ∧
      ∀ t3 s3 c3, parse_type fl mods s c1 = .ok (t3, s3, c3) →
        hash_type t3 = hash_type t2 ∧ s3 = s1 ∧ c3 = c1 := by
  obtain ⟨t2, h2⟩ := parse_type_stab fl mods s c t1 s1 c1 h1 c1 (fun k hk => hk)
  refine ⟨t2, h2, ?_⟩
  intro t3 s3 c3 h3
  rw [h2] at h3
  simp only [Except.ok.injEq, Prod.mk.injEq] at h3
  obtain ⟨ht, hs, hc⟩ := h3
  exact ⟨by rw [ht], hs.symm, hc.symm⟩

/-- C4 witness: parsing a one-field record definition from its own
saturated cache returns the same cursor and cache again. -/
theorem claim4_witness :
    ∃ t2, parse_type 3 0 "{A=i}".data
        [(['A'], Ty.strct 0 ['A'] [Field.mk (Ty.prim 0 'i') none none [] 0])] =
      .ok (t2, [], [(['A'], Ty.strct 0 ['A'] [Field.mk (Ty.prim 0 'i') none none [] 0])]) ∧
      ∀ t3 s3 c3, parse_type 3 0 "{A=i}".data
          [(['A'], Ty.strct 0 ['A'] [Field.mk (Ty.prim 0 'i') none none [] 0])] =
          .ok (t3, s3, c3) →
        hash_type t3 = hash_type t2 ∧ s3 = [] ∧
          c3 = [(['A'], Ty.strct 0 ['A'] [Field.mk (Ty.prim 0 'i') none none [] 0])] :=
  claim4_theorem 3 0 "{A=i}".data []
    (Ty.strct 0 ['A'] [Field.mk (Ty.prim 0 'i') none none [] 0]) []
    [(['A'], Ty.strct 0 ['A'] [Field.mk (Ty.prim 0 'i') none none [] 0])] rfl

/-- C1 counterexample: a record with one unsigned int field holding
3000000000 (well-formed for unsigned int) encodes through a signed 32-bit
load as the text -1294967296, which the decoder's unsigned parse rejects,
so decode(encode(v)) fails instead of reproducing v. -/
theorem claim1_counterexample :
    value_to_json 2 (.strct 0 ['R'] [.mk (.prim 0 'I') (some ['x']) none [] 0])
        (.strct [.int 3000000000]) =
      some ('{' :: '"' :: 'x' :: '"' :: ':' :: ' ' :: "-1294967296".data ++ ['}']) ∧
    json_to_value 20 ('{' :: '"' :: 'x' :: '"' :: ':' :: ' ' :: "-1294967296".data ++ ['}'])
        (.strct 0 ['R'] [.mk (.prim 0 'I') (some ['x']) none [] 0]) (.strct [.undef]) =
      none := by
  constructor
  · have h2 : intDec (wrapSigned 32 3000000000) = "-1294967296".data := by
      rw [show wrapSigned 32 3000000000 = -1294967296 by unfold wrapSigned; decide]
      rw [intDec, if_pos (by norm_num)]
      rw [natDec, natDec, natDec, natDec, natDec, natDec, natDec, natDec, natDec, natDec]
      decide
    rw [show value_to_json 2 (.strct 0 ['R'] [.mk (.prim 0 'I') (some ['x']) none [] 0])
        (.strct [.int 3000000000]) =
      some ('{' :: ('"' :: 'x' :: '"' :: ':' :: ' ' ::
        (intDec (wrapSigned 32 3000000000) ++ [])) ++ ['}']) from rfl, h2]
    rfl
  · rfl

/-- C1 (amended): for every record whose named fields are signed integral
primitives holding values within their width's signed range (any 64-bit
signed value for l/q) or booleans, with pairwise-distinct quote-and-
backslash-free names, encoding succeeds with the exact brace-quote-colon
object text and decoding that text into any same-arity caller storage
reproduces every field's content. -/
theorem claim1_theorem (sm : Nat) (sname : Bytes) (L : List PEntry)
    (hdist : L.Pairwise (fun a b => a.1 ≠ b.1))
    (hsafe : ∀ x ∈ L, ∀ ch ∈ x.1, ch ≠ '"' ∧ ch ≠ '\\')
    (hval : ∀ x ∈ L, primRound x.2.2.1 (svOf x)) :
    value_to_json 2 (.strct sm sname (L.map fieldOf)) (.strct (L.map svOf)) =
      some ('{' :: jsegs (L.map pairOf) ++ ['}']) ∧
    ∀ cur0 : List SVal, cur0.length = L.length →
      json_to_value (L.length + 3) ('{' :: jsegs (L.map pairOf) ++ ['}'])
        (.strct sm sname (L.map fieldOf)) (.strct cur0) =
        some (.strct (L.map svOf)) := by
  constructor
  · rw [show value_to_json 2 (.strct sm sname (L.map fieldOf)) (.strct (L.map svOf)) =
        (match value_to_json_fields (value_to_json 1) (L.map fieldOf) (L.map svOf)
            (L.map fieldOf) (L.map svOf) true with
         | none => none
         | some body => some ('{' :: body ++ ['}'])) from rfl,
      value_to_json_fields_simple (L.map fieldOf) (L.map svOf) L true hval]
    rfl
  · intro cur0 hc0
    have hgood : ∀ p ∈ L.map pairOf, goodPair p := by
      intro p hp
      obtain ⟨x, hx, rfl⟩ := List.mem_map.mp hp
      obtain ⟨-, hne, hpl, -⟩ := fieldTxt_spec x.2.1 x.2.2.1 (svOf x) (hval x hx)
      exact ⟨hsafe x hx, hne, hpl⟩
    have htok : jsmn_value (L.length + 3)
        ('{' :: (jsegs (L.map pairOf) ++ '}' :: [])) =
        some (.objT ((L.map pairOf).map (fun p => (p.1, JTok.prim p.2))), []) :=
      jsmn_value_obj (L.length + 2) (L.map pairOf) [] (by simp) hgood
    have hW : ∀ w ∈ wlist 0 L,
        json_find_field_by_key (L.map fieldOf) w.2.1 = some w.1 ∧
        ∃ f, (L.map fieldOf).get? w.1 = some f ∧
          field_has_modifier f "no_deserialise" = false ∧
          json_field_length_name f = none ∧
          (∃ m c, f.type = .prim m c) ∧
          (∀ cur, json_parse_value (L.length + 2) f.type w.2.2.1 cur = some w.2.2.2) := by
      intro w hw
      obtain ⟨j, x, hg, rfl⟩ := wlist_mem L 0 w hw
      dsimp only
      refine ⟨?_, fieldOf x, ?_, rfl, rfl, ⟨x.2.1, x.2.2.1, rfl⟩, ?_⟩
      · rw [Nat.zero_add]
        exact find_by_key_simple L hdist j x hg
      · rw [Nat.zero_add, List.get?_map, hg]
        rfl
      · intro cur
        obtain ⟨-, -, -, hdec⟩ := fieldTxt_spec x.2.1 x.2.2.1 (svOf x)
          (hval x (List.get?_mem hg))
        rw [show json_parse_value (L.length + 2) (fieldOf x).type
            (JTok.prim (fieldTxt x.2.1 x.2.2.1 (svOf x))) cur =
          json_parse_primitive (.prim x.2.1 x.2.2.1)
            (.prim (fieldTxt x.2.1 x.2.2.1 (svOf x))) from rfl, hdec]
    have hseen : ∀ w ∈ wlist 0 L,
        (List.replicate (L.map fieldOf).length false).getD w.1 false = false :=
      fun w _ => getD_replicate_false _ _
    have hsvs : (wlist 0 L).foldl (fun s w => s.set w.1 w.2.2.2) cur0 = L.map svOf := by
      have h := foldl_set_wlist (fun w => w.2.2.2) L 0 cur0 (by omega)
      rw [h, wlist_map_val]
      simp
    have hsn : (wlist 0 L).foldl (fun s w => s.set w.1 true)
        (List.replicate (L.map fieldOf).length false) =
        List.replicate (L.map fieldOf).length true := by
      have h := foldl_set_wlist (fun _ => (true : Bool)) L 0
        (List.replicate (L.map fieldOf).length false) (by simp)
      rw [h, wlist_map_const_true]
      simp
    rw [json_to_value, jsmn_tokenize,
      show ('{' :: jsegs (L.map pairOf) ++ ['}'] : Bytes) =
        '{' :: (jsegs (L.map pairOf) ++ '}' :: []) from rfl,
      htok]
    simp only [Option.map_some']
    rw [show json_parse_value (L.length + 3) (.strct sm sname (L.map fieldOf))
        (.objT ((L.map pairOf).map (fun p => (p.1, JTok.prim p.2)))) (.strct cur0) =
      (match json_parse_struct (json_parse_value (L.length + 2)) (L.map fieldOf)
          ((L.map pairOf).map (fun p => (p.1, JTok.prim p.2))) cur0 with
       | none => none
       | some svs => some (.strct svs)) from rfl,
      json_parse_struct, ← wlist_map_pair L 0,
      json_parse_struct_loop_simple (json_parse_value (L.length + 2)) (L.map fieldOf)
        (wlist 0 L) cur0 _ _ _ hW hseen (wlist_pairwise L 0)]
    dsimp only
    rw [hsvs, hsn, json_parse_struct_resolve_nones]
    dsimp only
    rw [json_required_ok_replicate]
    rfl

/-- C1 witness: the two-field record {a: int 5, b: bool true} encodes and
decodes back to itself through the modelled tokenizer and struct decoder. -/
theorem claim1_witness :
    value_to_json 2 (.strct 0 ['R'] (c1L.map fieldOf)) (.strct (c1L.map svOf)) =
      some ('{' :: jsegs (c1L.map pairOf) ++ ['}']) ∧
    json_to_value (c1L.length + 3) ('{' :: jsegs (c1L.map pairOf) ++ ['}'])
      (.strct 0 ['R'] (c1L.map fieldOf)) (.strct [.undef, .undef]) =
      some (.strct (c1L.map svOf)) := by
  have h := claim1_theorem 0 ['R'] c1L
    (by decide)
    (by decide)
    (by intro x hx
        rcases List.mem_cons.mp hx with rfl | hx
        · exact Or.inl ⟨5, rfl, Or.inr (Or.inr (Or.inl ⟨rfl, by norm_num, by norm_num⟩))⟩
        · rcases List.mem_cons.mp hx with rfl | hx
          · exact Or.inr ⟨true, rfl, rfl⟩
          · simp at hx)
  exact ⟨h.1, h.2 [.undef, .undef] rfl⟩

end Reflect
